import Mathlib

/-!
# Component lifecycle and update scheduling (src/Core/Component.js)

A shallow embedding of Component.js.  One component element and its instance
form the `World`; the functions of Component.js are state transformers on it.
Calls that leave Component.js (lifecycle hooks, render, the reconciler, the ref
resolver, the error boundary dispatcher, user callbacks) are recorded in a
trace, and what they answer is given by the element's owner and by an `Env`.
-/

namespace Dyo

/-! ## Values -/

/-- JavaScript values, as far as Component.js tells them apart: by truthiness,
by `constructor` (Promise, Function, anything else), by `typeof` and by their
own properties. -/
inductive Value where
  | undefined
  | null
  | bool (b : Bool)
  | number (n : Int)
  | string (s : String)
  | object (fields : List (String × Value))
  | promise (id : Nat)
  /-- A function whose `constructor` is `Function`. -/
  | func (id : Nat)
  /-- A callable whose `constructor` is not `Function`, such as an async
  function or a generator function: `typeof` gives `'function'` for it too. -/
  | callable (id : Nat)

/-- The properties of a mapping, in insertion order. -/
abbrev Fields := List (String × Value)

/-- Truthiness of a value (`if (state)`, `a || b`). -/
def Value.truthy : Value → Bool
  | .undefined => false
  | .null => false
  | .bool b => b
  | .number n => n != 0
  | .string s => s != ""
  | .object _ => true
  | .promise _ => true
  | .func _ => true
  | .callable _ => true

/-- The own enumerable properties a merge copies from a source: those of a
mapping, none for the other values. -/
def Value.fields : Value → Fields
  | .object fs => fs
  | _ => []

/-- Property read `o[k]`. -/
def getField (k : String) : Fields → Option Value
  | [] => none
  | (k1, v1) :: rest => if k1 = k then some v1 else getField k rest

/-- Property write `o[k] = v`: an existing key keeps its place and takes the new
value, a new key is appended. -/
def setField (k : String) (v : Value) : Fields → Fields
  | [] => [(k, v)]
  | (k1, v1) :: rest => if k1 = k then (k, v) :: rest else (k1, v1) :: setField k v rest

/-- Copy every property of `source` onto `target`, one write per property, in order. -/
def assignFields (target source : Fields) : Fields :=
  source.foldl (fun acc kv => setField kv.1 kv.2 acc) target

/-- Modelled from the spec: `assign` of Utility.js, which is not among the
sources.  The spec calls it the shallow merge: `assign(target, a, b)` copies the
properties of `a` and then of `b` onto `target`, value by value, and never
descends into a value. -/
def assign (target a b : Value) : Value :=
  .object (assignFields (assignFields target.fields a.fields) b.fields)

/-- The keys of a mapping. -/
def keys (fs : Fields) : List String := fs.map Prod.fst

/-- What a shallow merge of `source` over `target` holds under a key: the value
of `source` when it has the key, whole and unmerged, else the value of `target`. -/
def mergedField (k : String) (target source : Fields) : Option Value :=
  match getField k source with
  | some v => some v
  | none => getField k target

/-! ## Constants (src/Core/Constant.js) -/

def LifecycleCallback : String := "callback"
def LifecycleRender : String := "render"
def LifecycleConstructor : String := "constructor"
def LifecycleAsync : String := "async"
def LifecycleState : String := "setState"
def LifecycleWillReceiveProps : String := "componentWillReceiveProps"
def LifecycleShouldUpdate : String := "shouldComponentUpdate"
def LifecycleWillUpdate : String := "componentWillUpdate"
def LifecycleDidUpdate : String := "componentDidUpdate"
def LifecycleWillUnmount : String := "componentWillUnmount"
def LifecycleChildContext : String := "getChildContext"
def LifecycleInitialState : String := "getInitialState"

/-- The work statuses `WorkSync` and `WorkTask`.  Component.js compares and
assigns them, but their declaration is not among the sources, so their values
are parameters of the model. -/
structure Work where
  WorkSync : Int
  WorkTask : Int

/-! ## Data model -/

/-- What a call of user code answers: it returns a value or throws one. -/
inductive Outcome where
  | ret (v : Value)
  | thr (e : Value)

/-- The data a user function can read from the instance it is called on. -/
structure This where
  state : Value
  props : Value
  context : Value
  refs : Value

/-- A user function: given `this` and its arguments it returns or throws. -/
abbrev Hook := This → List Value → Outcome

/-- A ref request: null, a string key or a function. -/
inductive Ref where
  | null
  | key (s : String)
  | fn (id : Nat)
  deriving DecidableEq

/-- A reference to the element of the world, or null: `this[SymbolElement]` is
null until the mount binds it. -/
inductive ElementRef where
  | null
  | ref
  deriving DecidableEq

/-- The component instance.  `methods` are the lifecycle hooks found on the
instance itself, which componentMount reads when the instance is the owner. -/
structure Instance where
  state : Value
  props : Value
  context : Value
  refs : Value
  render : Hook
  element : ElementRef
  methods : String → Option Hook := fun _ => none

/-- The data of the instance, as user code sees it. -/
def Instance.this (i : Instance) : This :=
  { state := i.state, props := i.props, context := i.context, refs := i.refs }

/-- What componentMount reads from `element.type`. -/
structure ElementType where
  /-- The method `type.prototype.render`, none when there is no prototype or the
  prototype has no render. -/
  render : Option Hook
  /-- Whether `prototype[SymbolComponent] === SymbolComponent`. -/
  tagged : Bool
  /-- The call `new type(props, context)`: the value the constructor leaves in
  `this.state`, or what it throws. -/
  construct : Value → Value → Outcome
  /-- The lifecycle hooks an instance of the type has. -/
  methods : String → Option Hook
  /-- The lifecycle hooks the type itself has, as own properties. -/
  statics : String → Option Hook
  /-- The type called as a function, as the render of a function component. -/
  call : Hook

/-- A type that is no component: no render, no hooks, and calling it is a TypeError. -/
def ElementType.plain : ElementType :=
  { render := none
    tagged := false
    construct := fun _ _ => .thr (.string "TypeError")
    methods := fun _ => none
    statics := fun _ => none
    call := fun _ _ => .thr (.string "TypeError") }

/-- The element: `owner[name]` is the owner's hook of that name, if it has one. -/
structure Element where
  owner : String → Option Hook
  props : Value
  context : Value
  state : Value
  work : Int
  ref : Ref
  DOM : Option Nat
  children : Value
  type : ElementType := ElementType.plain

/-- The `snapshot` argument of componentUpdate: the fields it reads from it. -/
structure Snapshot where
  props : Value
  ref : Ref

/-- The element passed as its own snapshot, as enqueueUpdate does. -/
def Element.snapshot (e : Element) : Snapshot := { props := e.props, ref := e.ref }

/-- A continuation handed to `enqueue`, one constructor per closure of Component.js. -/
inductive Task where
  /-- The closure `enqueueUpdate(getHostChildren(instance), instance, callback, signature)`. -/
  | hostUpdate (callback : Value) (signature : Nat)
  /-- The closure `enqueueUpdate(element, instance, callback, signature)`. -/
  | update (element : ElementRef) (callback : Value) (signature : Nat)
  /-- The closure `enqueueState(element, instance, value, callback)`. -/
  | state (element : ElementRef) (value callback : Value)

/-- The handlers enqueuePending attaches to a promise with `then` and `catch`. -/
structure Reaction where
  promise : Nat
  element : ElementRef
  callback : Value

/-- The handler componentUnmount attaches with `then` to the promise a
will-unmount hook returned: the closure
`function () { element.state = void commitUnmount(children, parent, signature) }`. -/
structure Removal where
  promise : Nat
  children : Value
  parent : Value
  signature : Nat

/-- The calls observed, in order: componentUpdate itself and every call that
leaves Component.js. -/
inductive Event where
  | componentUpdate (signature : Nat)
  | lifecycle (name : String) (args : List Value)
  | render (props state context : Value)
  | reconcileElement (children next : Value)
  | commitRef (ref : Ref) (signature : Nat)
  | errorBoundary (e : Value) (phase : String) (rethrow : Nat)
  | callback (f : Nat) (state props : Value)
  /-- The call of a callable that is no plain function, as completion callback. -/
  | invoke (g : Nat) (state props : Value)
  | construct (props context : Value)
  | commitUnmount (children parent : Value) (signature : Nat)

/-- One element, its instance, the continuations scheduled through `enqueue`,
the handlers attached to promises, and the trace of calls.  `contextShared`
holds when `instance.context` and `element.context` are one and the same object,
the only object Component.js mutates in place while another slot may hold it. -/
structure World where
  element : Element
  inst : Instance
  contextShared : Bool
  queue : List Task
  reactions : List Reaction
  trace : List Event
  /-- The handlers componentUnmount has attached to will-unmount promises. -/
  removals : List Removal := []

/-- What is outside Component.js and outside the element. -/
structure Env where
  /-- The behaviour of the function values (updaters, completion callbacks). -/
  call : Nat → Hook
  /-- What the error boundary dispatcher finds for an error and a phase: the
  recovery value of a boundary, or none when no ancestor handles the error. -/
  boundary : Value → String → Option Value
  /-- Normalisation of a render result into an element. -/
  commitElement : Value → Value
  /-- The reconciler: it returns or throws. -/
  reconcileElement : Value → Value → Outcome
  /-- The ref resolver: it returns or throws. -/
  commitRef : Ref → Nat → Outcome
  /-- The host removal of the commit layer: it returns or throws. -/
  commitUnmount : Value → Value → Nat → Outcome := fun _ _ _ => .ret .undefined
  /-- What the call of a callable that is no plain function returns, a promise
  or a generator: the call runs none of its body to an exception, it returns. -/
  invoke : Nat → Value := fun _ => .undefined

/-! ## State transformers -/

/-- The result of running a function of Component.js: it returns, it throws
(the world is the one at the throw), or the model ran out of fuel. -/
inductive Result (α : Type) where
  | ok (a : α) (w : World)
  | throw (e : Value) (w : World)
  | diverge

/-- A function of Component.js, as a transformer of the world. -/
def M (α : Type) : Type := World → Result α

/-- Return a value, leaving the world as it is. -/
def M.pure {α : Type} (a : α) : M α := fun w => .ok a w

/-- Sequencing: a throw or a divergence of the first part ends the whole. -/
def M.bind {α β : Type} (m : M α) (f : α → M β) : M β := fun w =>
  match m w with
  | .ok a w1 => f a w1
  | .throw e w1 => .throw e w1
  | .diverge => .diverge

instance : Monad M where
  pure := M.pure
  bind := M.bind

/-- Read the world. -/
def getWorld : M World := fun w => .ok w w

/-- Change the world. -/
def modifyWorld (f : World → World) : M Unit := fun w => .ok () (f w)

/-- Raise an exception. -/
def throwValue {α : Type} (e : Value) : M α := fun w => .throw e w

/-- The statement `try { m } catch (e) { h e }`. -/
def tryCatch {α : Type} (m : M α) (h : Value → M α) : M α := fun w =>
  match m w with
  | .ok a w1 => .ok a w1
  | .throw e w1 => h e w1
  | .diverge => .diverge

/-- Record a call in the trace. -/
def logEvent (ev : Event) : M Unit :=
  modifyWorld fun w => { w with trace := w.trace ++ [ev] }

/-- Run user code: its outcome becomes a return or a throw. -/
def liftOutcome : Outcome → M Value
  | .ret v => M.pure v
  | .thr e => throwValue e

/-! ## Collaborators outside Component.js -/

/-- Modelled from the spec: `enqueue` of Utility.js, the batching primitive,
which is not among the sources.  A scheduled continuation runs after the
current synchronous turn, in submission order: scheduling appends it to the queue. -/
def enqueue (t : Task) : M Unit :=
  modifyWorld fun w => { w with queue := w.queue ++ [t] }

/-- Modelled from the spec: `errorBoundary` of Error.js, the error boundary
dispatcher, which is not among the sources.  When an ancestor handles the error
the dispatcher returns the recovery value; when none does and `rethrow` is set
the error is propagated to the caller. -/
def errorBoundary (env : Env) (e : Value) (phase : String) (rethrow : Nat) : M Value := do
  logEvent (.errorBoundary e phase rethrow)
  match env.boundary e phase with
  | some v => pure v
  | none => if rethrow = 0 then pure .undefined else throwValue e

/-- Call the owner's hook `name` on the instance; a missing hook is a TypeError. -/
def callHook (name : String) (args : List Value) : M Value := do
  logEvent (.lifecycle name args)
  let w ← getWorld
  match w.element.owner name with
  | some h => liftOutcome (h w.inst.this args)
  | none => throwValue (.string "TypeError")

/-- Modelled from the spec: `lifecycleUpdate` of Lifecycle.js, which is not
among the sources.  It invokes the owner's hook on the instance with the given
arguments and returns what the hook returns; a throwing hook is routed to the
error boundary dispatcher with the hook's name as phase, after which the result
is undefined. -/
def lifecycleUpdate (env : Env) (name : String) (args : List Value) : M Value :=
  tryCatch (callHook name args) fun e => do
    let _ ← errorBoundary env e name 1
    pure .undefined

/-- Modelled from the spec: `lifecycleData` of Lifecycle.js, which is not among
the sources.  It invokes the owner's hook on the instance (the spec names no
arguments) and returns its result, with the error routing of lifecycleUpdate. -/
def lifecycleData (env : Env) (name : String) : M Value :=
  tryCatch (callHook name []) fun e => do
    let _ ← errorBoundary env e name 1
    pure .undefined

/-- Modelled from the spec: `merge` of Utility.js, which is not among the
sources, applied to `element.context`: the properties of the source are written
into the context object in place, so the instance sees them too when it holds
the same object. -/
def mergeContext (source : Value) : M Unit :=
  modifyWorld fun w =>
    match w.element.context with
    | .object fs =>
      let merged := Value.object (assignFields fs source.fields)
      { w with
        element := { w.element with context := merged }
        inst := if w.contextShared then { w.inst with context := merged } else w.inst }
    | _ => w

/-- Modelled from the spec: `reconcileElement` of Reconcile.js, which is not
among the sources.  The call is recorded; whether the reconciler returns or
throws is given by the environment. -/
def reconcileElement (env : Env) (children next : Value) : M Unit := do
  logEvent (.reconcileElement children next)
  let _ ← liftOutcome (env.reconcileElement children next)
  pure ()

/-- Modelled from the spec: `commitRef` of Refs.js, the ref resolver, which is
not among the sources.  The call is recorded; whether the resolver returns or
throws is given by the environment. -/
def commitRef (env : Env) (ref : Ref) (signature : Nat) : M Unit := do
  logEvent (.commitRef ref signature)
  let _ ← liftOutcome (env.commitRef ref signature)
  pure ()

/-- Modelled from the spec: `lifecycleMount` of Lifecycle.js, which is not among
the sources.  It invokes the owner's hook on the instance (the spec names no
arguments) and returns its result, with the error routing of lifecycleUpdate. -/
def lifecycleMount (env : Env) (name : String) : M Value :=
  tryCatch (callHook name []) fun e => do
    let _ ← errorBoundary env e name 1
    pure .undefined

/-- Modelled from the spec: `commitUnmount` of Commit.js, the host removal,
which is not among the sources.  The call is recorded; whether the commit
layer returns or throws is given by the environment. -/
def commitUnmount (env : Env) (children parent : Value) (signature : Nat) : M Unit := do
  logEvent (.commitUnmount children parent signature)
  let _ ← liftOutcome (env.commitUnmount children parent signature)
  pure ()

/-! ## Component.js -/

/-- Component.js, the constructor `Component` called without arguments: refs and
state are null, props and context undefined.  Its prototype has forceUpdate and
setState and no render, so calling `render` on such an instance is a TypeError. -/
def Component : Instance :=
  { state := .null
    props := .undefined
    context := .undefined
    refs := .null
    render := fun _ _ => .thr (.string "TypeError")
    element := .null
    methods := fun _ => none }

/-- Component.js, createComponent applied to the prototype of `element.type`:
setState and forceUpdate are defined on it and it is tagged as a component. -/
def createComponent : M Unit :=
  modifyWorld fun w =>
    { w with element := { w.element with type := { w.element.type with tagged := true } } }

/-- Component.js, getChildElement: render the instance and normalise the
result; a throwing render is routed to the dispatcher, whose answer is returned. -/
def getChildElement (env : Env) : M Value :=
  tryCatch
    (do
      let w ← getWorld
      logEvent (.render w.inst.props w.inst.state w.element.context)
      let r ← liftOutcome (w.inst.render w.inst.this [w.inst.props, w.inst.state, w.element.context])
      pure (env.commitElement r))
    fun e => errorBoundary env e LifecycleRender 1

/-- Component.js, getChildContext. -/
def getChildContext (env : Env) : M Value := do
  let w ← getWorld
  if (w.element.owner LifecycleChildContext).isSome then
    let r ← lifecycleData env LifecycleChildContext
    if r.truthy then pure r
    else
      let w1 ← getWorld
      if w1.element.context.truthy then pure w1.element.context else pure (.object [])
  else
    if w.element.context.truthy then pure w.element.context else pure (.object [])

/-- Assignment `element.work = v`. -/
def setWork (v : Int) : M Unit :=
  modifyWorld fun w => { w with element := { w.element with work := v } }

/-- Component.js, componentUpdate (lines 95-140).  `nextContext` is a reference
to `instance.context`, so each hook is handed the context as it is at the call. -/
def componentUpdate (W : Work) (env : Env) (snapshot : Snapshot) (signature : Nat) : M Unit := do
  logEvent (.componentUpdate signature)
  let w ← getWorld
  if w.element.work < W.WorkSync then
    pure ()
  else
    setWork W.WorkTask
    let owner := w.element.owner
    let prevState := w.inst.state
    let nextState := if signature > 1 then assign (.object []) prevState w.element.state else prevState
    let prevProps := w.element.props
    let nextProps := snapshot.props
    let _ ← (if (owner LifecycleChildContext).isSome then
        (do
          let c ← getChildContext env
          mergeContext c)
      else pure ())
    -- switch (signature): case 0 breaks, case 1 falls through to case 2
    let _ ← (if signature = 1 ∧ (owner LifecycleWillReceiveProps).isSome then
        (do
          let nextContext := (← getWorld).inst.context
          lifecycleUpdate env LifecycleWillReceiveProps [nextProps, nextContext])
      else pure .undefined)
    let shouldUpdate ← (if (signature = 1 ∨ signature = 2) ∧ (owner LifecycleShouldUpdate).isSome then
        (do
          let nextContext := (← getWorld).inst.context
          lifecycleUpdate env LifecycleShouldUpdate [nextProps, nextState, nextContext])
      else pure .undefined)
    match shouldUpdate with
    | .bool false => setWork W.WorkSync
    | _ =>
      let _ ← (if (owner LifecycleWillUpdate).isSome then
          (do
            let nextContext := (← getWorld).inst.context
            lifecycleUpdate env LifecycleWillUpdate [nextProps, nextState, nextContext])
        else pure .undefined)
      modifyWorld fun w1 => { w1 with inst := { w1.inst with state := nextState, props := nextProps } }
      let children := (← getWorld).element.children
      let next ← getChildElement env
      reconcileElement env children next
      let _ ← (if (owner LifecycleDidUpdate).isSome then
          (do
            let nextContext := (← getWorld).inst.context
            lifecycleUpdate env LifecycleDidUpdate [prevProps, prevState, nextContext])
        else pure .undefined)
      let _ ← (if (← getWorld).element.ref ≠ snapshot.ref then commitRef env snapshot.ref 2 else pure ())
      setWork W.WorkSync

/-- Component.js, enqueueCallback: call `callback` on the instance with
`(instance.state, instance.props)`; a throw is routed to the dispatcher with
phase `setState:callback` and the result is then undefined.  Calling a value
that is not callable is a TypeError. -/
def enqueueCallback (env : Env) (callback : Value) : M Value :=
  tryCatch
    (do
      match callback with
      | .func f =>
        let w ← getWorld
        logEvent (.callback f w.inst.state w.inst.props)
        liftOutcome (env.call f w.inst.this [w.inst.state, w.inst.props])
      | .callable g =>
        let w ← getWorld
        logEvent (.invoke g w.inst.state w.inst.props)
        pure (env.invoke g)
      | _ => throwValue (.string "TypeError"))
    fun e => do
      let _ ← errorBoundary env e (LifecycleState ++ ":" ++ LifecycleCallback) 1
      pure .undefined

/-- Component.js, enqueuePending: attach the two handlers to the promise. -/
def enqueuePending (element : ElementRef) (state callback : Value) : M Unit :=
  match state with
  | .promise p =>
    modifyWorld fun w => { w with reactions := w.reactions ++ [{ promise := p, element := element, callback := callback }] }
  | _ => throwValue (.string "TypeError")

/-- Component.js, getHostChildren, for a component instance: its element. -/
def getHostChildren (w : World) : ElementRef := w.inst.element

/-- Component.js, enqueueUpdate (lines 229-247). -/
def enqueueUpdate (W : Work) (env : Env) (element : ElementRef) (callback : Value) (signature : Nat) : M Unit := do
  match element with
  | .null => enqueue (.hostUpdate callback signature)
  | .ref =>
    let w ← getWorld
    if w.element.work < W.WorkSync then
      enqueue (.update element callback signature)
    else if w.element.DOM.isNone then
      pure ()
    else
      componentUpdate W env w.element.snapshot signature
      -- typeof callback === 'function'
      match callback with
      | .func _ =>
        let _ ← enqueueCallback env callback
        pure ()
      | .callable _ =>
        let _ ← enqueueCallback env callback
        pure ()
      | _ => pure ()

/-- Component.js, enqueueState (lines 180-192).  The switch is on
`state.constructor`: Promise, Function, anything else; a callable whose
constructor is not Function takes the default case and is not called.  The fuel
bounds the chain of updater functions that return updater functions. -/
def enqueueState (W : Work) (env : Env) : Nat → ElementRef → Value → Value → M Unit
  | fuel, element, state, callback =>
    if state.truthy then
      match state with
      | .promise _ => enqueuePending element state callback
      | .func _ =>
        match fuel with
        | 0 => fun _ => .diverge
        | n + 1 => do
          let r ← enqueueCallback env state
          enqueueState W env n element r callback
      | _ =>
        match element with
        | .null => throwValue (.string "TypeError")
        | .ref => do
          modifyWorld fun w =>
            { w with element := { w.element with
                state := if w.element.work = W.WorkSync then state
                         else assign (.object []) w.element.state state } }
          enqueueUpdate W env element callback 2
    else pure ()

/-- Component.js, getInitialState (lines 255-267).  The Promise case registers
the promise and falls through to the Boolean case, which breaks out of the
switch; `instance` is the instance of the world. -/
def getInitialState (element : ElementRef) (state : Value) : M Value := do
  let verbatim ← (if state.truthy then
      (match state with
        | .promise _ => (do
            enqueuePending element state .undefined
            pure false)
        | .bool _ => pure false
        | _ => pure true)
    else pure false)
  if verbatim then
    pure state
  else
    let w ← getWorld
    pure (if w.inst.state.truthy then w.inst.state else .object [])

/-- The instance `new element.type(props, context)` gives when the constructor
leaves `state`: it has the render and the hooks of the prototype. -/
def constructed (w : World) (state : Value) : Instance :=
  { state := state
    props := w.element.props
    context := w.element.context
    refs := .null
    render := w.element.type.render.getD (fun _ _ => .thr (.string "TypeError"))
    element := .null
    methods := w.element.type.methods }

/-- Component.js, getChildInstance (lines 273-281): `new element.type(props,
context)`, an instance with the hooks and the render of the type and the state
its constructor left; when the constructor throws, the error goes to the
dispatcher with phase `constructor` and the result is `new Component()`. -/
def getChildInstance (env : Env) : M Instance := do
  let w ← getWorld
  tryCatch
    (do
      logEvent (.construct w.element.props w.element.context)
      let state ← liftOutcome (w.element.type.construct w.element.props w.element.context)
      pure (constructed w state))
    fun e => do
      let _ ← errorBoundary env e LifecycleConstructor 1
      pure Component

/-- Whether getChildContext answers with the object the hook returned, and not
with `element.context` itself: the hook is there and returns a truthy value. -/
def ownChildContext (w : World) : Bool :=
  match w.element.owner LifecycleChildContext with
  | some h =>
    match h w.inst.this [] with
    | .ret v => v.truthy
    | .thr _ => false
  | none => false

/-- The assignment `children.context = context` on the child element: a
property write on an object, a TypeError on null and undefined, and nothing on
any other value. -/
def setChildContext (children context : Value) : M Value :=
  match children with
  | .object fs => pure (.object (setField "context" context fs))
  | .undefined => throwValue (.string "TypeError")
  | .null => throwValue (.string "TypeError")
  | v => pure v

/-- Component.js, componentMount (lines 52-88).  `World.inst` is the slot
`element.instance`: the mount puts the new instance there. -/
def componentMount (env : Env) : M Value := do
  let type := (← getWorld).element.type
  -- if (prototype && prototype.render)
  let created ← (if type.render.isSome then
      (do
        let _ ← (if type.tagged then pure () else createComponent)
        getChildInstance env)
    else pure { Component with render := type.call })
  let owner := if type.render.isSome then created.methods else type.statics
  modifyWorld fun w =>
    let context := if w.element.context.truthy then w.element.context else .object []
    { w with
      element := { w.element with owner := owner, context := context }
      inst := { created with element := .ref, refs := .object [], props := w.element.props,
                              context := context }
      contextShared := true }
  let _ ← (if (owner LifecycleInitialState).isSome then
      (do
        let r ← lifecycleData env LifecycleInitialState
        let state ← getInitialState .ref r
        modifyWorld fun w => { w with inst := { w.inst with state := state } })
    else
      modifyWorld fun w =>
        if w.inst.state.truthy then w else { w with inst := { w.inst with state := .object [] } })
  let _ ← (if (owner LifecycleChildContext).isSome then
      (do
        let own := ownChildContext (← getWorld)
        let c ← getChildContext env
        modifyWorld fun w =>
          { w with element := { w.element with context := c }
                   contextShared := w.contextShared && !own })
    else pure ())
  let children ← getChildElement env
  let children ← setChildContext children (← getWorld).element.context
  modifyWorld fun w => { w with element := { w.element with children := children } }
  pure children

/-- Component.js, componentUnmount (lines 149-158).  The result is true when
the removal is deferred and undefined otherwise. -/
def componentUnmount (env : Env) (children parent : Value) (signature : Nat) (resolve : Int) :
    M Value := do
  let w ← getWorld
  let deferred ← (if resolve > 0 ∧ (w.element.owner LifecycleWillUnmount).isSome then
      (do
        let r ← lifecycleMount env LifecycleWillUnmount
        modifyWorld fun w1 => { w1 with element := { w1.element with state := r } }
        match r with
        | .promise p => (do
            modifyWorld fun w1 => { w1 with removals := w1.removals ++
              [{ promise := p, children := children, parent := parent, signature := signature }] }
            pure true)
        | _ => pure false)
    else pure false)
  if deferred then
    pure (.bool true)
  else
    commitUnmount env children parent signature
    pure .undefined

/-- The fulfilment handler of componentUnmount: remove the host, then clear
`element.state`. -/
def Removal.onFulfilled (env : Env) (r : Removal) : M Unit := do
  commitUnmount env r.children r.parent r.signature
  modifyWorld fun w => { w with element := { w.element with state := .undefined } }

/-- How a promise settles: it is fulfilled with a value or rejected with a reason. -/
inductive Settlement where
  | fulfilled (value : Value)
  | rejected (reason : Value)

/-- What componentUnmount has attached to the promise of the will-unmount hook,
run when the promise settles.  The source calls `then` with one argument, the
fulfilment handler, and attaches nothing else: on fulfilment the handler runs,
on rejection no code of Component.js runs. -/
def Removal.settle (env : Env) (r : Removal) : Settlement → M Unit
  | .fulfilled _ => r.onFulfilled env
  | .rejected _ => pure ()

/-- The property of `refs` a ref names: the key itself, `null` as the string
"null"; a function names none. -/
def Ref.property : Ref → Option String
  | .null => some "null"
  | .key s => some s
  | .fn _ => none

/-- The statement `delete o[k]`. -/
def deleteField (k : String) : Fields → Fields
  | [] => []
  | (k1, v1) :: rest => if k1 = k then deleteField k rest else (k1, v1) :: deleteField k rest

/-- Component.js, componentRef (lines 165-172), called on the instance that
owns the refs: `ref` is `element.ref` and `inst` is `element.instance`.  The
result is `this.refs` after the call. -/
def componentRef (this : This) (value : Value) (key : String) (ref : Ref) (inst : Value) : Value :=
  let _ := value
  if this.refs.truthy then
    match this.refs with
    | .object fs =>
      let fs1 := if Ref.key key ≠ ref then
          (match ref.property with
            | some k => deleteField k fs
            | none => fs)
        else fs
      .object (setField key inst fs1)
    | v => v
  else this.refs

/-- Component.js, setState: `enqueueState(this[SymbolElement], this, state, callback)`. -/
def setState (W : Work) (env : Env) (fuel : Nat) (state callback : Value) : M Unit := do
  let w ← getWorld
  enqueueState W env fuel w.inst.element state callback

/-- Component.js, forceUpdate: `enqueueUpdate(this[SymbolElement], this, callback, 0)`. -/
def forceUpdate (W : Work) (env : Env) (callback : Value) : M Unit := do
  let w ← getWorld
  enqueueUpdate W env w.inst.element callback 0

/-- The fulfilment handler of enqueuePending: schedule the continuation that
re-enters enqueueState with the resolved value. -/
def Reaction.onFulfilled (r : Reaction) (value : Value) : M Unit :=
  enqueue (.state r.element value r.callback)

/-- The rejection handler of enqueuePending: route the error to the dispatcher
with phase `async:setState`. -/
def Reaction.onRejected (env : Env) (_r : Reaction) (e : Value) : M Unit := do
  let _ ← errorBoundary env e (LifecycleAsync ++ ":" ++ LifecycleState) 1
  pure ()

/-- Run a scheduled continuation. -/
def Task.run (W : Work) (env : Env) (fuel : Nat) : Task → M Unit
  | .hostUpdate callback signature => do
    let w ← getWorld
    enqueueUpdate W env (getHostChildren w) callback signature
  | .update element callback signature => enqueueUpdate W env element callback signature
  | .state element value callback => enqueueState W env fuel element value callback

/-! ## Vocabulary of the statements -/

/-- The name under which a call is listed; calls of the dispatcher are not listed. -/
def Event.name : Event → Option String
  | .componentUpdate _ => some "componentUpdate"
  | .lifecycle n _ => some n
  | .render _ _ _ => some LifecycleRender
  | .reconcileElement _ _ => some "reconcileElement"
  | .commitRef _ _ => some "commitRef"
  | .errorBoundary _ _ _ => none
  | .callback _ _ _ => some LifecycleCallback
  | .invoke _ _ _ => some LifecycleCallback
  | .construct _ _ => some LifecycleConstructor
  | .commitUnmount _ _ _ => some "commitUnmount"

/-- The calls of a trace by name, in order. -/
def names (t : List Event) : List String := t.filterMap Event.name

/-- The world with more calls recorded. -/
def World.logged (w : World) (evs : List Event) : World := { w with trace := w.trace ++ evs }

/-- Every error is handled by some boundary, and the reconciler and the ref
resolver do not throw: no call leaves an exception to propagate. -/
def Env.Quiet (env : Env) : Prop :=
  (∀ e p, (env.boundary e p).isSome) ∧
  (∀ a b, ∃ v, env.reconcileElement a b = .ret v) ∧
  (∀ r s, ∃ v, env.commitRef r s = .ret v)

/-- The names of an optional call. -/
def optional (c : Prop) [Decidable c] (n : String) : List String := if c then [n] else []

/-- The world after a pass of componentUpdate that started from `w`: the work
status, the two contexts, the committed state and props, and the calls made. -/
def World.afterUpdate (w : World) (work : Int) (c1 c2 state props : Value) (evs : List Event) : World :=
  { w with
    element := { w.element with work := work, context := c1 }
    inst := { w.inst with state := state, props := props, context := c2 }
    trace := w.trace ++ evs }

/-- The state a pass commits: the merge of the queued state over the previous
one for a signature above 1, the previous state otherwise. -/
def nextState (signature : Nat) (w : World) : Value :=
  if signature > 1 then assign (.object []) w.inst.state w.element.state else w.inst.state

/-- The call of should-update that a pass makes when the context of the instance
is `context`: on the instance with its state and props not yet committed, with
the arguments (nextProps, nextState, nextContext). -/
def shouldUpdateCall (snapshot : Snapshot) (signature : Nat) (w : World) (context : Value)
    (hk : Hook) : Outcome :=
  hk { state := w.inst.state, props := w.inst.props, context := context, refs := w.inst.refs }
    [snapshot.props, nextState signature w, context]

/-- The calls of a pass before should-update has answered. -/
def callsBefore (signature : Nat) (w : World) : List String :=
  optional ((w.element.owner LifecycleChildContext).isSome) LifecycleChildContext ++
  optional (signature = 1 ∧ (w.element.owner LifecycleWillReceiveProps).isSome) LifecycleWillReceiveProps ++
  optional ((signature = 1 ∨ signature = 2) ∧ (w.element.owner LifecycleShouldUpdate).isSome) LifecycleShouldUpdate

/-- The calls of a pass after should-update has let it through. -/
def callsAfter (snapshot : Snapshot) (w : World) : List String :=
  optional ((w.element.owner LifecycleWillUpdate).isSome) LifecycleWillUpdate ++
  [LifecycleRender, "reconcileElement"] ++
  optional ((w.element.owner LifecycleDidUpdate).isSome) LifecycleDidUpdate ++
  optional (w.element.ref ≠ snapshot.ref) "commitRef"

/-- The transformer returns from every world. -/
def Returns {α : Type} (m : M α) : Prop := ∀ w, ∃ a w1, m w = .ok a w1

/-- From a world in `P` the transformer does not diverge, a return satisfies `Q`
and a throw leaves a world in `R`. -/
def Triple {α : Type} (P : World → Prop) (m : M α) (Q : α → World → Prop) (R : World → Prop) : Prop :=
  ∀ w, P w →
    match m w with
    | .ok a w1 => Q a w1
    | .throw _ w1 => R w1
    | .diverge => False

/-- A transformer that only records calls keeps every property of the world
that does not depend on the trace. -/
def Stable (P : World → Prop) : Prop := ∀ w evs, P w → P (w.logged evs)

/-- A transformer that only records calls: it returns or throws in the world it
started from, with more calls recorded. -/
def Logs {α : Type} (m : M α) : Prop :=
  ∀ w, ∃ evs, (∃ a, m w = .ok a (w.logged evs)) ∨ (∃ e, m w = .throw e (w.logged evs))

/-- Whether a value is a Promise. -/
def Value.isPromise : Value → Bool
  | .promise _ => true
  | _ => false

/-- Whether a value is a boolean. -/
def Value.isBoolean : Value → Bool
  | .bool _ => true
  | _ => false

/-- Whether a value is a mapping. -/
def Value.isObject : Value → Bool
  | .object _ => true
  | _ => false

/-- Get Initial State in the words of the spec: a result that is truthy and
neither a pending asynchronous result nor a boolean is used verbatim; any other
result falls through to the current state of the instance, and to the empty
mapping when there is none. -/
def initialStateSpec (current r : Value) : Value :=
  if r.truthy ∧ ¬ r.isPromise ∧ ¬ r.isBoolean then r
  else if current.truthy then current else .object []

/-- The registrations with the update scheduler the spec asks of Get Initial
State: one, of the result, when it is a pending asynchronous result. -/
def initialStateRegistrations (element : ElementRef) (r : Value) : List Reaction :=
  match r with
  | .promise p => [{ promise := p, element := element, callback := .undefined }]
  | _ => []

/-- What `element.context || {}` is. -/
def contextOrEmpty (c : Value) : Value := if c.truthy then c else .object []

/-- The instance componentMount creates for the element of the world: for a type
with a prototype render the constructed instance, or `new Component()` when the
constructor throws; for any other type a `new Component()` whose render is the
type itself. -/
def mountInstance (w : World) : Instance :=
  if w.element.type.render.isSome then
    match w.element.type.construct w.element.props w.element.context with
    | .ret st => constructed w st
    | .thr _ => Component
  else { Component with render := w.element.type.call }

/-- The owner componentMount records: the instance for a type with a prototype
render, the type itself otherwise. -/
def mountOwner (w : World) : String → Option Hook :=
  if w.element.type.render.isSome then (mountInstance w).methods else w.element.type.statics

/-- The calls componentMount makes to create the instance: the constructor, for
a type with a prototype render, and the dispatcher when the constructor throws. -/
def mountCreation (w : World) : List Event :=
  if w.element.type.render.isSome then
    .construct w.element.props w.element.context ::
      (match w.element.type.construct w.element.props w.element.context with
        | .ret _ => []
        | .thr e => [.errorBoundary e LifecycleConstructor 1])
  else []

/-- What the instance shows to user code once componentMount has bound it and
its state is `state`. -/
def mountThis (w : World) (state : Value) : This :=
  { state := state, props := w.element.props, context := contextOrEmpty w.element.context,
    refs := .object [] }

/-- The world after a componentMount that started from `w`: the state of the
instance, the context and the children of the element, whether the two contexts
are one object, the promises registered and the calls made. -/
def World.afterMount (w : World) (state context children : Value) (shared : Bool)
    (registered : List Reaction) (evs : List Event) : World :=
  { w with
    element := { w.element with
      owner := mountOwner w
      context := context
      children := children
      type := { w.element.type with tagged := w.element.type.tagged || w.element.type.render.isSome } }
    inst := { mountInstance w with
      element := .ref
      refs := .object []
      props := w.element.props
      context := contextOrEmpty w.element.context
      state := state }
    contextShared := shared
    reactions := w.reactions ++ registered
    trace := w.trace ++ evs }

/-- The child with its context set: the result of `children.context = context`
on a child that is an object. -/
def withContext (children context : Value) : Value :=
  match children with
  | .object fs => .object (setField "context" context fs)
  | v => v

/-- The normalisation of a render result is an element, and so is what the
dispatcher answers for an error of the render phase: a child is an object. -/
def Env.Elements (env : Env) : Prop :=
  (∀ v, (env.commitElement v).isObject = true) ∧
  (∀ e c, env.boundary e LifecycleRender = some c → c.isObject = true)

/-- Run scheduled continuations one after the other, in the given order. -/
def runTasks (W : Work) (env : Env) (fuel : Nat) : List Task → M Unit
  | [] => pure ()
  | t :: ts => do
    Task.run W env fuel t
    runTasks W env fuel ts

/-- Whether a continuation is one of the two enqueueUpdate schedules: a retry
of enqueueUpdate. -/
def Task.isUpdate : Task → Bool
  | .hostUpdate _ _ => true
  | .update _ _ _ => true
  | .state _ _ _ => false

/-! ## Examples -/

/-- The update hooks, render and the reconciler, in the order in which a pass of
the given signature calls them when the owner defines every update hook. -/
def updateCalls (signature : Nat) : List String :=
  match signature with
  | 0 => [LifecycleWillUpdate, LifecycleRender, "reconcileElement", LifecycleDidUpdate]
  | 1 => [LifecycleWillReceiveProps, LifecycleShouldUpdate, LifecycleWillUpdate, LifecycleRender,
      "reconcileElement", LifecycleDidUpdate]
  | _ => [LifecycleShouldUpdate, LifecycleWillUpdate, LifecycleRender, "reconcileElement",
      LifecycleDidUpdate]

/-- Work statuses with Task below Sync. -/
def exampleWork : Work := { WorkSync := 1, WorkTask := 0 }

/-- An owner that defines the four update hooks; each returns undefined. -/
def exampleOwner : String → Option Hook := fun n =>
  if n = LifecycleWillReceiveProps ∨ n = LifecycleShouldUpdate ∨ n = LifecycleWillUpdate ∨
      n = LifecycleDidUpdate then some (fun _ _ => .ret .undefined) else none

/-- An environment in which nothing throws and every error would be handled. -/
def exampleEnv : Env :=
  { call := fun _ _ _ => .ret .undefined
    boundary := fun _ _ => some .undefined
    commitElement := fun v => v
    reconcileElement := fun _ _ => .ret .undefined
    commitRef := fun _ _ => .ret .undefined }

/-- A mounted, idle element with a live host node; its instance holds `{a: 0}`
and `{a: 1}` is queued in `element.state`. -/
def idleWorld : World :=
  { element :=
      { owner := exampleOwner, props := .object [("p", .number 1)], context := .object [],
        state := .object [("a", .number 1)], work := 1, ref := .null, DOM := some 0, children := .null }
    inst :=
      { state := .object [("a", .number 0)], props := .object [("p", .number 1)], context := .object [],
        refs := .object [], render := fun _ _ => .ret .null, element := .ref }
    contextShared := true
    queue := []
    reactions := []
    trace := [] }

/-- The same element in the middle of an update pass: work = Task. -/
def busyWorld : World := { idleWorld with element := { idleWorld.element with work := 0 } }

/-- The same element, idle, without a live host node. -/
def detachedWorld : World := { idleWorld with element := { idleWorld.element with DOM := none } }

/-- The world a run returns in, if it returns. -/
def Result.world {α : Type} : Result α → Option World
  | .ok _ w => some w
  | _ => none

/-- An owner whose only hook is a should-update that returns false. -/
def vetoOwner : String → Option Hook := fun n =>
  if n = LifecycleShouldUpdate then some (fun _ _ => .ret (.bool false)) else none

/-- The idle world with the vetoing owner. -/
def vetoWorld : World := { idleWorld with element := { idleWorld.element with owner := vetoOwner } }

/-- A should-update that vetoes exactly the passes whose next state has `a = 1`. -/
def selectiveHook : Hook := fun _ args =>
  match args with
  | [_, s, _] =>
    match getField "a" s.fields with
    | some (.number n) => if n = 1 then .ret (.bool false) else .ret (.bool true)
    | _ => .ret (.bool true)
  | _ => .ret (.bool true)

/-- An owner with the four update hooks, whose should-update is that one. -/
def selectiveOwner : String → Option Hook := fun n =>
  if n = LifecycleShouldUpdate then some selectiveHook
  else if n = LifecycleWillReceiveProps ∨ n = LifecycleWillUpdate ∨ n = LifecycleDidUpdate then
    some (fun _ _ => .ret .undefined)
  else none

/-- The idle world with that owner: its state is `{a: 0}` and `{a: 1}` is
queued, so a pass of signature 1 goes through and one of signature 2 is vetoed. -/
def selectiveWorld : World :=
  { idleWorld with element := { idleWorld.element with owner := selectiveOwner } }

/-- The same world with `{a: 2}` queued: a pass of signature 2 goes through. -/
def passingWorld : World :=
  { selectiveWorld with element := { selectiveWorld.element with state := .object [("a", .number 2)] } }

/-- An environment for mounting: every error is handled, the dispatcher answers
with an empty element, and a render result is wrapped in an element. -/
def mountEnv : Env :=
  { call := fun _ _ _ => .ret .undefined
    boundary := fun _ _ => some (.object [])
    commitElement := fun v => .object [("children", v)]
    reconcileElement := fun _ _ => .ret .undefined
    commitRef := fun _ _ => .ret .undefined }

/-- A class whose prototype has render and the two data hooks: the constructor
leaves the state `{n: 0}`, getInitialState returns `{a: 1}`, getChildContext
returns `{b: 2}` and render returns null. -/
def classType : ElementType :=
  { render := some (fun _ _ => .ret .null)
    tagged := false
    construct := fun _ _ => .ret (.object [("n", .number 0)])
    methods := fun n =>
      if n = LifecycleInitialState then some (fun _ _ => .ret (.object [("a", .number 1)]))
      else if n = LifecycleChildContext then some (fun _ _ => .ret (.object [("b", .number 2)]))
      else none
    statics := fun _ => none
    call := fun _ _ => .thr (.string "TypeError") }

/-- An element of that class before its mount, handed the context `{a: 1}`. -/
def classWorld : World :=
  { element :=
      { owner := fun _ => none, props := .object [("p", .number 1)], context := .object [("a", .number 1)],
        state := .undefined, work := 1, ref := .null, DOM := none, children := .undefined,
        type := classType }
    inst := Component
    contextShared := false
    queue := []
    reactions := []
    trace := [] }

/-- The same element of a class whose constructor throws. -/
def throwingWorld : World :=
  { classWorld with
    element := { classWorld.element with
      type := { classType with construct := fun _ _ => .thr (.string "boom") } } }

/-- The same element of a class whose getInitialState returns the number 5. -/
def numberWorld : World :=
  { classWorld with
    element := { classWorld.element with
      type := { classType with
        methods := fun n =>
          if n = LifecycleInitialState then some (fun _ _ => .ret (.number 5)) else none } } }

/-- The same element of a function component that returns null. -/
def functionWorld : World :=
  { classWorld with
    element := { classWorld.element with
      type := { ElementType.plain with call := fun _ _ => .ret .null } } }

/-- The element of the example class with no context supplied. -/
def bareWorld : World :=
  { classWorld with element := { classWorld.element with context := .undefined } }

/-- The same element, with no context supplied, of a class whose
getChildContext returns the number 5. -/
def numberContextWorld : World :=
  { bareWorld with
    element := { bareWorld.element with
      type := { classType with
        methods := fun n =>
          if n = LifecycleChildContext then some (fun _ _ => .ret (.number 5)) else none } } }

/-- An owner whose only hook is a will-unmount that returns the promise 3. -/
def pendingOwner : String → Option Hook := fun n =>
  if n = LifecycleWillUnmount then some (fun _ _ => .ret (.promise 3)) else none

/-- The idle world with that owner. -/
def pendingWorld : World := { idleWorld with element := { idleWorld.element with owner := pendingOwner } }

/-- An owner instance that tracks refs and holds the instance of a child under
the key `x`. -/
def refsThis : This :=
  { state := .object [], props := .object [], context := .object [],
    refs := .object [("x", .object [("component", .string "A")])] }

/-- The example environment with a reconciler that throws. -/
def failingEnv : Env := { exampleEnv with reconcileElement := fun _ _ => .thr (.string "fail") }

/-- The updater `s => ({n: s.n + 1})`, on a state whose `n` is a number. -/
def increment : Hook := fun _ args =>
  match args with
  | s :: _ =>
    match getField "n" s.fields with
    | some (.number m) => .ret (.object [("n", .number (m + 1))])
    | _ => .thr (.string "TypeError")
  | [] => .thr (.string "TypeError")

/-- The example environment in which every function value is that updater. -/
def counterEnv : Env := { exampleEnv with call := fun _ => increment }

/-- An element in the middle of an update pass whose instance holds `{n: 5}`,
with nothing queued. -/
def counterWorld : World :=
  { busyWorld with
    element := { busyWorld.element with state := .undefined }
    inst := { busyWorld.inst with state := .object [("n", .number 5)] } }

/-! ## Merging mappings -/

theorem getField_setField (k k1 : String) (v : Value) (fs : Fields) :
    getField k (setField k1 v fs) = if k1 = k then some v else getField k fs := by
  induction fs with
  | nil => simp [setField, getField]
  | cons kv rest ih =>
    obtain ⟨k2, v2⟩ := kv
    by_cases h : k2 = k1
    · subst h
      by_cases h1 : k2 = k <;> simp [setField, getField, h1]
    · by_cases h1 : k1 = k
      · subst h1
        simp [setField, getField, h, ih]
      · simp [setField, getField, h, ih, h1]

theorem getField_eq_none {k : String} {fs : Fields} (h : k ∉ keys fs) : getField k fs = none := by
  induction fs with
  | nil => rfl
  | cons kv rest ih =>
    obtain ⟨k2, v2⟩ := kv
    simp [keys] at h
    have h1 : ¬ k2 = k := fun e => h.1 e.symm
    simp only [getField, h1, if_false]
    exact ih (by simpa [keys] using h.2)

theorem getField_assignFields (k : String) (t s : Fields) (hs : (keys s).Nodup) :
    getField k (assignFields t s) = mergedField k t s := by
  unfold mergedField
  induction s generalizing t with
  | nil => rfl
  | cons kv rest ih =>
    obtain ⟨k1, v1⟩ := kv
    have hn : k1 ∉ keys rest ∧ (keys rest).Nodup := by simpa [keys] using hs
    have hstep : assignFields t ((k1, v1) :: rest) = assignFields (setField k1 v1 t) rest := rfl
    rw [hstep, ih _ hn.2, getField_setField]
    by_cases h : k1 = k
    · subst h
      simp [getField, getField_eq_none hn.1]
    · simp [getField, h]

theorem setField_of_not_mem {k : String} (v : Value) {fs : Fields} (h : k ∉ keys fs) :
    setField k v fs = fs ++ [(k, v)] := by
  induction fs with
  | nil => rfl
  | cons kv rest ih =>
    obtain ⟨k2, v2⟩ := kv
    simp [keys] at h
    have h1 : ¬ k2 = k := fun e => h.1 e.symm
    simp only [setField, h1, if_false, List.cons_append]
    rw [ih (by simpa [keys] using h.2)]

/-- Copying a mapping onto a mapping that shares no key with it appends it. -/
theorem assignFields_disjoint (t s : Fields) (hs : (keys s).Nodup) (hd : ∀ k ∈ keys s, k ∉ keys t) :
    assignFields t s = t ++ s := by
  induction s generalizing t with
  | nil => simp [assignFields]
  | cons kv rest ih =>
    obtain ⟨k1, v1⟩ := kv
    have hn : k1 ∉ keys rest ∧ (keys rest).Nodup := by simpa [keys] using hs
    have hstep : assignFields t ((k1, v1) :: rest) = assignFields (setField k1 v1 t) rest := rfl
    have hk1 : k1 ∉ keys t := hd k1 (by simp [keys])
    rw [hstep, setField_of_not_mem v1 hk1, ih _ hn.2]
    · simp
    · intro k hk
      have := hd k (by simp [keys] at hk ⊢; exact Or.inr hk)
      simp only [keys, List.map_append, List.mem_append, List.map_cons, List.map_nil,
        List.mem_singleton, not_or]
      refine ⟨by simpa [keys] using this, ?_⟩
      rintro rfl
      exact hn.1 hk

theorem assignFields_nil (s : Fields) (hs : (keys s).Nodup) : assignFields [] s = s := by
  simpa using assignFields_disjoint [] s hs (by simp [keys])

theorem setField_of_getField {k : String} {v : Value} {fs : Fields} (h : getField k fs = some v) :
    setField k v fs = fs := by
  induction fs with
  | nil => simp [getField] at h
  | cons kv rest ih =>
    obtain ⟨k2, v2⟩ := kv
    by_cases h1 : k2 = k
    · subst h1
      simp [getField] at h
      simp [setField, h]
    · simp [getField, h1] at h
      simp [setField, h1, ih h]

/-- Copying a mapping onto a mapping that already holds its properties changes nothing. -/
theorem assignFields_of_holds (t s : Fields) (h : ∀ kv ∈ s, getField kv.1 t = some kv.2) :
    assignFields t s = t := by
  induction s with
  | nil => rfl
  | cons kv rest ih =>
    have hstep : assignFields t (kv :: rest) = assignFields (setField kv.1 kv.2 t) rest := rfl
    rw [hstep, setField_of_getField (h kv (by simp))]
    exact ih fun x hx => h x (by simp [hx])

theorem getField_of_mem {k : String} {v : Value} {s : Fields} (hs : (keys s).Nodup) (h : (k, v) ∈ s) :
    getField k s = some v := by
  induction s with
  | nil => simp at h
  | cons kv rest ih =>
    obtain ⟨k1, v1⟩ := kv
    have hn : k1 ∉ keys rest ∧ (keys rest).Nodup := by simpa [keys] using hs
    simp at h
    rcases h with ⟨rfl, rfl⟩ | h
    · simp [getField]
    · have : ¬ k1 = k := by
        rintro rfl
        exact hn.1 (by simp [keys]; exact ⟨v, h⟩)
      simp [getField, this, ih hn.2 h]

/-- Merging the same mapping a second time changes nothing. -/
theorem assignFields_idem (t s : Fields) (hs : (keys s).Nodup) :
    assignFields (assignFields t s) s = assignFields t s := by
  apply assignFields_of_holds
  intro kv hkv
  rw [getField_assignFields _ _ _ hs, mergedField, getField_of_mem hs hkv]

theorem keys_setField (k : String) (v : Value) (fs : Fields) :
    keys (setField k v fs) = if k ∈ keys fs then keys fs else keys fs ++ [k] := by
  induction fs with
  | nil => simp [setField, keys]
  | cons kv rest ih =>
    obtain ⟨k2, v2⟩ := kv
    by_cases h : k2 = k
    · subst h
      simp [setField, keys]
    · have h' : ¬ k = k2 := fun e => h e.symm
      simp only [setField, h, if_false, keys, List.map_cons, List.mem_cons, h', false_or] at ih ⊢
      rw [ih]
      split <;> simp

theorem nodup_setField (k : String) (v : Value) (fs : Fields) (h : (keys fs).Nodup) :
    (keys (setField k v fs)).Nodup := by
  rw [keys_setField]
  split
  · exact h
  · rename_i hk
    exact List.Nodup.append h (by simp) (by simpa using hk)

/-- The result of a merge has distinct keys when the target has. -/
theorem nodup_assignFields (t s : Fields) (h : (keys t).Nodup) : (keys (assignFields t s)).Nodup := by
  induction s generalizing t with
  | nil => exact h
  | cons kv rest ih => exact ih _ (nodup_setField _ _ _ h)

/-! ## Running the transformers -/

section

variable {α β : Type}

@[simp] theorem run_pure (a : α) (w : World) : (pure a : M α) w = .ok a w := rfl

theorem run_bind (m : M α) (f : α → M β) (w : World) :
    (m >>= f) w = (match m w with
      | .ok a w1 => f a w1
      | .throw e w1 => .throw e w1
      | .diverge => .diverge) := rfl

theorem bind_eq_ok (m : M α) (f : α → M β) (w w2 : World) (b : β) :
    (m >>= f) w = .ok b w2 ↔ ∃ a w1, m w = .ok a w1 ∧ f a w1 = .ok b w2 := by
  rw [run_bind]
  cases m w with
  | ok a w1 =>
    constructor
    · intro h
      exact ⟨a, w1, rfl, h⟩
    · rintro ⟨_, _, h1, h⟩
      cases h1
      exact h
  | throw e w1 => simp
  | diverge => simp

theorem run_ite (c : Prop) [Decidable c] (m1 m2 : M α) (w : World) :
    (if c then m1 else m2) w = if c then m1 w else m2 w := by
  split <;> rfl

@[simp] theorem run_liftOutcome_ret (v : Value) (w : World) : liftOutcome (.ret v) w = .ok v w := rfl

@[simp] theorem run_liftOutcome_thr (e : Value) (w : World) : liftOutcome (.thr e) w = .throw e w := rfl

@[simp] theorem run_getWorld (w : World) : getWorld w = .ok w w := rfl

@[simp] theorem run_modifyWorld (f : World → World) (w : World) : modifyWorld f w = .ok () (f w) := rfl

@[simp] theorem run_throwValue (e : Value) (w : World) : (throwValue e : M α) w = .throw e w := rfl

@[simp] theorem run_logEvent (ev : Event) (w : World) :
    logEvent ev w = .ok () { w with trace := w.trace ++ [ev] } := rfl

@[simp] theorem run_enqueue (t : Task) (w : World) :
    enqueue t w = .ok () { w with queue := w.queue ++ [t] } := rfl

@[simp] theorem run_setWork (v : Int) (w : World) :
    setWork v w = .ok () { w with element := { w.element with work := v } } := rfl

end

@[simp] theorem names_nil : names [] = [] := rfl

@[simp] theorem names_append (a b : List Event) : names (a ++ b) = names a ++ names b := by
  simp [names]

@[simp] theorem names_cons_componentUpdate (s : Nat) (t : List Event) :
    names (.componentUpdate s :: t) = "componentUpdate" :: names t := rfl

@[simp] theorem names_cons_lifecycle (n : String) (a : List Value) (t : List Event) :
    names (.lifecycle n a :: t) = n :: names t := rfl

@[simp] theorem names_cons_render (p s c : Value) (t : List Event) :
    names (.render p s c :: t) = LifecycleRender :: names t := rfl

@[simp] theorem names_cons_reconcileElement (a b : Value) (t : List Event) :
    names (.reconcileElement a b :: t) = "reconcileElement" :: names t := rfl

@[simp] theorem names_cons_commitRef (r : Ref) (s : Nat) (t : List Event) :
    names (.commitRef r s :: t) = "commitRef" :: names t := rfl

@[simp] theorem names_cons_callback (f : Nat) (s p : Value) (t : List Event) :
    names (.callback f s p :: t) = LifecycleCallback :: names t := rfl

@[simp] theorem names_cons_errorBoundary (e : Value) (p : String) (r : Nat) (t : List Event) :
    names (.errorBoundary e p r :: t) = names t := by
  simp [names, Event.name]

theorem errorBoundary_run (env : Env) (e : Value) (phase : String) (w : World) :
    errorBoundary env e phase 1 w =
      match env.boundary e phase with
      | some v => .ok v (w.logged [.errorBoundary e phase 1])
      | none => .throw e (w.logged [.errorBoundary e phase 1]) := by
  simp only [errorBoundary, run_bind, run_logEvent, World.logged]
  cases env.boundary e phase <;> simp

/-- A hook call that returns has recorded itself, and perhaps the dispatcher; its
result is what the hook returned, or undefined when the hook threw. -/
theorem callHook_handled {env : Env} {name : String} {args : List Value} {w w1 : World} {v : Value}
    (h : (tryCatch (callHook name args) fun e => do
        let _ ← errorBoundary env e name 1
        pure .undefined) w = .ok v w1) :
    ∃ evs, w1 = w.logged evs ∧ names evs = [name] ∧
      (v = .undefined ∨ ∃ hk, w.element.owner name = some hk ∧ hk w.inst.this args = .ret v) ∧
      (∀ hk, w.element.owner name = some hk →
        hk w.inst.this args = .ret v ∨ ∃ e, hk w.inst.this args = .thr e) := by
  simp only [tryCatch, callHook, run_bind, run_logEvent, run_getWorld] at h
  cases ho : w.element.owner name with
  | none =>
    simp [ho, errorBoundary_run] at h
    cases hb : env.boundary (.string "TypeError") name <;> simp [hb] at h
    obtain ⟨rfl, rfl⟩ := h
    exact ⟨[.lifecycle name args, .errorBoundary (.string "TypeError") name 1],
      by simp [World.logged], by simp, Or.inl rfl, by simp⟩
  | some hk =>
    simp only [ho] at h
    cases hr : hk w.inst.this args with
    | ret v0 =>
      simp [hr] at h
      obtain ⟨rfl, rfl⟩ := h
      refine ⟨[.lifecycle name args], rfl, by simp, Or.inr ⟨hk, rfl, hr⟩, ?_⟩
      intro hk1 h1
      cases h1
      exact Or.inl hr
    | thr e =>
      simp [hr, errorBoundary_run] at h
      cases hb : env.boundary e name <;> simp [hb] at h
      obtain ⟨rfl, rfl⟩ := h
      refine ⟨[.lifecycle name args, .errorBoundary e name 1],
        by simp [World.logged], by simp, Or.inl rfl, ?_⟩
      intro hk1 h1
      cases h1
      exact Or.inr ⟨e, hr⟩

theorem lifecycleUpdate_ok {env : Env} {name : String} {args : List Value} {w w1 : World} {v : Value}
    (h : lifecycleUpdate env name args w = .ok v w1) :
    ∃ evs, w1 = w.logged evs ∧ names evs = [name] ∧
      (v = .undefined ∨ ∃ hk, w.element.owner name = some hk ∧ hk w.inst.this args = .ret v) ∧
      (∀ hk, w.element.owner name = some hk →
        hk w.inst.this args = .ret v ∨ ∃ e, hk w.inst.this args = .thr e) :=
  callHook_handled h

theorem lifecycleData_ok {env : Env} {name : String} {w w1 : World} {v : Value}
    (h : lifecycleData env name w = .ok v w1) :
    ∃ evs, w1 = w.logged evs ∧ names evs = [name] :=
  let ⟨evs, h1, h2, _⟩ := callHook_handled h
  ⟨evs, h1, h2⟩

/-- With every error handled, a hook call returns. -/
theorem callHook_handled_total {env : Env} (hq : env.Quiet) (name : String) (args : List Value) (w : World) :
    ∃ v w1, (tryCatch (callHook name args) fun e => do
        let _ ← errorBoundary env e name 1
        pure .undefined) w = .ok v w1 := by
  simp only [tryCatch, callHook, run_bind, run_logEvent, run_getWorld]
  cases ho : w.element.owner name with
  | none =>
    have := hq.1 (.string "TypeError") name
    cases hb : env.boundary (.string "TypeError") name <;> simp [hb] at this
    simp [errorBoundary_run, hb]
  | some hk =>
    cases hr : hk w.inst.this args with
    | ret v0 => simp [hr]
    | thr e =>
      have := hq.1 e name
      cases hb : env.boundary e name <;> simp [hb] at this
      simp [hr, errorBoundary_run, hb]

theorem getChildContext_ok {env : Env} {w w1 : World} {c : Value}
    (h : getChildContext env w = .ok c w1) :
    ∃ evs, w1 = w.logged evs ∧
      names evs = if (w.element.owner LifecycleChildContext).isSome then [LifecycleChildContext] else [] := by
  simp only [getChildContext, bind_eq_ok, run_getWorld] at h
  obtain ⟨_, _, ⟨rfl, rfl⟩, h⟩ := h
  by_cases hc : (w.element.owner LifecycleChildContext).isSome
  · rw [if_pos hc, bind_eq_ok] at h
    rw [if_pos hc]
    obtain ⟨r, w0, h0, h⟩ := h
    obtain ⟨evs, rfl, hn⟩ := lifecycleData_ok h0
    refine ⟨evs, ?_, hn⟩
    simp only [run_ite, run_pure, run_bind, run_getWorld] at h
    split at h
    · simp at h
      exact h.2.symm
    · split at h <;> simp at h <;> exact h.2.symm
  · rw [if_neg hc] at h
    rw [if_neg hc]
    refine ⟨[], ?_, rfl⟩
    simp only [run_ite, run_pure] at h
    split at h <;> simp at h <;> simp [World.logged, ← h.2]

theorem getChildElement_ok {env : Env} {w w1 : World} {c : Value}
    (h : getChildElement env w = .ok c w1) :
    ∃ evs, w1 = w.logged evs ∧ names evs = [LifecycleRender] := by
  simp only [getChildElement, tryCatch, run_bind, run_getWorld, run_logEvent] at h
  cases hr : w.inst.render w.inst.this [w.inst.props, w.inst.state, w.element.context] with
  | ret v =>
    simp [hr] at h
    exact ⟨[_], h.2.symm, by simp⟩
  | thr e =>
    simp [hr, errorBoundary_run] at h
    cases hb : env.boundary e LifecycleRender <;> simp [hb] at h
    exact ⟨[.render w.inst.props w.inst.state w.element.context, .errorBoundary e LifecycleRender 1],
      by simp [World.logged, ← h.2], by simp⟩

theorem reconcileElement_ok {env : Env} {w w1 : World} {a b : Value}
    (h : reconcileElement env a b w = .ok () w1) :
    w1 = w.logged [.reconcileElement a b] := by
  simp only [reconcileElement, run_bind, run_logEvent] at h
  cases hr : env.reconcileElement a b <;> simp [hr] at h
  exact h.symm

theorem commitRef_ok {env : Env} {w w1 : World} {r : Ref} {s : Nat}
    (h : commitRef env r s w = .ok () w1) :
    w1 = w.logged [.commitRef r s] := by
  simp only [commitRef, run_bind, run_logEvent] at h
  cases hr : env.commitRef r s <;> simp [hr] at h
  exact h.symm

theorem childContextStage_ok {env : Env} {w w1 : World} {c : Prop} [Decidable c] {u : Unit}
    (hc : c ↔ (w.element.owner LifecycleChildContext).isSome)
    (h : (if c then (do
          let c ← getChildContext env
          mergeContext c)
        else pure ()) w = .ok u w1) :
    ∃ evs c1 c2, w1 = w.afterUpdate w.element.work c1 c2 w.inst.state w.inst.props evs ∧
      names evs = optional c LifecycleChildContext := by
  by_cases h0 : c
  · rw [if_pos h0, bind_eq_ok] at h
    obtain ⟨v, w0, h1, h2⟩ := h
    obtain ⟨evs, rfl, hn⟩ := getChildContext_ok h1
    rw [if_pos (hc.1 h0)] at hn
    simp only [mergeContext, run_modifyWorld, World.logged] at h2
    refine ⟨evs, w1.element.context, w1.inst.context, ?_, by simp [optional, h0, hn]⟩
    cases h2
    obtain ⟨⟨o, p, ctx, st, wk, rf, dom, ch⟩, i, sh, q, r, t⟩ := w
    cases ctx <;> cases sh <;> simp [World.afterUpdate]
  · rw [if_neg h0] at h
    simp at h
    exact ⟨[], w.element.context, w.inst.context, by simp [World.afterUpdate, ← h], by simp [optional, h0]⟩

theorem hookStage_ok {env : Env} {w w1 : World} {c : Prop} [Decidable c] {name : String}
    {g : Value → List Value} {v : Value}
    (h : (if c then (do
          let nextContext := (← getWorld).inst.context
          lifecycleUpdate env name (g nextContext))
        else pure .undefined) w = .ok v w1) :
    ∃ evs, w1 = w.logged evs ∧ names evs = optional c name ∧
      (v = .undefined ∨
        (c ∧ ∃ hk, w.element.owner name = some hk ∧ hk w.inst.this (g w.inst.context) = .ret v)) ∧
      (c → ∀ hk, w.element.owner name = some hk →
        hk w.inst.this (g w.inst.context) = .ret v ∨ ∃ e, hk w.inst.this (g w.inst.context) = .thr e) := by
  by_cases h0 : c
  · rw [if_pos h0, bind_eq_ok] at h
    obtain ⟨_, _, h1, h2⟩ := h
    cases h1
    obtain ⟨evs, h3, hn, hv, hx⟩ := lifecycleUpdate_ok h2
    refine ⟨evs, h3, by simp [optional, h0, hn], ?_, fun _ => hx⟩
    rcases hv with hv | hv
    · exact Or.inl hv
    · exact Or.inr ⟨h0, hv⟩
  · rw [if_neg h0] at h
    simp at h
    exact ⟨[], by simp [World.logged, ← h.2], by simp [optional, h0], Or.inl h.1.symm,
      fun hc => absurd hc h0⟩

theorem refStage_ok {env : Env} {w w1 : World} {c : Prop} [Decidable c] {r : Ref} {s : Nat} {u : Unit}
    (h : (if c then commitRef env r s else pure ()) w = .ok u w1) :
    ∃ evs, w1 = w.logged evs ∧ names evs = optional c "commitRef" := by
  by_cases h0 : c
  · rw [if_pos h0] at h
    exact ⟨[_], commitRef_ok h, by simp [optional, h0]⟩
  · rw [if_neg h0] at h
    simp at h
    exact ⟨[], by simp [World.logged, ← h], by simp [optional, h0]⟩

/-- A returning pass that started: it was aborted, and then the call of
should-update it made returned false, or it went through, and then that call
did not return false. -/
theorem componentUpdate_cases {W : Work} {env : Env} {snapshot : Snapshot} {signature : Nat} {w w2 : World}
    (hg : ¬ w.element.work < W.WorkSync)
    (h : componentUpdate W env snapshot signature w = .ok () w2) :
    ∃ evs c1 c2,
      (w2 = w.afterUpdate W.WorkSync c1 c2 w.inst.state w.inst.props (.componentUpdate signature :: evs) ∧
        names evs = callsBefore signature w ∧
        (signature = 1 ∨ signature = 2) ∧
        ∃ hk, w.element.owner LifecycleShouldUpdate = some hk ∧
          shouldUpdateCall snapshot signature w c2 hk = .ret (.bool false))
      ∨
      (w2 = w.afterUpdate W.WorkSync c1 c2 (nextState signature w) snapshot.props
          (.componentUpdate signature :: evs) ∧
        names evs = callsBefore signature w ++ callsAfter snapshot w ∧
        ((signature = 1 ∨ signature = 2) →
          ∀ hk, w.element.owner LifecycleShouldUpdate = some hk →
            shouldUpdateCall snapshot signature w c2 hk ≠ .ret (.bool false))) := by
  simp only [componentUpdate, bind_eq_ok, run_logEvent, run_getWorld, run_ite, run_pure] at h
  obtain ⟨_, _, ⟨-, rfl⟩, _, _, ⟨rfl, rfl⟩, h⟩ := h
  simp only [hg, if_false, bind_eq_ok, run_setWork] at h
  obtain ⟨_, _, h0, _, w1, h1, _, wa, h2, r, wb, h3, h⟩ := h
  cases h0
  obtain ⟨evs1, c1, c2, rfl, hn1⟩ := childContextStage_ok (by simp) h1
  obtain ⟨evs2, rfl, hn2, -, -⟩ := hookStage_ok (g := fun c => [snapshot.props, c]) h2
  obtain ⟨evs3, rfl, hn3, hv3, hx3⟩ := hookStage_ok
    (g := fun c => [snapshot.props,
      if signature > 1 then assign (.object []) w.inst.state w.element.state else w.inst.state, c]) h3
  split at h
  · simp only [run_setWork] at h
    refine ⟨evs1 ++ evs2 ++ evs3, c1, c2, Or.inl ⟨?_, ?_, ?_⟩⟩
    · cases h
      simp [World.afterUpdate, World.logged]
    · simp [callsBefore, hn1, hn2, hn3]
    · rcases hv3 with hv3 | ⟨hc, hk, ho, hk3⟩
      · cases hv3
      · exact ⟨hc.1, hk, by simpa [World.afterUpdate, World.logged] using ho,
          by simpa [shouldUpdateCall, nextState, Instance.this, World.afterUpdate, World.logged] using hk3⟩
  · rename_i hr
    have h' := h
    clear h
    simp only [bind_eq_ok, run_modifyWorld, run_getWorld, run_setWork] at h'
    obtain ⟨_, w4, h4, _, _, h5, _, _, h6, nx, w7, h7, _, w8, h8, _, w9, h9, _, _, h10, _, wc, h11, h12⟩ := h'
    cases h5; cases h6; cases h10
    obtain ⟨evs4, rfl, hn4, -, -⟩ := hookStage_ok
      (g := fun c => [snapshot.props,
        if signature > 1 then assign (.object []) w.inst.state w.element.state else w.inst.state, c]) h4
    obtain ⟨evs7, rfl, hn7⟩ := getChildElement_ok h7
    have h8' := reconcileElement_ok h8
    subst h8'
    obtain ⟨evs9, rfl, hn9, -, -⟩ := hookStage_ok
      (g := fun c => [w.element.props, w.inst.state, c]) h9
    obtain ⟨evsc, rfl, hnc⟩ := refStage_ok h11
    refine ⟨evs1 ++ evs2 ++ evs3 ++ evs4 ++ evs7 ++ [.reconcileElement w.element.children nx] ++ evs9 ++ evsc,
      c1, c2, Or.inr ⟨?_, ?_, ?_⟩⟩
    · cases h12
      simp [World.afterUpdate, World.logged, nextState]
    · simp only [World.afterUpdate, World.logged] at hnc
      simp [callsBefore, callsAfter, hn1, hn2, hn3, hn4, hn7, hn9, hnc]
    · intro hs hk ho
      have ho1 : (w.element.owner LifecycleShouldUpdate).isSome := by simp [ho]
      have hcall := hx3 ⟨hs, ho1⟩ hk (by simpa [World.afterUpdate, World.logged] using ho)
      have hcall' : shouldUpdateCall snapshot signature w c2 hk = .ret r ∨
          ∃ e, shouldUpdateCall snapshot signature w c2 hk = .thr e := by
        simpa [shouldUpdateCall, nextState, Instance.this, World.afterUpdate, World.logged] using hcall
      rcases hcall' with hx | ⟨e, hx⟩
      · intro hf
        rw [hf] at hx
        exact hr (Outcome.ret.inj hx).symm
      · intro hf
        rw [hf] at hx
        cases hx

theorem componentUpdate_ok {W : Work} {env : Env} {snapshot : Snapshot} {signature : Nat} {w w2 : World}
    (hg : ¬ w.element.work < W.WorkSync)
    (h : componentUpdate W env snapshot signature w = .ok () w2) :
    ∃ evs c1 c2,
      (w2 = w.afterUpdate W.WorkSync c1 c2 w.inst.state w.inst.props (.componentUpdate signature :: evs) ∧
        names evs = callsBefore signature w ∧
        (signature = 1 ∨ signature = 2) ∧
        ∃ hk t a, w.element.owner LifecycleShouldUpdate = some hk ∧ hk t a = .ret (.bool false))
      ∨
      (w2 = w.afterUpdate W.WorkSync c1 c2 (nextState signature w) snapshot.props
          (.componentUpdate signature :: evs) ∧
        names evs = callsBefore signature w ++ callsAfter snapshot w ∧
        ((signature = 1 ∨ signature = 2) →
          ∀ hk, w.element.owner LifecycleShouldUpdate = some hk → ∃ t a, hk t a ≠ .ret (.bool false))) := by
  obtain ⟨evs, c1, c2, h1 | h1⟩ := componentUpdate_cases hg h
  · obtain ⟨hw, hn, hs, hk, ho, hf⟩ := h1
    exact ⟨evs, c1, c2, Or.inl ⟨hw, hn, hs, hk, _, _, ho, hf⟩⟩
  · obtain ⟨hw, hn, hx⟩ := h1
    exact ⟨evs, c1, c2, Or.inr ⟨hw, hn, fun hs hk ho => ⟨_, _, hx hs hk ho⟩⟩⟩

section

variable {α β : Type}

theorem returns_pure (a : α) : Returns (pure a : M α) := fun w => ⟨a, w, rfl⟩

theorem returns_bind {m : M α} {f : α → M β} (hm : Returns m) (hf : ∀ a, Returns (f a)) :
    Returns (m >>= f) := by
  intro w
  obtain ⟨a, w1, h1⟩ := hm w
  obtain ⟨b, w2, h2⟩ := hf a w1
  exact ⟨b, w2, by rw [run_bind, h1]; exact h2⟩

theorem returns_ite {c : Prop} [Decidable c] {m1 m2 : M α} (h1 : Returns m1) (h2 : Returns m2) :
    Returns (if c then m1 else m2) := by
  split
  · exact h1
  · exact h2

theorem returns_getWorld : Returns getWorld := fun w => ⟨w, w, rfl⟩

theorem returns_modifyWorld (f : World → World) : Returns (modifyWorld f) := fun w => ⟨(), f w, rfl⟩

end

theorem returns_logEvent (ev : Event) : Returns (logEvent ev) := returns_modifyWorld _

theorem returns_setWork (v : Int) : Returns (setWork v) := returns_modifyWorld _

theorem returns_enqueue (t : Task) : Returns (enqueue t) := returns_modifyWorld _

theorem returns_mergeContext (c : Value) : Returns (mergeContext c) := returns_modifyWorld _

theorem returns_lifecycleUpdate {env : Env} (hq : env.Quiet) (name : String) (args : List Value) :
    Returns (lifecycleUpdate env name args) := fun w => callHook_handled_total hq name args w

theorem returns_lifecycleData {env : Env} (hq : env.Quiet) (name : String) :
    Returns (lifecycleData env name) := fun w => callHook_handled_total hq name [] w

theorem returns_getChildContext {env : Env} (hq : env.Quiet) : Returns (getChildContext env) := by
  unfold getChildContext
  refine returns_bind returns_getWorld fun w => returns_ite ?_ (returns_ite (returns_pure _) (returns_pure _))
  refine returns_bind (returns_lifecycleData hq _) fun r => returns_ite (returns_pure _) ?_
  exact returns_bind returns_getWorld fun w1 => returns_ite (returns_pure _) (returns_pure _)

theorem returns_getChildElement {env : Env} (hq : env.Quiet) : Returns (getChildElement env) := by
  intro w
  simp only [getChildElement, tryCatch, run_bind, run_getWorld, run_logEvent]
  cases hr : w.inst.render w.inst.this [w.inst.props, w.inst.state, w.element.context] with
  | ret v => simp [hr]
  | thr e =>
    have := hq.1 e LifecycleRender
    cases hb : env.boundary e LifecycleRender <;> simp [hb] at this
    simp [hr, errorBoundary_run, hb]

theorem returns_reconcileElement {env : Env} (hq : env.Quiet) (a b : Value) :
    Returns (reconcileElement env a b) := by
  intro w
  obtain ⟨v, hv⟩ := hq.2.1 a b
  simp [reconcileElement, run_bind, hv]

theorem returns_commitRef {env : Env} (hq : env.Quiet) (r : Ref) (s : Nat) :
    Returns (commitRef env r s) := by
  intro w
  obtain ⟨v, hv⟩ := hq.2.2 r s
  simp [commitRef, run_bind, hv]

theorem returns_componentUpdate {env : Env} (hq : env.Quiet) (W : Work) (snapshot : Snapshot)
    (signature : Nat) : Returns (componentUpdate W env snapshot signature) := by
  unfold componentUpdate
  refine returns_bind (returns_logEvent _) fun _ => returns_bind returns_getWorld fun w =>
    returns_ite (returns_pure _) ?_
  refine returns_bind (returns_setWork _) fun _ => returns_bind ?_ fun _ => returns_bind ?_ fun _ =>
    returns_bind ?_ fun r => ?_
  · exact returns_ite (returns_bind (returns_getChildContext hq) fun c => returns_mergeContext c)
      (returns_pure _)
  · exact returns_ite (returns_bind returns_getWorld fun _ => returns_lifecycleUpdate hq _ _)
      (returns_pure _)
  · exact returns_ite (returns_bind returns_getWorld fun _ => returns_lifecycleUpdate hq _ _)
      (returns_pure _)
  · split
    · exact returns_setWork _
    · refine returns_bind ?_ fun _ => returns_bind (returns_modifyWorld _) fun _ =>
        returns_bind returns_getWorld fun _ => returns_bind (returns_getChildElement hq) fun _ =>
        returns_bind (returns_reconcileElement hq _ _) fun _ => returns_bind ?_ fun _ =>
        returns_bind returns_getWorld fun _ => returns_bind ?_ fun _ => returns_setWork _
      · exact returns_ite (returns_bind returns_getWorld fun _ => returns_lifecycleUpdate hq _ _)
          (returns_pure _)
      · exact returns_ite (returns_bind returns_getWorld fun _ => returns_lifecycleUpdate hq _ _)
          (returns_pure _)
      · exact returns_ite (returns_commitRef hq _ _) (returns_pure _)

theorem returns_enqueueCallback {env : Env} (hq : env.Quiet) (callback : Value) :
    Returns (enqueueCallback env callback) := by
  intro w
  simp only [enqueueCallback, tryCatch]
  cases callback with
  | func f =>
    simp only [run_bind, run_getWorld, run_logEvent]
    cases hr : env.call f w.inst.this [w.inst.state, w.inst.props] with
    | ret v0 => simp [hr]
    | thr e =>
      have := hq.1 e (LifecycleState ++ ":" ++ LifecycleCallback)
      cases hb : env.boundary e (LifecycleState ++ ":" ++ LifecycleCallback) <;> simp [hb] at this
      simp [hr, errorBoundary_run, hb]
  | callable g => simp [run_bind]
  | _ =>
    have := hq.1 (.string "TypeError") (LifecycleState ++ ":" ++ LifecycleCallback)
    cases hb : env.boundary (.string "TypeError") (LifecycleState ++ ":" ++ LifecycleCallback) <;>
      simp [hb] at this
    simp [errorBoundary_run, run_bind, hb]

theorem returns_enqueueUpdate {env : Env} (hq : env.Quiet) (W : Work) (element : ElementRef)
    (callback : Value) (signature : Nat) : Returns (enqueueUpdate W env element callback signature) := by
  unfold enqueueUpdate
  cases element with
  | null => exact returns_enqueue _
  | ref =>
    refine returns_bind returns_getWorld fun w => returns_ite (returns_enqueue _)
      (returns_ite (returns_pure _) (returns_bind (returns_componentUpdate hq _ _ _) fun _ => ?_))
    split
    · exact returns_bind (returns_enqueueCallback hq _) fun _ => returns_pure _
    · exact returns_bind (returns_enqueueCallback hq _) fun _ => returns_pure _
    · exact returns_pure _

section
variable {α β : Type} {P : World → Prop} {R : World → Prop}

theorem triple_bind {m : M α} {f : α → M β} {S : α → World → Prop} {Q : β → World → Prop}
    (hm : Triple P m S R) (hf : ∀ a, Triple (S a) (f a) Q R) : Triple P (m >>= f) Q R := by
  intro w hw
  have h1 := hm w hw
  rw [run_bind]
  cases hr : m w with
  | ok a w1 =>
    rw [hr] at h1
    exact hf a w1 h1
  | throw e w1 =>
    rw [hr] at h1
    exact h1
  | diverge =>
    rw [hr] at h1
    exact h1

theorem triple_pure (a : α) {Q : α → World → Prop} (h : ∀ w, P w → Q a w) :
    Triple P (pure a : M α) Q R := fun w hw => h w hw

theorem triple_ite {c : Prop} [Decidable c] {m1 m2 : M α} {Q : α → World → Prop}
    (h1 : Triple P m1 Q R) (h2 : Triple P m2 Q R) : Triple P (if c then m1 else m2) Q R := by
  split
  · exact h1
  · exact h2

theorem triple_getWorld {Q : World → World → Prop} (h : ∀ w, P w → Q w w) :
    Triple P getWorld Q R := fun w hw => h w hw

theorem triple_modifyWorld (f : World → World) {Q : Unit → World → Prop} (h : ∀ w, P w → Q () (f w)) :
    Triple P (modifyWorld f) Q R := fun w hw => h w hw

theorem triple_pre {m : M α} {Q : α → World → Prop} {S : World → Prop} (h : ∀ w, P w → S w)
    (hm : Triple S m Q R) : Triple P m Q R := fun w hw => hm w (h w hw)

end

theorem triple_of_logs {α : Type} {m : M α} (hm : Logs m) {P : World → Prop} (hP : Stable P) :
    Triple P m (fun _ w => P w) P := by
  intro w hw
  obtain ⟨evs, ⟨a, h⟩ | ⟨e, h⟩⟩ := hm w <;> rw [h] <;> exact hP _ _ hw

theorem logs_callHook_handled (env : Env) (name : String) (args : List Value) :
    Logs (tryCatch (callHook name args) fun e => do
        let _ ← errorBoundary env e name 1
        pure .undefined) := by
  intro w
  simp only [tryCatch, callHook, run_bind, run_logEvent, run_getWorld]
  cases ho : w.element.owner name with
  | none =>
    cases hb : env.boundary (.string "TypeError") name with
    | none =>
      exact ⟨[.lifecycle name args, .errorBoundary (.string "TypeError") name 1],
        Or.inr (by simp [errorBoundary_run, hb, World.logged])⟩
    | some v =>
      exact ⟨[.lifecycle name args, .errorBoundary (.string "TypeError") name 1],
        Or.inl (by simp [errorBoundary_run, hb, World.logged])⟩
  | some hk =>
    cases hr : hk w.inst.this args with
    | ret v0 => exact ⟨[.lifecycle name args], Or.inl (by simp [hr, World.logged])⟩
    | thr e =>
      cases hb : env.boundary e name with
      | none =>
        exact ⟨[.lifecycle name args, .errorBoundary e name 1],
          Or.inr (by simp [hr, errorBoundary_run, hb, World.logged])⟩
      | some v =>
        exact ⟨[.lifecycle name args, .errorBoundary e name 1],
          Or.inl (by simp [hr, errorBoundary_run, hb, World.logged])⟩

theorem triple_lifecycleUpdate {env : Env} {P : World → Prop} (hP : Stable P) (name : String)
    (args : List Value) : Triple P (lifecycleUpdate env name args) (fun _ w => P w) P :=
  triple_of_logs (logs_callHook_handled env name args) hP

theorem triple_lifecycleData {env : Env} {P : World → Prop} (hP : Stable P) (name : String) :
    Triple P (lifecycleData env name) (fun _ w => P w) P :=
  triple_of_logs (logs_callHook_handled env name []) hP

theorem triple_getChildContext {env : Env} {P : World → Prop} (hP : Stable P) :
    Triple P (getChildContext env) (fun _ w => P w) P := by
  unfold getChildContext
  refine triple_bind (triple_getWorld (Q := fun _ w => P w) fun _ h => h) fun w =>
    triple_ite ?_ (triple_ite (triple_pure _ fun _ h => h) (triple_pure _ fun _ h => h))
  refine triple_bind (triple_lifecycleData hP _) fun r => triple_ite (triple_pure _ fun _ h => h) ?_
  exact triple_bind (triple_getWorld (Q := fun _ w => P w) fun _ h => h) fun w1 =>
    triple_ite (triple_pure _ fun _ h => h) (triple_pure _ fun _ h => h)

theorem logs_getChildElement (env : Env) : Logs (getChildElement env) := by
  intro w
  simp only [getChildElement, tryCatch, run_bind, run_getWorld, run_logEvent]
  cases hr : w.inst.render w.inst.this [w.inst.props, w.inst.state, w.element.context] with
  | ret v => exact ⟨[.render w.inst.props w.inst.state w.element.context], Or.inl (by simp [World.logged])⟩
  | thr e =>
    cases hb : env.boundary e LifecycleRender with
    | none =>
      exact ⟨[.render w.inst.props w.inst.state w.element.context, .errorBoundary e LifecycleRender 1],
        Or.inr (by simp [errorBoundary_run, hb, World.logged])⟩
    | some v =>
      exact ⟨[.render w.inst.props w.inst.state w.element.context, .errorBoundary e LifecycleRender 1],
        Or.inl (by simp [errorBoundary_run, hb, World.logged])⟩

theorem logs_reconcileElement (env : Env) (a b : Value) : Logs (reconcileElement env a b) := by
  intro w
  simp only [reconcileElement, run_bind, run_logEvent]
  cases hr : env.reconcileElement a b with
  | ret v => exact ⟨[.reconcileElement a b], Or.inl (by simp [World.logged])⟩
  | thr e => exact ⟨[.reconcileElement a b], Or.inr (by simp [World.logged])⟩

theorem logs_commitRef (env : Env) (r : Ref) (s : Nat) : Logs (commitRef env r s) := by
  intro w
  simp only [commitRef, run_bind, run_logEvent]
  cases hr : env.commitRef r s with
  | ret v => exact ⟨[.commitRef r s], Or.inl (by simp [World.logged])⟩
  | thr e => exact ⟨[.commitRef r s], Or.inr (by simp [World.logged])⟩

/-- A pass that starts leaves the work status at Sync when it returns and at
Task when it throws, and it does not diverge. -/
theorem componentUpdate_work (W : Work) (env : Env) (snapshot : Snapshot) (signature : Nat) :
    Triple (fun w => ¬ w.element.work < W.WorkSync) (componentUpdate W env snapshot signature)
      (fun _ w => w.element.work = W.WorkSync) (fun w => w.element.work = W.WorkTask) := by
  have hP : Stable fun w => w.element.work = W.WorkTask := fun _ _ h => h
  have hhook : ∀ (c : Prop) [Decidable c] (name : String) (args : Value → List Value),
      Triple (fun w => w.element.work = W.WorkTask)
        (if c then (do
            let nextContext := (← getWorld).inst.context
            lifecycleUpdate env name (args nextContext))
          else pure .undefined)
        (fun _ w => w.element.work = W.WorkTask) (fun w => w.element.work = W.WorkTask) :=
    fun c _ name args =>
      triple_ite (triple_bind (triple_getWorld (Q := fun _ w => w.element.work = W.WorkTask) fun _ h => h)
        fun _ => triple_lifecycleUpdate hP _ _) (triple_pure _ fun _ h => h)
  unfold componentUpdate
  refine triple_bind (S := fun _ w => ¬ w.element.work < W.WorkSync)
    (triple_modifyWorld _ fun _ h => h) fun _ =>
    triple_bind (S := fun w0 w => w = w0 ∧ ¬ w.element.work < W.WorkSync)
      (triple_getWorld fun _ h => ⟨rfl, h⟩) fun w => ?_
  by_cases hg : w.element.work < W.WorkSync
  · intro w1 hw1
    obtain ⟨rfl, hg1⟩ := hw1
    exact absurd hg hg1
  rw [if_neg hg]
  refine triple_pre (S := fun _ => True) (fun _ _ => trivial) ?_
  refine triple_bind (S := fun _ w => w.element.work = W.WorkTask)
    (triple_modifyWorld _ fun _ _ => rfl) fun _ => ?_
  refine triple_bind (S := fun _ w => w.element.work = W.WorkTask) ?_ fun _ => ?_
  · refine triple_ite (triple_bind (triple_getChildContext hP) fun c => ?_) (triple_pure _ fun _ h => h)
    refine triple_modifyWorld _ fun w1 h => ?_
    obtain ⟨⟨o, p, ctx, st, wk, rf, dom, ch⟩, i, sh, q, rs, t⟩ := w1
    cases ctx <;> exact h
  refine triple_bind (S := fun _ w => w.element.work = W.WorkTask)
    (hhook _ LifecycleWillReceiveProps fun c => [snapshot.props, c]) fun _ => ?_
  refine triple_bind (S := fun _ w => w.element.work = W.WorkTask)
    (hhook _ LifecycleShouldUpdate fun c => [snapshot.props,
      if signature > 1 then assign (.object []) w.inst.state w.element.state else w.inst.state, c])
    fun r => ?_
  split
  · exact triple_modifyWorld _ fun _ _ => rfl
  refine triple_bind (S := fun _ w => w.element.work = W.WorkTask)
    (hhook _ LifecycleWillUpdate fun c => [snapshot.props,
      if signature > 1 then assign (.object []) w.inst.state w.element.state else w.inst.state, c])
    fun _ => ?_
  refine triple_bind (S := fun _ w => w.element.work = W.WorkTask)
    (triple_modifyWorld _ fun _ h => h) fun _ => ?_
  refine triple_bind (S := fun _ w => w.element.work = W.WorkTask) (triple_getWorld fun _ h => h)
    fun _ => ?_
  refine triple_bind (S := fun _ w => w.element.work = W.WorkTask)
    (triple_of_logs (logs_getChildElement env) hP) fun _ => ?_
  refine triple_bind (S := fun _ w => w.element.work = W.WorkTask)
    (triple_of_logs (logs_reconcileElement env _ _) hP) fun _ => ?_
  refine triple_bind (S := fun _ w => w.element.work = W.WorkTask)
    (hhook _ LifecycleDidUpdate fun c => [w.element.props, w.inst.state, c]) fun _ => ?_
  refine triple_bind (S := fun _ w => w.element.work = W.WorkTask) (triple_getWorld fun _ h => h)
    fun _ => ?_
  refine triple_bind (S := fun _ w => w.element.work = W.WorkTask) ?_ fun _ =>
    triple_modifyWorld _ fun _ _ => rfl
  exact triple_ite (triple_of_logs (logs_commitRef env _ _) hP) (triple_pure _ fun _ h => h)

/-- A completion callback that returns was called once, on the instance state
and props of the moment, and nothing else was listed. -/
theorem enqueueCallback_func_ok {env : Env} {f : Nat} {w w1 : World} {v : Value}
    (h : enqueueCallback env (.func f) w = .ok v w1) :
    ∃ evs, w1 = w.logged (.callback f w.inst.state w.inst.props :: evs) ∧ names evs = [] := by
  simp only [enqueueCallback, tryCatch, run_bind, run_getWorld, run_logEvent] at h
  cases hr : env.call f w.inst.this [w.inst.state, w.inst.props] with
  | ret v0 =>
    simp [hr] at h
    exact ⟨[], h.2.symm, rfl⟩
  | thr e =>
    simp [hr, errorBoundary_run] at h
    cases hb : env.boundary e (LifecycleState ++ ":" ++ LifecycleCallback) <;> simp [hb] at h
    exact ⟨[.errorBoundary e (LifecycleState ++ ":" ++ LifecycleCallback) 1],
      by simp [World.logged, ← h.2], by simp⟩

/-- The world after componentUpdate and the completion callback, for an element
that is ready and has a live host node. -/
theorem enqueueUpdate_ok {W : Work} {env : Env} {callback : Value} {signature : Nat} {w w2 : World}
    (hguard : ¬ w.element.work < W.WorkSync) (hdom : w.element.DOM.isSome)
    (h : enqueueUpdate W env .ref callback signature w = .ok () w2) :
    ∃ wm evs, componentUpdate W env w.element.snapshot signature w = .ok () wm ∧
      w2 = wm.logged evs ∧
      ((∃ f evs1, callback = .func f ∧ evs = .callback f wm.inst.state wm.inst.props :: evs1 ∧
          names evs1 = []) ∨
        (∃ g, callback = .callable g ∧ evs = [.invoke g wm.inst.state wm.inst.props]) ∨
        ((∀ f, callback ≠ .func f) ∧ (∀ g, callback ≠ .callable g) ∧ evs = [])) := by
  have hd : ¬ w.element.DOM.isNone := by
    cases hx : w.element.DOM <;> simp [hx] at hdom ⊢
  simp only [enqueueUpdate, bind_eq_ok, run_getWorld] at h
  obtain ⟨_, _, ⟨rfl, rfl⟩, h⟩ := h
  rw [if_neg hguard, if_neg hd, bind_eq_ok] at h
  obtain ⟨_, wm, h1, h2⟩ := h
  refine ⟨wm, ?_⟩
  cases callback with
  | func f =>
    simp only [bind_eq_ok, run_pure] at h2
    obtain ⟨_, w3, h3, h4⟩ := h2
    cases h4
    obtain ⟨evs1, rfl, hn⟩ := enqueueCallback_func_ok h3
    exact ⟨_, h1, rfl, Or.inl ⟨f, evs1, rfl, rfl, hn⟩⟩
  | callable g =>
    simp only [bind_eq_ok, run_pure] at h2
    obtain ⟨_, w3, h3, h4⟩ := h2
    cases h4
    simp only [enqueueCallback, tryCatch, run_bind, run_getWorld, run_logEvent, run_pure,
      Result.ok.injEq] at h3
    exact ⟨_, h1, by rw [← h3.2]; rfl, Or.inr (Or.inl ⟨g, rfl, rfl⟩)⟩
  | _ =>
    simp only [run_pure] at h2
    cases h2
    exact ⟨[], h1, by simp [World.logged], Or.inr (Or.inr ⟨by simp, by simp, rfl⟩)⟩

/-- A plain mapping takes the default branch of enqueueState, whatever the fuel. -/
theorem enqueueState_object (W : Work) (env : Env) (fuel : Nat) (s : Fields) (callback : Value) (w : World) :
    enqueueState W env fuel .ref (.object s) callback w =
      enqueueUpdate W env .ref callback 2
        { w with element := { w.element with
            state := if w.element.work = W.WorkSync then .object s
                     else assign (.object []) w.element.state (.object s) } } := by
  cases fuel <;> simp [enqueueState, Value.truthy, run_bind]

theorem returns_enqueueState_object {env : Env} (hq : env.Quiet) (W : Work) (fuel : Nat) (s : Fields)
    (callback : Value) : Returns (enqueueState W env fuel .ref (.object s) callback) := by
  intro w
  rw [enqueueState_object]
  exact returns_enqueueUpdate hq W .ref callback 2 _

/-- The world after enqueueState with a plain mapping on an idle element with a
live host node whose should-update does not veto. -/
theorem enqueueState_object_ok {W : Work} {env : Env} {fuel : Nat} {s : Fields} {callback : Value}
    {w w2 : World}
    (hidle : w.element.work = W.WorkSync) (hdom : w.element.DOM.isSome)
    (hno : ∀ hk, w.element.owner LifecycleShouldUpdate = some hk → ∀ t a, hk t a ≠ .ret (.bool false))
    (h : enqueueState W env fuel .ref (.object s) callback w = .ok () w2) :
    ∃ c1 c2 evs,
      w2 = ({ w with element := { w.element with state := .object s } } : World).afterUpdate
        W.WorkSync c1 c2 (assign (.object []) w.inst.state (.object s)) w.element.props evs := by
  rw [enqueueState_object, if_pos hidle] at h
  have hg : ¬ ({ w with element := { w.element with state := .object s } } : World).element.work
      < W.WorkSync := by simp [hidle]
  obtain ⟨wm, evs, h1, rfl, -⟩ := enqueueUpdate_ok hg hdom h
  obtain ⟨evs1, c1, c2, h2 | h2⟩ := componentUpdate_ok hg h1
  · obtain ⟨-, -, -, hk, t, a, ho, hf⟩ := h2
    exact absurd hf (hno hk ho t a)
  · obtain ⟨rfl, -, -⟩ := h2
    exact ⟨c1, c2, .componentUpdate 2 :: evs1 ++ evs, by
      simp [World.afterUpdate, World.logged, nextState, Element.snapshot]⟩

theorem exampleEnv_quiet : exampleEnv.Quiet :=
  ⟨fun _ _ => rfl, fun _ _ => ⟨_, rfl⟩, fun _ _ => ⟨_, rfl⟩⟩

/-- What enqueueUpdate leaves in `element.state`: what was there. -/
theorem enqueueUpdate_state {W : Work} {env : Env} {callback : Value} {signature : Nat} {w w2 : World}
    (h : enqueueUpdate W env .ref callback signature w = .ok () w2) :
    w2.element.state = w.element.state := by
  by_cases hg : w.element.work < W.WorkSync
  · simp only [enqueueUpdate, bind_eq_ok, run_getWorld] at h
    obtain ⟨_, _, ⟨rfl, rfl⟩, h⟩ := h
    rw [if_pos hg] at h
    simp at h
    rw [← h]
  · cases hd : w.element.DOM with
    | none =>
      simp only [enqueueUpdate, bind_eq_ok, run_getWorld] at h
      obtain ⟨_, _, ⟨rfl, rfl⟩, h⟩ := h
      rw [if_neg hg, if_pos (by simp [hd])] at h
      simp at h
      rw [← h]
    | some n =>
      obtain ⟨wm, evs, h1, rfl, -⟩ := enqueueUpdate_ok hg (by simp [hd]) h
      obtain ⟨evs1, c1, c2, h2 | h2⟩ := componentUpdate_ok hg h1
      · obtain ⟨rfl, -⟩ := h2
        rfl
      · obtain ⟨rfl, -⟩ := h2
        rfl

theorem fields_object (fs : Fields) : (Value.object fs).fields = fs := rfl

/-- The calls of a pass are hooks, render, the reconciler and the ref resolver. -/
theorem mem_calls {signature : Nat} {snapshot : Snapshot} {w : World} {n : String}
    (h : n ∈ callsBefore signature w ++ callsAfter snapshot w) :
    n ∈ [LifecycleChildContext, LifecycleWillReceiveProps, LifecycleShouldUpdate, LifecycleWillUpdate,
      LifecycleRender, "reconcileElement", LifecycleDidUpdate, "commitRef"] := by
  simp only [callsBefore, callsAfter, optional, List.mem_append] at h
  rcases h with ((h | h) | h) | (((h | h) | h) | h)
  all_goals first
    | (split at h
       · simp only [List.mem_singleton] at h
         subst h
         simp
       · simp at h)
    | (simp only [List.mem_cons, List.mem_singleton, List.not_mem_nil, or_false] at h
       rcases h with rfl | rfl <;> simp)

theorem callback_not_mem_calls {signature : Nat} {p : Snapshot} {w : World} :
    LifecycleCallback ∉ callsBefore signature w ++ callsAfter p w := by
  intro h
  have := mem_calls h
  revert this
  decide

/-- The completion callback of an update is called, if at all, after the pass
of componentUpdate, on the instance state the pass has left. -/
theorem enqueueUpdate_callback_after_update {W : Work} {env : Env} {signature : Nat} {f : Nat}
    {w w2 : World}
    (h : enqueueUpdate W env .ref (.func f) signature w = .ok () w2) :
    ∃ evs, w2.trace = w.trace ++ evs ∧
      (LifecycleCallback ∉ names evs ∨
        ∃ evs1 evs2,
          evs = .componentUpdate signature :: evs1 ++ .callback f w2.inst.state w2.inst.props :: evs2 ∧
          LifecycleCallback ∉ names evs1 ∧ names evs2 = [] ∧
          ((∀ hk, w.element.owner LifecycleShouldUpdate = some hk → ∀ t a, hk t a ≠ .ret (.bool false)) →
            w2.inst.state = nextState signature w)) := by
  by_cases hg : w.element.work < W.WorkSync
  · simp only [enqueueUpdate, bind_eq_ok, run_getWorld] at h
    obtain ⟨_, _, ⟨rfl, rfl⟩, h⟩ := h
    rw [if_pos hg] at h
    simp at h
    exact ⟨[], by simp [← h], Or.inl (by simp)⟩
  · cases hd : w.element.DOM with
    | none =>
      simp only [enqueueUpdate, bind_eq_ok, run_getWorld] at h
      obtain ⟨_, _, ⟨rfl, rfl⟩, h⟩ := h
      rw [if_neg hg, if_pos (by simp [hd])] at h
      simp at h
      exact ⟨[], by simp [← h], Or.inl (by simp)⟩
    | some n =>
      obtain ⟨wm, evs, h1, rfl, hcb⟩ := enqueueUpdate_ok hg (by simp [hd]) h
      rcases hcb with ⟨f1, evs2, hf, rfl, hn2⟩ | ⟨g, hf, -⟩ | ⟨hf, -⟩
      · cases hf
        obtain ⟨evs1, c1, c2, h2 | h2⟩ := componentUpdate_ok hg h1
        · obtain ⟨rfl, hn, -, hk, t, a, ho, hfalse⟩ := h2
          refine ⟨_, ?_, Or.inr ⟨evs1, evs2, rfl, ?_, hn2, ?_⟩⟩
          · simp [World.afterUpdate, World.logged]
          · rw [hn]
            intro hc
            exact callback_not_mem_calls (p := w.element.snapshot)
              (List.mem_append_left _ hc)
          · intro hno
            exact absurd hfalse (hno hk ho t a)
        · obtain ⟨rfl, hn, -⟩ := h2
          refine ⟨_, ?_, Or.inr ⟨evs1, evs2, rfl, ?_, hn2, fun _ => rfl⟩⟩
          · simp [World.afterUpdate, World.logged]
          · rw [hn]
            exact callback_not_mem_calls
      · cases hf
      · exact absurd rfl (hf f)

/-- The completion callback of a state update is called, if at all, after the
pass of componentUpdate, on an instance state that holds the mapping. -/
theorem enqueueState_callback_after_update {W : Work} {env : Env} {fuel : Nat} {s : Fields} {f : Nat}
    {w w2 : World}
    (h : enqueueState W env fuel .ref (.object s) (.func f) w = .ok () w2) :
    ∃ evs, w2.trace = w.trace ++ evs ∧
      (LifecycleCallback ∉ names evs ∨
        ∃ evs1 evs2, evs = .componentUpdate 2 :: evs1 ++ .callback f w2.inst.state w2.inst.props :: evs2 ∧
          LifecycleCallback ∉ names evs1 ∧ names evs2 = [] ∧
          ((∀ hk, w.element.owner LifecycleShouldUpdate = some hk → ∀ t a, hk t a ≠ .ret (.bool false)) →
            (keys s).Nodup → ∀ k v, (k, v) ∈ s → getField k w2.inst.state.fields = some v)) := by
  rw [enqueueState_object] at h
  obtain ⟨evs, ht, hc⟩ := enqueueUpdate_callback_after_update h
  refine ⟨evs, ht, ?_⟩
  rcases hc with hc | ⟨evs1, evs2, he, hn1, hn2, hst⟩
  · exact Or.inl hc
  · refine Or.inr ⟨evs1, evs2, he, hn1, hn2, fun hno hs k v hkv => ?_⟩
    rw [hst hno]
    have hx : (keys (assignFields (assignFields [] w.element.state.fields) s)).Nodup :=
      nodup_assignFields _ _ (nodup_assignFields _ _ (by simp [keys]))
    by_cases hw : w.element.work = W.WorkSync
    · simp only [nextState, hw, if_true, assign, fields_object]
      simp only [show (2 : Nat) > 1 from by decide, if_true, fields_object]
      rw [getField_assignFields _ _ _ hs, mergedField, getField_of_mem hs hkv]
    · simp only [nextState, hw, if_false, assign, fields_object]
      simp only [show (2 : Nat) > 1 from by decide, if_true, fields_object]
      rw [getField_assignFields _ _ _ hx, mergedField, getField_assignFields _ _ _ hs,
        mergedField, getField_of_mem hs hkv]

/-- Calling an updater or a completion callback records that call, and perhaps
the dispatcher, and nothing else. -/
theorem enqueueCallback_func_logs (env : Env) (f : Nat) (w : World) :
    ∃ evs, names evs = [LifecycleCallback] ∧
      ((∃ a, enqueueCallback env (.func f) w = .ok a (w.logged evs)) ∨
        (∃ e, enqueueCallback env (.func f) w = .throw e (w.logged evs))) := by
  simp only [enqueueCallback, tryCatch, run_bind, run_getWorld, run_logEvent]
  cases hr : env.call f w.inst.this [w.inst.state, w.inst.props] with
  | ret v =>
    exact ⟨[.callback f w.inst.state w.inst.props], by simp, Or.inl (by simp [World.logged])⟩
  | thr e =>
    cases hb : env.boundary e (LifecycleState ++ ":" ++ LifecycleCallback) with
    | none =>
      exact ⟨[.callback f w.inst.state w.inst.props,
          .errorBoundary e (LifecycleState ++ ":" ++ LifecycleCallback) 1], by simp,
        Or.inr (by simp [errorBoundary_run, hb, World.logged])⟩
    | some v =>
      exact ⟨[.callback f w.inst.state w.inst.props,
          .errorBoundary e (LifecycleState ++ ":" ++ LifecycleCallback) 1], by simp,
        Or.inl (by simp [errorBoundary_run, hb, World.logged])⟩

/-- While a pass is in flight, enqueueState runs no componentUpdate, whatever
the state it is given. -/
theorem enqueueState_in_flight {W : Work} {env : Env} (hlt : W.WorkTask < W.WorkSync) (callback : Value) :
    ∀ (fuel : Nat) (state : Value) (w w2 : World), w.element.work = W.WorkTask →
      (enqueueState W env fuel .ref state callback w = .ok () w2 ∨
        ∃ e, enqueueState W env fuel .ref state callback w = .throw e w2) →
      ∃ evs, w2.trace = w.trace ++ evs ∧ "componentUpdate" ∉ names evs := by
  have hne : ¬ W.WorkTask = W.WorkSync := by omega
  have hdefault : ∀ (fuel : Nat) (state : Value) (w w2 : World), w.element.work = W.WorkTask →
      state.truthy = true → (∀ p, state ≠ .promise p) → (∀ f, state ≠ .func f) →
      (enqueueState W env fuel .ref state callback w = .ok () w2 ∨
        ∃ e, enqueueState W env fuel .ref state callback w = .throw e w2) →
      ∃ evs, w2.trace = w.trace ++ evs ∧ "componentUpdate" ∉ names evs := by
    intro fuel state w w2 hw ht hp hf h
    have hrun : enqueueState W env fuel .ref state callback w =
        .ok () { w with
          element := { w.element with state := assign (.object []) w.element.state state }
          queue := w.queue ++ [.update .ref callback 2] } := by
      cases state <;>
        first
        | exact absurd rfl (hp _)
        | exact absurd rfl (hf _)
        | (cases fuel <;>
            simp [enqueueState, ht, run_bind, enqueueUpdate, hw, hlt, hne])
    rw [hrun] at h
    rcases h with h | ⟨e, h⟩
    · cases h
      exact ⟨[], by simp, by simp⟩
    · cases h
  intro fuel
  induction fuel with
  | zero =>
    intro state w w2 hw h
    by_cases ht : state.truthy = true
    · cases state with
      | promise p =>
        have hrun : enqueueState W env 0 .ref (.promise p) callback w =
            .ok () { w with reactions := w.reactions ++
              [{ promise := p, element := .ref, callback := callback }] } := by
          simp [enqueueState, Value.truthy, enqueuePending]
        rw [hrun] at h
        rcases h with h | ⟨e, h⟩
        · cases h
          exact ⟨[], by simp, by simp⟩
        · cases h
      | func f =>
        have hrun : enqueueState W env 0 .ref (.func f) callback w = .diverge := by
          simp [enqueueState, Value.truthy]
        rw [hrun] at h
        rcases h with h | ⟨e, h⟩ <;> cases h
      | _ => exact hdefault 0 _ w w2 hw ht (by simp) (by simp) h
    · have hrun : enqueueState W env 0 .ref state callback w = .ok () w := by
        cases state <;> simp [Value.truthy] at ht <;> simp [enqueueState, Value.truthy, ht]
      rw [hrun] at h
      rcases h with h | ⟨e, h⟩
      · cases h
        exact ⟨[], by simp, by simp⟩
      · cases h
  | succ n ih =>
    intro state w w2 hw h
    by_cases ht : state.truthy = true
    · cases state with
      | promise p =>
        have hrun : enqueueState W env (n + 1) .ref (.promise p) callback w =
            .ok () { w with reactions := w.reactions ++
              [{ promise := p, element := .ref, callback := callback }] } := by
          simp [enqueueState, Value.truthy, enqueuePending]
        rw [hrun] at h
        rcases h with h | ⟨e, h⟩
        · cases h
          exact ⟨[], by simp, by simp⟩
        · cases h
      | func f =>
        have hstep : enqueueState W env (n + 1) .ref (.func f) callback w =
            (enqueueCallback env (.func f) >>= fun r => enqueueState W env n .ref r callback) w := by
          simp [enqueueState, Value.truthy]
        rw [hstep, run_bind] at h
        obtain ⟨evs0, hn0, ⟨a, h0⟩ | ⟨e0, h0⟩⟩ := enqueueCallback_func_logs env f w
        · rw [h0] at h
          obtain ⟨evs1, ht1, hn1⟩ := ih a (w.logged evs0) w2 hw h
          refine ⟨evs0 ++ evs1, by simp [ht1, World.logged], ?_⟩
          rw [names_append, hn0]
          intro hmem
          rcases List.mem_append.1 hmem with hm | hm
          · revert hm
            decide
          · exact hn1 hm
        · rw [h0] at h
          rcases h with h | ⟨e, h⟩
          · cases h
          · cases h
            refine ⟨evs0, rfl, ?_⟩
            rw [hn0]
            decide
      | _ => exact hdefault (n + 1) _ w w2 hw ht (by simp) (by simp) h
    · have hrun : enqueueState W env (n + 1) .ref state callback w = .ok () w := by
        cases state <;> simp [Value.truthy] at ht <;> simp [enqueueState, Value.truthy, ht]
      rw [hrun] at h
      rcases h with h | ⟨e, h⟩
      · cases h
        exact ⟨[], by simp, by simp⟩
      · cases h

/-! ## Mounting -/

@[simp] theorem names_cons_construct (p c : Value) (t : List Event) :
    names (.construct p c :: t) = LifecycleConstructor :: names t := rfl

@[simp] theorem names_cons_commitUnmount (a b : Value) (s : Nat) (t : List Event) :
    names (.commitUnmount a b s :: t) = "commitUnmount" :: names t := rfl

theorem getChildInstance_run (env : Env) (w : World) :
    getChildInstance env w =
      match w.element.type.construct w.element.props w.element.context with
      | .ret st => .ok (constructed w st) (w.logged [.construct w.element.props w.element.context])
      | .thr e =>
        match env.boundary e LifecycleConstructor with
        | some _ => .ok Component (w.logged [.construct w.element.props w.element.context,
            .errorBoundary e LifecycleConstructor 1])
        | none => .throw e (w.logged [.construct w.element.props w.element.context,
            .errorBoundary e LifecycleConstructor 1]) := by
  simp only [getChildInstance, tryCatch, run_bind, run_getWorld, run_logEvent]
  cases hc : w.element.type.construct w.element.props w.element.context with
  | ret st => simp [World.logged]
  | thr e =>
    simp [errorBoundary_run]
    cases hb : env.boundary e LifecycleConstructor <;> simp [World.logged]

/-- The creation stage of componentMount. -/
theorem mountCreation_ok {env : Env} {w w1 : World} {i : Instance}
    (h : (if w.element.type.render.isSome then
        (do
          let _ ← (if w.element.type.tagged then pure () else createComponent)
          getChildInstance env)
      else pure { Component with render := w.element.type.call }) w = .ok i w1) :
    i = mountInstance w ∧
    w1 = { w with
      element := { w.element with
        type := { w.element.type with tagged := w.element.type.tagged || w.element.type.render.isSome } }
      trace := w.trace ++ mountCreation w } := by
  obtain ⟨⟨o, p, ctx, st, wk, rf, dom, ch, ⟨rd, tg, cons, ms, ss, cl⟩⟩, i0, sh, q, r, t, rm⟩ := w
  cases rd with
  | none =>
    simp at h
    obtain ⟨rfl, rfl⟩ := h
    simp [mountInstance, mountCreation]
  | some rd =>
    simp only [Option.isSome_some, if_true, bind_eq_ok] at h
    obtain ⟨_, w0, h0, h⟩ := h
    have hw0 : w0 = World.mk ⟨o, p, ctx, st, wk, rf, dom, ch, ⟨some rd, true, cons, ms, ss, cl⟩⟩
        i0 sh q r t rm := by
      cases tg
      · simp [createComponent] at h0
        exact h0.symm
      · simp at h0
        exact h0.symm
    subst hw0
    rw [getChildInstance_run] at h
    simp only [mountInstance, mountCreation]
    cases hc : cons p ctx with
    | ret s0 =>
      simp [hc, World.logged] at h
      simp [← h.1, ← h.2, constructed, hc]
    | thr e =>
      simp [hc] at h
      cases hb : env.boundary e LifecycleConstructor <;> simp [hb, World.logged] at h
      simp [← h.1, ← h.2, hc]
theorem getChildContext_value {env : Env} {w w1 : World} {c : Value}
    (h : getChildContext env w = .ok c w1) :
    ∃ evs, w1 = w.logged evs ∧
      names evs = (if (w.element.owner LifecycleChildContext).isSome then [LifecycleChildContext] else []) ∧
      ((ownChildContext w = true ∧ c.truthy = true ∧
          ∃ hk, w.element.owner LifecycleChildContext = some hk ∧ hk w.inst.this [] = .ret c) ∨
        (ownChildContext w = false ∧ c = contextOrEmpty w.element.context)) := by
  simp only [getChildContext, bind_eq_ok, run_getWorld] at h
  obtain ⟨_, _, ⟨rfl, rfl⟩, h⟩ := h
  cases ho : w.element.owner LifecycleChildContext with
  | none =>
    simp only [ho, Option.isSome_none, Bool.false_eq_true, if_false, run_ite, run_pure] at h
    refine ⟨[], ?_, by simp, Or.inr ⟨by simp [ownChildContext, ho], ?_⟩⟩
    · split at h <;> simp at h <;> simp [World.logged, ← h.2]
    · unfold contextOrEmpty
      split at h <;> rename_i hc <;> simp at h <;> simp [hc, ← h.1]
  | some hk =>
    simp only [ho, Option.isSome_some, if_true, bind_eq_ok] at h
    obtain ⟨r, w0, h0, h⟩ := h
    obtain ⟨evs, rfl, hn, hv, hx⟩ := callHook_handled h0
    refine ⟨evs, ?_, by simp [hn], ?_⟩
    · simp only [run_ite, run_pure, run_bind, run_getWorld] at h
      split at h
      · simp at h
        exact h.2.symm
      · split at h <;> simp at h <;> exact h.2.symm
    · simp only [run_ite, run_pure, run_bind, run_getWorld] at h
      by_cases hr : r.truthy = true
      · rw [if_pos hr] at h
        simp at h
        obtain ⟨rfl, -⟩ := h
        rcases hv with hv | ⟨hk1, ho1, hk2⟩
        · rw [hv] at hr
          simp [Value.truthy] at hr
        · rw [ho] at ho1
          cases ho1
          exact Or.inl ⟨by simp [ownChildContext, ho, hk2, hr], hr, hk, rfl, hk2⟩
      · rw [if_neg hr] at h
        refine Or.inr ⟨?_, ?_⟩
        · rcases hx hk ho with hx | ⟨e, hx⟩
          · simp [ownChildContext, ho, hx, hr]
          · simp [ownChildContext, ho, hx]
        · unfold contextOrEmpty
          split at h <;> rename_i hc <;> simp at h <;>
            simp [World.logged] at hc <;> simp [hc, ← h.1, World.logged]

/-- A returning getChildElement has rendered once, on the instance and the
element context of the moment; when the render returned, the result is its
normalisation. -/
theorem getChildElement_value {env : Env} {w w1 : World} {c : Value}
    (h : getChildElement env w = .ok c w1) :
    ∃ evs, w1 = w.logged (.render w.inst.props w.inst.state w.element.context :: evs) ∧
      names evs = [] ∧
      ((∃ r, w.inst.render w.inst.this [w.inst.props, w.inst.state, w.element.context] = .ret r ∧
          c = env.commitElement r ∧ evs = []) ∨
        (∃ e, w.inst.render w.inst.this [w.inst.props, w.inst.state, w.element.context] = .thr e ∧
          env.boundary e LifecycleRender = some c ∧ evs = [.errorBoundary e LifecycleRender 1])) := by
  simp only [getChildElement, tryCatch, run_bind, run_getWorld, run_logEvent] at h
  cases hr : w.inst.render w.inst.this [w.inst.props, w.inst.state, w.element.context] with
  | ret v =>
    simp [hr] at h
    exact ⟨[], h.2.symm, rfl, Or.inl ⟨v, rfl, h.1.symm, rfl⟩⟩
  | thr e =>
    simp [hr, errorBoundary_run] at h
    cases hb : env.boundary e LifecycleRender <;> simp [hb] at h
    exact ⟨[.errorBoundary e LifecycleRender 1], by simp [World.logged, ← h.2], by simp,
      Or.inr ⟨e, rfl, by rw [hb, h.1], rfl⟩⟩


theorem getInitialState_run (element : ElementRef) (r : Value) (w : World) :
    getInitialState element r w =
      .ok (initialStateSpec w.inst.state r)
        { w with reactions := w.reactions ++ initialStateRegistrations element r } := by
  cases r with
  | bool b =>
    cases b <;>
      simp [getInitialState, initialStateSpec, initialStateRegistrations, Value.truthy, Value.isPromise,
        Value.isBoolean, run_bind, run_ite]
  | number n =>
    by_cases hn : n = 0 <;>
      simp [getInitialState, initialStateSpec, initialStateRegistrations, Value.truthy, Value.isPromise,
        Value.isBoolean, run_bind, run_ite, hn]
  | string s =>
    by_cases hs : s = "" <;>
      simp [getInitialState, initialStateSpec, initialStateRegistrations, Value.truthy, Value.isPromise,
        Value.isBoolean, run_bind, run_ite, hs]
  | _ =>
    simp [getInitialState, initialStateSpec, initialStateRegistrations, Value.truthy, Value.isPromise,
      Value.isBoolean, run_bind, run_ite, enqueuePending]

theorem initialStateSpec_truthy (current r : Value) : (initialStateSpec current r).truthy = true := by
  unfold initialStateSpec
  split
  · rename_i h
    exact h.1
  · split
    · rename_i h
      exact h
    · rfl

theorem initialStateSpec_undefined (current : Value) :
    initialStateSpec current .undefined = if current.truthy then current else .object [] := by
  simp [initialStateSpec, Value.truthy]

theorem contextOrEmpty_truthy (c : Value) : (contextOrEmpty c).truthy = true := by
  unfold contextOrEmpty
  split
  · assumption
  · rfl

theorem contextOrEmpty_of_truthy {c : Value} (h : c.truthy = true) : contextOrEmpty c = c := by
  simp [contextOrEmpty, h]

/-- The initial-state stage of componentMount. -/
theorem initialStateStage_ok {env : Env} {w w1 : World} {c : Prop} [Decidable c] {u : Unit}
    (h : (if c then
        (do
          let r ← lifecycleData env LifecycleInitialState
          let state ← getInitialState .ref r
          modifyWorld fun w => { w with inst := { w.inst with state := state } })
      else
        modifyWorld fun w =>
          if w.inst.state.truthy then w else { w with inst := { w.inst with state := .object [] } }) w
        = .ok u w1) :
    ∃ r evs,
      w1 = { w with
        inst := { w.inst with state := initialStateSpec w.inst.state r }
        reactions := w.reactions ++ initialStateRegistrations .ref r
        trace := w.trace ++ evs } ∧
      names evs = optional c LifecycleInitialState ∧
      (r = .undefined ∨
        (c ∧ ∃ hk, w.element.owner LifecycleInitialState = some hk ∧ hk w.inst.this [] = .ret r)) ∧
      (¬ c → evs = []) ∧
      (c → ∀ hk, w.element.owner LifecycleInitialState = some hk →
        hk w.inst.this [] = .ret r ∨ ∃ e, hk w.inst.this [] = .thr e) := by
  by_cases h0 : c
  · rw [if_pos h0] at h
    simp only [bind_eq_ok] at h
    obtain ⟨r, w0, h1, st, w3, h2, h3⟩ := h
    obtain ⟨evs, rfl, hn, hv, hx⟩ := callHook_handled h1
    rw [getInitialState_run] at h2
    simp only [Result.ok.injEq] at h2
    obtain ⟨rfl, rfl⟩ := h2
    simp only [run_modifyWorld, Result.ok.injEq, true_and] at h3
    refine ⟨r, evs, ?_, by simp [optional, h0, hn], ?_, fun h => absurd h0 h, fun _ => hx⟩
    · rw [← h3]
      simp [World.logged]
    · rcases hv with hv | hv
      · exact Or.inl hv
      · exact Or.inr ⟨h0, hv⟩
  · rw [if_neg h0] at h
    simp only [run_modifyWorld, Result.ok.injEq, true_and] at h
    refine ⟨.undefined, [], ?_, by simp [optional, h0], Or.inl rfl, fun _ => rfl,
      fun h => absurd h h0⟩
    rw [← h, initialStateSpec_undefined]
    obtain ⟨e, ⟨s, p, cx, rf, rd, el, ms⟩, sh, q, r, t, rm⟩ := w
    by_cases hs : s.truthy = true <;> simp [hs, initialStateRegistrations]

/-- The child-context stage of componentMount. -/
theorem mountContextStage_ok {env : Env} {w w1 : World} {c : Prop} [Decidable c] {u : Unit}
    (hc : c ↔ (w.element.owner LifecycleChildContext).isSome)
    (ht : w.element.context.truthy = true)
    (h : (if c then
        (do
          let own := ownChildContext (← getWorld)
          let cc ← getChildContext env
          modifyWorld fun w =>
            { w with element := { w.element with context := cc }
                     contextShared := w.contextShared && !own })
      else pure ()) w = .ok u w1) :
    ∃ ctx sh evs,
      w1 = { w with
        element := { w.element with context := ctx }
        contextShared := sh
        trace := w.trace ++ evs } ∧
      names evs = optional c LifecycleChildContext ∧
      ((c ∧ sh = false ∧ ctx.truthy = true ∧
          ∃ hk, w.element.owner LifecycleChildContext = some hk ∧ hk w.inst.this [] = .ret ctx) ∨
        (sh = w.contextShared ∧ ctx = w.element.context ∧
          ∀ hk v, w.element.owner LifecycleChildContext = some hk →
            hk w.inst.this [] = .ret v → v.truthy = false)) ∧
      (¬ c → evs = []) := by
  by_cases h0 : c
  · rw [if_pos h0] at h
    simp only [bind_eq_ok, run_getWorld, run_modifyWorld] at h
    obtain ⟨_, _, ⟨rfl, rfl⟩, cc, w0, h1, h2⟩ := h
    obtain ⟨evs, rfl, hn, hv⟩ := getChildContext_value h1
    simp only [Result.ok.injEq, true_and] at h2
    rw [if_pos (hc.1 h0)] at hn
    rcases hv with ⟨hown, htr, hk, ho, hr⟩ | ⟨hown, hcc⟩
    · refine ⟨cc, false, evs, ?_, by simp [optional, h0, hn], Or.inl ⟨h0, rfl, htr, hk, ho, hr⟩,
        fun h => absurd h0 h⟩
      rw [← h2]
      simp [World.logged, hown]
    · refine ⟨cc, w.contextShared, evs, ?_, by simp [optional, h0, hn], Or.inr ⟨rfl, ?_, ?_⟩,
        fun h => absurd h0 h⟩
      · rw [← h2]
        simp [World.logged, hown]
      · rw [hcc, contextOrEmpty_of_truthy ht]
      · intro hk v ho hr
        simp only [ownChildContext, ho, hr] at hown
        exact hown
  · rw [if_neg h0] at h
    simp only [run_pure, Result.ok.injEq, true_and] at h
    refine ⟨w.element.context, w.contextShared, [], ?_, by simp [optional, h0], Or.inr ⟨rfl, rfl, ?_⟩,
      fun _ => rfl⟩
    · rw [← h]
      simp
    · intro hk v ho
      exact absurd (hc.2 (by simp [ho])) h0

theorem setChildContext_ok {c ctx v : Value} {w w1 : World}
    (h : setChildContext c ctx w = .ok v w1) :
    v = withContext c ctx ∧ w1 = w ∧ c ≠ .undefined ∧ c ≠ .null := by
  cases c <;> simp [setChildContext, withContext] at h ⊢ <;> exact ⟨h.1.symm, h.2.symm⟩

/-- A returning componentMount: the world it leaves, the calls it made and where
the state, the context and the child come from. -/
theorem componentMount_ok {env : Env} {w w2 : World} {child : Value}
    (h : componentMount env w = .ok child w2) :
    ∃ r ctx sh evsI evsC evsR c0,
      w2 = w.afterMount (initialStateSpec (mountInstance w).state r) ctx child sh
        (initialStateRegistrations .ref r)
        (mountCreation w ++ evsI ++ evsC ++
          .render w.element.props (initialStateSpec (mountInstance w).state r) ctx :: evsR) ∧
      names evsI = optional ((mountOwner w LifecycleInitialState).isSome) LifecycleInitialState ∧
      (r = .undefined ∨
        ∃ hk, mountOwner w LifecycleInitialState = some hk ∧
          hk (mountThis w (mountInstance w).state) [] = .ret r) ∧
      names evsC = optional ((mountOwner w LifecycleChildContext).isSome) LifecycleChildContext ∧
      ((sh = false ∧ ctx.truthy = true ∧
          ∃ hk, mountOwner w LifecycleChildContext = some hk ∧
            hk (mountThis w (initialStateSpec (mountInstance w).state r)) [] = .ret ctx) ∨
        (sh = true ∧ ctx = contextOrEmpty w.element.context ∧
          ∀ hk v, mountOwner w LifecycleChildContext = some hk →
            hk (mountThis w (initialStateSpec (mountInstance w).state r)) [] = .ret v →
              v.truthy = false)) ∧
      names evsR = [] ∧
      ((∃ v, (mountInstance w).render (mountThis w (initialStateSpec (mountInstance w).state r))
            [w.element.props, initialStateSpec (mountInstance w).state r, ctx] = .ret v ∧
          c0 = env.commitElement v ∧ evsR = []) ∨
        (∃ e, (mountInstance w).render (mountThis w (initialStateSpec (mountInstance w).state r))
            [w.element.props, initialStateSpec (mountInstance w).state r, ctx] = .thr e ∧
          env.boundary e LifecycleRender = some c0 ∧ evsR = [.errorBoundary e LifecycleRender 1])) ∧
      child = withContext c0 ctx ∧ c0 ≠ .undefined ∧ c0 ≠ .null ∧
      ((mountOwner w LifecycleInitialState).isSome = false → evsI = []) ∧
      ((mountOwner w LifecycleChildContext).isSome = false → evsC = []) ∧
      (∀ hk, mountOwner w LifecycleInitialState = some hk →
        hk (mountThis w (mountInstance w).state) [] = .ret r ∨
          ∃ e, hk (mountThis w (mountInstance w).state) [] = .thr e) := by
  simp only [componentMount, bind_eq_ok, run_getWorld, run_modifyWorld, run_pure, Result.ok.injEq] at h
  obtain ⟨_, _, ⟨rfl, rfl⟩, created, w1, h1, _, wb, ⟨-, hb⟩, _, wi, hi, _, wc, hc, c0, wr, hr,
    _, _, ⟨rfl, rfl⟩, ch, ws, hs, _, _, ⟨-, rfl⟩, rfl, rfl⟩ := h
  obtain ⟨rfl, rfl⟩ := mountCreation_ok h1
  have howner : (if w.element.type.render.isSome then (mountInstance w).methods
      else w.element.type.statics) = mountOwner w := rfl
  rw [howner] at hb hi hc
  subst hb
  obtain ⟨r, evsI, rfl, hnI, hvI, hxI, hyI⟩ := initialStateStage_ok hi
  obtain ⟨ctx, sh, evsC, rfl, hnC, hvC, hxC⟩ := mountContextStage_ok (by simp)
    (contextOrEmpty_truthy w.element.context) hc
  obtain ⟨evsR, rfl, hnR, hvR⟩ := getChildElement_value hr
  obtain ⟨rfl, rfl, hu, hn⟩ := setChildContext_ok hs
  refine ⟨r, ctx, sh, evsI, evsC, evsR, c0, ?_, hnI, ?_, hnC, ?_, hnR, ?_, ?_, hu, hn,
    fun h => hxI (by simp [h]), fun h => hxC (by simp [h]), ?_⟩
  · simp [World.afterMount, World.logged, contextOrEmpty]
  · rcases hvI with h | ⟨-, hk, ho, hk1⟩
    · exact Or.inl h
    · exact Or.inr ⟨hk, ho, by simpa [Instance.this, mountThis, contextOrEmpty] using hk1⟩
  · rcases hvC with ⟨-, hsh, htr, hk, ho, hk1⟩ | ⟨hsh, hctx, hf⟩
    · exact Or.inl ⟨hsh, htr, hk, ho, by simpa [Instance.this, mountThis, contextOrEmpty] using hk1⟩
    · refine Or.inr ⟨by simpa using hsh, by simpa [contextOrEmpty] using hctx, ?_⟩
      intro hk v ho hk1
      exact hf hk v ho (by simpa [Instance.this, mountThis, contextOrEmpty] using hk1)
  · simpa [Instance.this, mountThis, contextOrEmpty, World.logged] using hvR
  · simp [World.logged]
  · intro hk ho
    have := hyI (by simp [ho]) hk ho
    simpa [Instance.this, mountThis, contextOrEmpty] using this

theorem returns_getChildInstance {env : Env} (hq : env.Quiet) : Returns (getChildInstance env) := by
  intro w
  rw [getChildInstance_run]
  cases hc : w.element.type.construct w.element.props w.element.context with
  | ret st => exact ⟨_, _, rfl⟩
  | thr e =>
    have := hq.1 e LifecycleConstructor
    cases hb : env.boundary e LifecycleConstructor <;> simp [hb] at this
    simp only [hb]
    exact ⟨_, _, rfl⟩

theorem returns_getInitialState (element : ElementRef) (r : Value) : Returns (getInitialState element r) :=
  fun w => ⟨_, _, getInitialState_run element r w⟩

/-- With every error handled and every child an element, render gives an object. -/
theorem getChildElement_object {env : Env} (hq : env.Quiet) (hel : env.Elements) (w : World) :
    ∃ fs w1, getChildElement env w = .ok (.object fs) w1 := by
  obtain ⟨c, w1, h⟩ := returns_getChildElement hq w
  obtain ⟨evs, -, -, hv⟩ := getChildElement_value h
  have hobj : c.isObject = true := by
    rcases hv with ⟨v, -, rfl, -⟩ | ⟨e, -, hb, -⟩
    · exact hel.1 v
    · exact hel.2 e c hb
  cases c <;> simp [Value.isObject] at hobj
  exact ⟨_, w1, h⟩

/-- With every error handled and every child an element, componentMount returns. -/
theorem componentMount_returns {env : Env} (hq : env.Quiet) (hel : env.Elements) (w : World) :
    ∃ child w2, componentMount env w = .ok child w2 := by
  have hcreate : ∀ t : ElementType, Returns (if t.render.isSome then
        (do
          let _ ← (if t.tagged then pure () else createComponent)
          getChildInstance env)
      else pure { Component with render := t.call }) := fun t =>
    returns_ite (returns_bind (returns_ite (returns_pure _) (returns_modifyWorld _))
      fun _ => returns_getChildInstance hq) (returns_pure _)
  have hstate : ∀ c : Prop, ∀ _ : Decidable c, Returns (if c then
        (do
          let r ← lifecycleData env LifecycleInitialState
          let state ← getInitialState .ref r
          modifyWorld fun w => { w with inst := { w.inst with state := state } })
      else
        modifyWorld fun w =>
          if w.inst.state.truthy then w else { w with inst := { w.inst with state := .object [] } }) :=
    fun c _ => returns_ite (returns_bind (returns_lifecycleData hq _)
      fun r => returns_bind (returns_getInitialState _ r) fun _ => returns_modifyWorld _)
      (returns_modifyWorld _)
  have hcontext : ∀ c : Prop, ∀ _ : Decidable c, Returns (if c then
        (do
          let own := ownChildContext (← getWorld)
          let cc ← getChildContext env
          modifyWorld fun w =>
            { w with element := { w.element with context := cc }
                     contextShared := w.contextShared && !own })
      else pure ()) :=
    fun c _ => returns_ite (returns_bind returns_getWorld
      fun _ => returns_bind (returns_getChildContext hq) fun _ => returns_modifyWorld _)
      (returns_pure _)
  simp only [componentMount, run_bind, run_getWorld, run_modifyWorld]
  obtain ⟨created, w1, h1⟩ := hcreate w.element.type w
  rw [h1]
  simp only []
  generalize (World.mk _ _ _ _ _ _ _) = wb
  generalize (if w.element.type.render.isSome = true then created.methods
    else w.element.type.statics) = owner
  obtain ⟨_, wi, hi⟩ := hstate ((owner LifecycleInitialState).isSome = true) inferInstance wb
  rw [hi]
  simp only []
  obtain ⟨_, wc, hc⟩ := hcontext ((owner LifecycleChildContext).isSome = true) inferInstance wi
  rw [hc]
  simp only []
  obtain ⟨fs, wr, hr⟩ := getChildElement_object hq hel wc
  rw [hr]
  exact ⟨_, _, rfl⟩

/-! ## Properties of the component runtime and the update scheduler -/

/-- C1: an element that passes the work guard and whose owner defines all update
hooks, when the call of should-update the pass makes does not return false, runs
each hook once and in the order fixed by the signature: will-receive-props,
should-update, will-update, render and reconcile, did-update for signature 1; the
same without will-receive-props for signature 2; will-update, render and
reconcile, did-update for signature 0; and the pass returns with work = Sync. -/
theorem componentUpdate_hook_order (W : Work) (env : Env) (snapshot : Snapshot) (signature : Nat) (w : World)
    (hguard : ¬ w.element.work < W.WorkSync)
    (hsig : signature ≤ 2)
    (hWRP : (w.element.owner LifecycleWillReceiveProps).isSome)
    (hSU : (w.element.owner LifecycleShouldUpdate).isSome)
    (hWU : (w.element.owner LifecycleWillUpdate).isSome)
    (hDU : (w.element.owner LifecycleDidUpdate).isSome) :
    (env.Quiet → ∃ w2, componentUpdate W env snapshot signature w = .ok () w2) ∧
    ∀ w2, componentUpdate W env snapshot signature w = .ok () w2 →
      (signature ≠ 0 → ∀ hk, w.element.owner LifecycleShouldUpdate = some hk →
        shouldUpdateCall snapshot signature w w2.inst.context hk ≠ .ret (.bool false)) →
      w2.element.work = W.WorkSync ∧
      ∃ evs, w2.trace = w.trace ++ .componentUpdate signature :: evs ∧
        names evs =
          optional ((w.element.owner LifecycleChildContext).isSome) LifecycleChildContext ++
          updateCalls signature ++
          optional (w.element.ref ≠ snapshot.ref) "commitRef" := by
  refine ⟨fun hq => ?_, fun w2 hrun hno => ?_⟩
  · obtain ⟨_, w2, h⟩ := returns_componentUpdate hq W snapshot signature w
    exact ⟨w2, h⟩
  · obtain ⟨evs, c1, c2, h | h⟩ := componentUpdate_cases hguard hrun
    · obtain ⟨rfl, -, hs, hk, ho, hf⟩ := h
      exact absurd hf (hno (by omega) hk ho)
    · obtain ⟨rfl, hn, -⟩ := h
      refine ⟨rfl, evs, rfl, ?_⟩
      rw [hn]
      have h012 : signature = 0 ∨ signature = 1 ∨ signature = 2 := by omega
      rcases h012 with rfl | rfl | rfl <;>
        simp [callsBefore, callsAfter, updateCalls, optional, hWRP, hSU, hWU, hDU]

/-- C1, witness: the example element whose should-update depends on the next
state, under signature 1, where it lets the pass through. -/
theorem componentUpdate_hook_order_witness :
    ¬ selectiveWorld.element.work < exampleWork.WorkSync ∧
    selectiveWorld.element.owner LifecycleShouldUpdate = some selectiveHook ∧
    (∃ t a, selectiveHook t a = .ret (.bool false)) ∧
    (∃ w2, componentUpdate exampleWork exampleEnv selectiveWorld.element.snapshot 1 selectiveWorld
      = .ok () w2) ∧
    ∀ w2, componentUpdate exampleWork exampleEnv selectiveWorld.element.snapshot 1 selectiveWorld
        = .ok () w2 →
      w2.element.work = exampleWork.WorkSync ∧
      ∃ evs, w2.trace = selectiveWorld.trace ++ .componentUpdate 1 :: evs ∧
        names evs =
          optional ((selectiveWorld.element.owner LifecycleChildContext).isSome) LifecycleChildContext ++
          updateCalls 1 ++
          optional (selectiveWorld.element.ref ≠ selectiveWorld.element.snapshot.ref) "commitRef" :=
  have h := componentUpdate_hook_order exampleWork exampleEnv selectiveWorld.element.snapshot 1
    selectiveWorld (by decide) (by decide) (by decide) (by decide) (by decide) (by decide)
  ⟨by decide, rfl,
    ⟨⟨.null, .null, .null, .null⟩, [.null, .object [("a", .number 1)], .null], rfl⟩,
    h.1 exampleEnv_quiet,
    fun w2 hrun => h.2 w2 hrun (by
      intro _ hk ho
      have h1 : selectiveWorld.element.owner LifecycleShouldUpdate = some selectiveHook := rfl
      rw [h1] at ho
      rw [← Option.some.inj ho]
      simp [shouldUpdateCall, selectiveHook, nextState, selectiveWorld, idleWorld, Value.fields, getField])⟩

/-- C2: for signature 1 or 2, when the call of should-update the pass makes
returns exactly false the pass aborts: none of will-update, render, the
reconciler, did-update or the ref resolver is called, instance.state and
instance.props are as before the call, and the call returns with work = Sync. -/
theorem componentUpdate_abort (W : Work) (env : Env) (snapshot : Snapshot) (signature : Nat) (w : World)
    (hk : Hook)
    (hguard : ¬ w.element.work < W.WorkSync)
    (hsig : signature = 1 ∨ signature = 2)
    (ho : w.element.owner LifecycleShouldUpdate = some hk) :
    (env.Quiet → ∃ w2, componentUpdate W env snapshot signature w = .ok () w2) ∧
    ∀ w2, componentUpdate W env snapshot signature w = .ok () w2 →
      shouldUpdateCall snapshot signature w w2.inst.context hk = .ret (.bool false) →
      w2.inst.state = w.inst.state ∧ w2.inst.props = w.inst.props ∧
      w2.element.work = W.WorkSync ∧
      ∃ evs, w2.trace = w.trace ++ .componentUpdate signature :: evs ∧
        LifecycleWillUpdate ∉ names evs ∧ LifecycleRender ∉ names evs ∧
        "reconcileElement" ∉ names evs ∧ LifecycleDidUpdate ∉ names evs ∧
        "commitRef" ∉ names evs := by
  refine ⟨fun hq => ?_, fun w2 hrun hfalse => ?_⟩
  · obtain ⟨_, w2, h⟩ := returns_componentUpdate hq W snapshot signature w
    exact ⟨w2, h⟩
  · obtain ⟨evs, c1, c2, h | h⟩ := componentUpdate_cases hguard hrun
    · obtain ⟨rfl, hn, -, -⟩ := h
      refine ⟨rfl, rfl, rfl, evs, rfl, ?_⟩
      rw [hn]
      simp only [callsBefore, optional]
      refine ⟨?_, ?_, ?_, ?_, ?_⟩ <;>
      · intro hmem
        simp only [List.mem_append] at hmem
        rcases hmem with (hmem | hmem) | hmem <;> split at hmem <;> revert hmem <;> decide
    · obtain ⟨rfl, -, hne⟩ := h
      exact absurd hfalse (hne hsig hk ho)

/-- C2, witness: the example element whose should-update depends on the next
state, under signature 2, where it returns false; on other arguments it does not. -/
theorem componentUpdate_abort_witness :
    ¬ selectiveWorld.element.work < exampleWork.WorkSync ∧
    selectiveWorld.element.owner LifecycleShouldUpdate = some selectiveHook ∧
    (∃ t a, selectiveHook t a ≠ .ret (.bool false)) ∧
    (∃ w2, componentUpdate exampleWork exampleEnv selectiveWorld.element.snapshot 2 selectiveWorld
      = .ok () w2) ∧
    ∀ w2, componentUpdate exampleWork exampleEnv selectiveWorld.element.snapshot 2 selectiveWorld
        = .ok () w2 →
      w2.inst.state = selectiveWorld.inst.state ∧ w2.inst.props = selectiveWorld.inst.props ∧
      w2.element.work = exampleWork.WorkSync ∧
      ∃ evs, w2.trace = selectiveWorld.trace ++ .componentUpdate 2 :: evs ∧
        LifecycleWillUpdate ∉ names evs ∧ LifecycleRender ∉ names evs ∧
        "reconcileElement" ∉ names evs ∧ LifecycleDidUpdate ∉ names evs ∧
        "commitRef" ∉ names evs :=
  have h := componentUpdate_abort exampleWork exampleEnv selectiveWorld.element.snapshot 2 selectiveWorld
    selectiveHook (by decide) (Or.inr rfl) rfl
  ⟨by decide, rfl, ⟨⟨.null, .null, .null, .null⟩, [], by simp [selectiveHook]⟩,
    h.1 exampleEnv_quiet,
    fun w2 hrun => h.2 w2 hrun (by
      simp [shouldUpdateCall, selectiveHook, nextState, selectiveWorld, idleWorld, Value.fields,
        assign, assignFields, setField, getField])⟩

/-- C3: in a pass that is not aborted, for a signature above 1 the instance
state afterwards is a new mapping, the shallow merge of the previous instance
state with element.state: a key of element.state takes its value from there
wholesale, every other key keeps the value of the previous state; for
signature 0 or 1 the instance state is the previous one, whatever is queued.
A pass is not aborted when the call of should-update it makes, if it makes one,
does not return false. -/
theorem componentUpdate_state (W : Work) (env : Env) (snapshot : Snapshot) (signature : Nat) (w : World)
    (hguard : ¬ w.element.work < W.WorkSync)
    (hprev : (keys w.inst.state.fields).Nodup)
    (hqueued : (keys w.element.state.fields).Nodup) :
    (env.Quiet → ∃ w2, componentUpdate W env snapshot signature w = .ok () w2) ∧
    ∀ w2, componentUpdate W env snapshot signature w = .ok () w2 →
      (signature = 1 ∨ signature = 2 → ∀ hk, w.element.owner LifecycleShouldUpdate = some hk →
        shouldUpdateCall snapshot signature w w2.inst.context hk ≠ .ret (.bool false)) →
      (signature > 1 → ∃ m, w2.inst.state = .object m ∧ (keys m).Nodup ∧
        ∀ k, getField k m = mergedField k w.inst.state.fields w.element.state.fields) ∧
      (signature ≤ 1 → w2.inst.state = w.inst.state) := by
  refine ⟨fun hq => ?_, fun w2 hrun hno => ?_⟩
  · obtain ⟨_, w2, h⟩ := returns_componentUpdate hq W snapshot signature w
    exact ⟨w2, h⟩
  · obtain ⟨evs, c1, c2, h | h⟩ := componentUpdate_cases hguard hrun
    · obtain ⟨rfl, -, hs, hk, ho, hf⟩ := h
      exact absurd hf (hno hs hk ho)
    · obtain ⟨rfl, -, -⟩ := h
      refine ⟨fun hs => ?_, fun hs => ?_⟩
      · refine ⟨assignFields (assignFields [] w.inst.state.fields) w.element.state.fields, ?_, ?_, ?_⟩
        · simp [World.afterUpdate, nextState, hs, assign, Value.fields]
        · exact nodup_assignFields _ _ (nodup_assignFields _ _ (by simp [keys]))
        · intro k
          rw [getField_assignFields _ _ _ hqueued, assignFields_nil _ hprev]
      · have : ¬ signature > 1 := by omega
        simp [World.afterUpdate, nextState, this]

/-- C3, witness: the example element whose should-update depends on the next
state, with `{a: 2}` queued over the state `{a: 0}`, under signature 2. -/
theorem componentUpdate_state_witness :
    ¬ passingWorld.element.work < exampleWork.WorkSync ∧
    passingWorld.element.owner LifecycleShouldUpdate = some selectiveHook ∧
    (∃ t a, selectiveHook t a = .ret (.bool false)) ∧
    (∃ w2, componentUpdate exampleWork exampleEnv passingWorld.element.snapshot 2 passingWorld
      = .ok () w2) ∧
    ∀ w2, componentUpdate exampleWork exampleEnv passingWorld.element.snapshot 2 passingWorld = .ok () w2 →
      (2 > 1 → ∃ m, w2.inst.state = .object m ∧ (keys m).Nodup ∧
        ∀ k, getField k m = mergedField k passingWorld.inst.state.fields passingWorld.element.state.fields) ∧
      (2 ≤ 1 → w2.inst.state = passingWorld.inst.state) :=
  have h := componentUpdate_state exampleWork exampleEnv passingWorld.element.snapshot 2 passingWorld
    (by decide) (by decide) (by decide)
  ⟨by decide, rfl,
    ⟨⟨.null, .null, .null, .null⟩, [.null, .object [("a", .number 1)], .null], rfl⟩,
    h.1 exampleEnv_quiet,
    fun w2 hrun => h.2 w2 hrun (by
      intro _ hk ho
      have h1 : passingWorld.element.owner LifecycleShouldUpdate = some selectiveHook := rfl
      rw [h1] at ho
      rw [← Option.some.inj ho]
      simp [shouldUpdateCall, selectiveHook, nextState, passingWorld, selectiveWorld, idleWorld,
        Value.fields, assign, assignFields, setField, getField])⟩

/-- C4: on an idle element with a live host node whose hooks do not abort, the
instance state after two consecutive enqueueState calls with the same plain
mapping is the instance state after one; and after enqueueState with `s1` and
then `s2` it is the shallow merge of the prior state with `s1` and then with
`s2`, a key of `s2` taking the value of `s2` as a whole. -/
theorem enqueueState_merge (W : Work) (env : Env) (fuel : Nat) (w : World) (s s1 s2 : Fields)
    (c c1 c2 : Value)
    (hidle : w.element.work = W.WorkSync) (hdom : w.element.DOM.isSome)
    (hno : ∀ hk, w.element.owner LifecycleShouldUpdate = some hk → ∀ t a, hk t a ≠ .ret (.bool false))
    (hprior : (keys w.inst.state.fields).Nodup)
    (hs : (keys s).Nodup) (hs1 : (keys s1).Nodup) (hs2 : (keys s2).Nodup) :
    (env.Quiet → ∃ wa wb,
        enqueueState W env fuel .ref (.object s1) c1 w = .ok () wa ∧
        enqueueState W env fuel .ref (.object s2) c2 wa = .ok () wb) ∧
    (∀ wa wb,
        enqueueState W env fuel .ref (.object s) c w = .ok () wa →
        enqueueState W env fuel .ref (.object s) c wa = .ok () wb →
        wb.inst.state = wa.inst.state) ∧
    (∀ wa wb,
        enqueueState W env fuel .ref (.object s1) c1 w = .ok () wa →
        enqueueState W env fuel .ref (.object s2) c2 wa = .ok () wb →
        ∃ m1 m2, wa.inst.state = .object m1 ∧ wb.inst.state = .object m2 ∧
          (∀ k, getField k m1 = mergedField k w.inst.state.fields s1) ∧
          (∀ k, getField k m2 = mergedField k m1 s2)) := by
  refine ⟨fun hq => ?_, fun wa wb ha hb => ?_, fun wa wb ha hb => ?_⟩
  · obtain ⟨_, wa, ha⟩ := returns_enqueueState_object hq W fuel s1 c1 w
    obtain ⟨_, wb, hb⟩ := returns_enqueueState_object hq W fuel s2 c2 wa
    exact ⟨wa, wb, ha, hb⟩
  · obtain ⟨a1, a2, evs, rfl⟩ := enqueueState_object_ok hidle hdom hno ha
    obtain ⟨b1, b2, evs1, rfl⟩ := enqueueState_object_ok (by simp [World.afterUpdate])
      (by simpa [World.afterUpdate] using hdom) (by simpa [World.afterUpdate] using hno) hb
    simp only [World.afterUpdate, assign, Value.fields]
    rw [assignFields_nil _ (nodup_assignFields _ _ (nodup_assignFields _ _ (by simp [keys]))),
      assignFields_idem _ _ hs]
  · obtain ⟨a1, a2, evs, rfl⟩ := enqueueState_object_ok hidle hdom hno ha
    obtain ⟨b1, b2, evs1, rfl⟩ := enqueueState_object_ok (by simp [World.afterUpdate])
      (by simpa [World.afterUpdate] using hdom) (by simpa [World.afterUpdate] using hno) hb
    refine ⟨assignFields (assignFields [] w.inst.state.fields) s1,
      assignFields (assignFields [] (assignFields (assignFields [] w.inst.state.fields) s1)) s2,
      by simp [World.afterUpdate, assign, Value.fields],
      by simp [World.afterUpdate, assign, Value.fields], fun k => ?_, fun k => ?_⟩
    · rw [getField_assignFields _ _ _ hs1, assignFields_nil _ hprior]
    · rw [getField_assignFields _ _ _ hs2,
        assignFields_nil _ (nodup_assignFields _ _ (nodup_assignFields _ _ (by simp [keys])))]

/-- C4, witness: `{a: 1}` twice, and `{a: 1}` followed by `{b: {c: 2}}`, on the idle example element. -/
theorem enqueueState_merge_witness :
    (∃ wa wb,
        enqueueState exampleWork exampleEnv 0 .ref (.object [("a", .number 1)]) .undefined idleWorld
          = .ok () wa ∧
        enqueueState exampleWork exampleEnv 0 .ref (.object [("b", .object [("c", .number 2)])])
          .undefined wa = .ok () wb) ∧
    (∀ wa wb,
        enqueueState exampleWork exampleEnv 0 .ref (.object [("a", .number 1)]) .undefined idleWorld
          = .ok () wa →
        enqueueState exampleWork exampleEnv 0 .ref (.object [("a", .number 1)]) .undefined wa
          = .ok () wb →
        wb.inst.state = wa.inst.state) ∧
    (∀ wa wb,
        enqueueState exampleWork exampleEnv 0 .ref (.object [("a", .number 1)]) .undefined idleWorld
          = .ok () wa →
        enqueueState exampleWork exampleEnv 0 .ref (.object [("b", .object [("c", .number 2)])])
          .undefined wa = .ok () wb →
        ∃ m1 m2, wa.inst.state = .object m1 ∧ wb.inst.state = .object m2 ∧
          (∀ k, getField k m1 = mergedField k idleWorld.inst.state.fields [("a", .number 1)]) ∧
          (∀ k, getField k m2 = mergedField k m1 [("b", .object [("c", .number 2)])])) :=
  have h := enqueueState_merge exampleWork exampleEnv 0 idleWorld [("a", .number 1)] [("a", .number 1)]
    [("b", .object [("c", .number 2)])] .undefined .undefined .undefined rfl rfl
    (by
      intro hk ho t a
      have h1 : idleWorld.element.owner LifecycleShouldUpdate = some (fun _ _ => .ret .undefined) := rfl
      rw [h1] at ho
      rw [← Option.some.inj ho]
      simp)
    (by decide) (by decide) (by decide) (by decide)
  ⟨h.1 exampleEnv_quiet, h.2.1, h.2.2⟩

/-- C5, counterexample: mid-update (work = Task) the mapping is merged over the
queued state and not written as it is, and on an idle element it is written as
it is and not merged. -/
theorem enqueueState_direct_write_counterexample :
    (busyWorld.element.work = exampleWork.WorkTask ∧
      ((enqueueState exampleWork exampleEnv 0 .ref (.object [("b", .number 2)]) .undefined
          busyWorld).world.map fun w => w.element.state)
        = some (.object [("a", .number 1), ("b", .number 2)]) ∧
      Value.object [("a", .number 1), ("b", .number 2)] ≠ .object [("b", .number 2)]) ∧
    (idleWorld.element.work ≠ exampleWork.WorkTask ∧
      ((enqueueState exampleWork exampleEnv 0 .ref (.object [("b", .number 2)]) .undefined
          idleWorld).world.map fun w => w.element.state)
        = some (.object [("b", .number 2)]) ∧
      Value.object [("b", .number 2)] ≠
        assign (.object []) idleWorld.element.state (.object [("b", .number 2)])) :=
  ⟨⟨rfl, rfl, by simp⟩, by decide, rfl, by simp [assign, assignFields, idleWorld, Value.fields, setField]⟩

/-- C5, amended: for a plain mapping, enqueueState writes the mapping itself to
element.state when the element is idle (work = Sync), replacing what was queued,
and otherwise (mid-update included) the shallow merge of what was queued with
the mapping; it then requests an update with signature 2 through enqueueUpdate,
which leaves element.state as written. -/
theorem enqueueState_plain_mapping (W : Work) (env : Env) (fuel : Nat) (s : Fields) (callback : Value)
    (w : World)
    (hqueued : (keys w.element.state.fields).Nodup) (hs : (keys s).Nodup) :
    enqueueState W env fuel .ref (.object s) callback w =
      enqueueUpdate W env .ref callback 2
        { w with element := { w.element with
            state := if w.element.work = W.WorkSync then .object s
                     else assign (.object []) w.element.state (.object s) } } ∧
    ∀ w2, enqueueState W env fuel .ref (.object s) callback w = .ok () w2 →
      (w.element.work = W.WorkSync → w2.element.state = .object s) ∧
      (w.element.work ≠ W.WorkSync → ∃ m, w2.element.state = .object m ∧
        ∀ k, getField k m = mergedField k w.element.state.fields s) := by
  refine ⟨enqueueState_object W env fuel s callback w, fun w2 h => ?_⟩
  rw [enqueueState_object] at h
  have h1 := enqueueUpdate_state h
  refine ⟨fun hw => ?_, fun hw => ?_⟩
  · rw [h1]
    simp [hw]
  · refine ⟨assignFields (assignFields [] w.element.state.fields) s, ?_, fun k => ?_⟩
    · rw [h1]
      simp [hw, assign, Value.fields]
    · rw [getField_assignFields _ _ _ hs, assignFields_nil _ hqueued]

/-- C5, witness of the amended claim: `{b: 2}` on the example element in the middle of a pass. -/
theorem enqueueState_plain_mapping_witness :
    enqueueState exampleWork exampleEnv 0 .ref (.object [("b", .number 2)]) .undefined busyWorld =
      enqueueUpdate exampleWork exampleEnv .ref .undefined 2
        { busyWorld with element := { busyWorld.element with
            state := if busyWorld.element.work = exampleWork.WorkSync then .object [("b", .number 2)]
                     else assign (.object []) busyWorld.element.state (.object [("b", .number 2)]) } } ∧
    ∀ w2, enqueueState exampleWork exampleEnv 0 .ref (.object [("b", .number 2)]) .undefined busyWorld
        = .ok () w2 →
      (busyWorld.element.work = exampleWork.WorkSync → w2.element.state = .object [("b", .number 2)]) ∧
      (busyWorld.element.work ≠ exampleWork.WorkSync → ∃ m, w2.element.state = .object m ∧
        ∀ k, getField k m = mergedField k busyWorld.element.state.fields [("b", .number 2)]) :=
  enqueueState_plain_mapping exampleWork exampleEnv 0 [("b", .number 2)] .undefined busyWorld
    (by decide) (by decide)

/-- C6: while an update pass is in flight (work = Task, which lies below Sync),
enqueueUpdate runs no componentUpdate and calls no completion callback: it
schedules one continuation through enqueue, which retries enqueueUpdate with the
same element, callback and signature.  So do forceUpdate and setState with a
plain mapping when called from a hook of the element, and setState runs no
componentUpdate whatever state it is given. -/
theorem enqueueUpdate_in_flight (W : Work) (env : Env) (w : World) (callback : Value) (signature : Nat)
    (hlt : W.WorkTask < W.WorkSync) (hwork : w.element.work = W.WorkTask) :
    enqueueUpdate W env .ref callback signature w =
      .ok () { w with queue := w.queue ++ [.update .ref callback signature] } ∧
    (∀ fuel, Task.run W env fuel (.update .ref callback signature) =
      enqueueUpdate W env .ref callback signature) ∧
    (w.inst.element = .ref →
      forceUpdate W env callback w = .ok () { w with queue := w.queue ++ [.update .ref callback 0] }) ∧
    (w.inst.element = .ref → ∀ fuel s,
      setState W env fuel (.object s) callback w =
        .ok () { w with
          element := { w.element with state := assign (.object []) w.element.state (.object s) }
          queue := w.queue ++ [.update .ref callback 2] }) ∧
    (w.inst.element = .ref → ∀ fuel state w2,
      (setState W env fuel state callback w = .ok () w2 ∨
        ∃ e, setState W env fuel state callback w = .throw e w2) →
      ∃ evs, w2.trace = w.trace ++ evs ∧ "componentUpdate" ∉ names evs) := by
  have hg : w.element.work < W.WorkSync := by rw [hwork]; exact hlt
  have hne : ¬ W.WorkTask = W.WorkSync := by omega
  refine ⟨?_, fun fuel => rfl, fun he => ?_, fun he fuel s => ?_, fun he fuel state w2 h => ?_⟩
  · simp [enqueueUpdate, run_bind, hg]
  · simp [forceUpdate, he, enqueueUpdate, run_bind, hg]
  · simp only [setState, run_bind, run_getWorld, he]
    rw [enqueueState_object]
    simp [enqueueUpdate, run_bind, hwork, hlt, hne]
  · simp only [setState, run_bind, run_getWorld, he] at h
    exact enqueueState_in_flight hlt callback fuel state w w2 hwork h

/-- C6, witness: the example element in the middle of a pass, with Task = 0 below Sync = 1. -/
theorem enqueueUpdate_in_flight_witness :
    enqueueUpdate exampleWork exampleEnv .ref (.func 7) 0 busyWorld =
      .ok () { busyWorld with queue := busyWorld.queue ++ [.update .ref (.func 7) 0] } ∧
    (∀ fuel, Task.run exampleWork exampleEnv fuel (.update .ref (.func 7) 0) =
      enqueueUpdate exampleWork exampleEnv .ref (.func 7) 0) ∧
    (busyWorld.inst.element = .ref →
      forceUpdate exampleWork exampleEnv (.func 7) busyWorld =
        .ok () { busyWorld with queue := busyWorld.queue ++ [.update .ref (.func 7) 0] }) ∧
    (busyWorld.inst.element = .ref → ∀ fuel s,
      setState exampleWork exampleEnv fuel (.object s) (.func 7) busyWorld =
        .ok () { busyWorld with
          element := { busyWorld.element with
            state := assign (.object []) busyWorld.element.state (.object s) }
          queue := busyWorld.queue ++ [.update .ref (.func 7) 2] }) ∧
    (busyWorld.inst.element = .ref → ∀ fuel state w2,
      (setState exampleWork exampleEnv fuel state (.func 7) busyWorld = .ok () w2 ∨
        ∃ e, setState exampleWork exampleEnv fuel state (.func 7) busyWorld = .throw e w2) →
      ∃ evs, w2.trace = busyWorld.trace ++ evs ∧ "componentUpdate" ∉ names evs) :=
  enqueueUpdate_in_flight exampleWork exampleEnv busyWorld (.func 7) 0 (by decide) rfl

/-- C7, counterexample: with work = Sync, which is not below Sync, a pass is
performed; with work below Sync the call does nothing. -/
theorem componentUpdate_guard_counterexample :
    (¬ idleWorld.element.work < exampleWork.WorkSync ∧
      ((componentUpdate exampleWork exampleEnv idleWorld.element.snapshot 0 idleWorld).world.map
          fun w => (names w.trace, w.inst.state))
        = some (["componentUpdate", LifecycleWillUpdate, LifecycleRender, "reconcileElement",
            LifecycleDidUpdate], .object [("a", .number 0)])) ∧
    (busyWorld.element.work < exampleWork.WorkSync ∧
      ((componentUpdate exampleWork exampleEnv busyWorld.element.snapshot 0 busyWorld).world.map
          fun w => (names w.trace, w.element.work))
        = some (["componentUpdate"], 0)) :=
  ⟨⟨by decide, rfl⟩, by decide, rfl⟩

/-- C7, amended: componentUpdate does nothing when element.work is below Sync on
entry: no hook is called and no field of the element or of its instance changes.
Otherwise it performs a pass: work is Task for its duration, where a throw
leaves it, and Sync when the pass returns. -/
theorem componentUpdate_guard (W : Work) (env : Env) (snapshot : Snapshot) (signature : Nat) (w : World) :
    (w.element.work < W.WorkSync →
      componentUpdate W env snapshot signature w = .ok () (w.logged [.componentUpdate signature])) ∧
    (¬ w.element.work < W.WorkSync →
      (∀ w2, componentUpdate W env snapshot signature w = .ok () w2 →
        w2.element.work = W.WorkSync ∧
        ∃ evs, w2.trace = w.trace ++ .componentUpdate signature :: evs ∧
          (LifecycleShouldUpdate ∈ names evs ∨ LifecycleRender ∈ names evs)) ∧
      (∀ e w2, componentUpdate W env snapshot signature w = .throw e w2 →
        w2.element.work = W.WorkTask) ∧
      componentUpdate W env snapshot signature w ≠ .diverge) := by
  refine ⟨fun hg => ?_, fun hg => ⟨fun w2 h => ?_, fun e w2 h => ?_, fun h => ?_⟩⟩
  · simp [componentUpdate, run_bind, hg, World.logged]
  · obtain ⟨evs, c1, c2, h2 | h2⟩ := componentUpdate_ok hg h
    · obtain ⟨rfl, hn, hs, hk, -, -, ho, -⟩ := h2
      refine ⟨rfl, evs, rfl, Or.inl ?_⟩
      rw [hn]
      simp [callsBefore, optional, hs, ho]
    · obtain ⟨rfl, hn, -⟩ := h2
      refine ⟨rfl, evs, rfl, Or.inr ?_⟩
      rw [hn]
      simp [callsAfter]
  · have := componentUpdate_work W env snapshot signature w hg
    rw [h] at this
    exact this
  · have := componentUpdate_work W env snapshot signature w hg
    rw [h] at this
    exact this

/-- C8: enqueueState with a Promise only attaches the handlers: element.state,
instance.state, the queue and the trace are as before, so no componentUpdate has
run and the callback has not been called.  The fulfilment handler schedules,
through enqueue, the continuation that performs enqueueState with the resolved
value and the same callback; the rejection handler schedules nothing.  When that
continuation calls the callback it does so after the pass of componentUpdate, on
the instance state the pass has left, which holds the resolved mapping unless
should-update vetoed the pass. -/
theorem enqueueState_promise (W : Work) (env : Env) (fuel : Nat) (element : ElementRef) (p : Nat)
    (callback : Value) (w : World) :
    enqueueState W env fuel element (.promise p) callback w =
      .ok () { w with reactions := w.reactions ++
        [{ promise := p, element := element, callback := callback }] } ∧
    (∀ v w1, Reaction.onFulfilled { promise := p, element := element, callback := callback } v w1 =
      .ok () { w1 with queue := w1.queue ++ [.state element v callback] }) ∧
    (∀ v fuel1, Task.run W env fuel1 (.state element v callback) =
      enqueueState W env fuel1 element v callback) ∧
    (∀ e w1, Reaction.onRejected env { promise := p, element := element, callback := callback } e w1 =
      match env.boundary e "async:setState" with
      | some _ => .ok () (w1.logged [.errorBoundary e "async:setState" 1])
      | none => .throw e (w1.logged [.errorBoundary e "async:setState" 1])) ∧
    (∀ f s fuel1 w1 w2, callback = .func f →
      enqueueState W env fuel1 .ref (.object s) callback w1 = .ok () w2 →
      ∃ evs, w2.trace = w1.trace ++ evs ∧
        (LifecycleCallback ∉ names evs ∨
          ∃ evs1 evs2,
            evs = .componentUpdate 2 :: evs1 ++ .callback f w2.inst.state w2.inst.props :: evs2 ∧
            LifecycleCallback ∉ names evs1 ∧ names evs2 = [] ∧
            ((∀ hk, w1.element.owner LifecycleShouldUpdate = some hk →
                ∀ t a, hk t a ≠ .ret (.bool false)) →
              (keys s).Nodup → ∀ k v, (k, v) ∈ s → getField k w2.inst.state.fields = some v))) := by
  refine ⟨?_, fun v w1 => rfl, fun v fuel1 => rfl, fun e w1 => ?_, fun f s fuel1 w1 w2 hf h => ?_⟩
  · cases fuel <;> simp [enqueueState, Value.truthy, enqueuePending]
  · have hp : LifecycleAsync ++ ":" ++ LifecycleState = "async:setState" := by decide
    simp only [Reaction.onRejected, run_bind, errorBoundary_run, hp]
    cases env.boundary e "async:setState" <;> rfl
  · subst hf
    exact enqueueState_callback_after_update h

/-- C9, counterexample: an async function passed to enqueueState as updater is
never called.  Its constructor is not Function, so it takes the default case: on
the idle example element it is written to element.state as it is and a pass of
signature 2 runs, in which the only calls are the update hooks, render and the
reconciler. -/
theorem enqueueState_updater_counterexample :
    ((enqueueState exampleWork exampleEnv 1 .ref (.callable 1) .undefined idleWorld).world.map
        fun w => (w.element.state, names w.trace))
      = some (.callable 1, "componentUpdate" :: updateCalls 2) ∧
    LifecycleCallback ∉ "componentUpdate" :: updateCalls 2 :=
  ⟨rfl, by decide⟩

/-- C9, amended: an updater passed to enqueueState whose constructor is Function
is called once, at once, on the instance with (instance.state, instance.props).
When it returns `r` the call goes on as enqueueState with `r` and the same
callback.  When it throws `e` the error goes to the dispatcher with phase
`setState:callback` and rethrow 1, and when the dispatcher returns nothing else
has happened: no update is requested and element.state is as before.  A callable
whose constructor is not Function, an async or a generator function, is no
updater: it is not called, and the call goes on as for a plain state, which is
written to element.state or merged into it before an update of signature 2 is
requested. -/
theorem enqueueState_updater (W : Work) (env : Env) (fuel : Nat) (element : ElementRef) (f : Nat)
    (callback : Value) (w : World) :
    (∀ r, env.call f w.inst.this [w.inst.state, w.inst.props] = .ret r →
      enqueueState W env (fuel + 1) element (.func f) callback w =
        enqueueState W env fuel element r callback
          (w.logged [.callback f w.inst.state w.inst.props])) ∧
    (∀ e, env.call f w.inst.this [w.inst.state, w.inst.props] = .thr e →
      enqueueState W env (fuel + 1) element (.func f) callback w =
        match env.boundary e "setState:callback" with
        | some _ => .ok ()
            (w.logged [.callback f w.inst.state w.inst.props, .errorBoundary e "setState:callback" 1])
        | none => .throw e
            (w.logged [.callback f w.inst.state w.inst.props, .errorBoundary e "setState:callback" 1])) ∧
    (∀ g, enqueueState W env fuel .ref (.callable g) callback w =
      enqueueUpdate W env .ref callback 2
        { w with element := { w.element with
            state := if w.element.work = W.WorkSync then .callable g
                     else assign (.object []) w.element.state (.callable g) } }) := by
  have hp : LifecycleState ++ ":" ++ LifecycleCallback = "setState:callback" := by decide
  have hu : ∀ w1, enqueueState W env fuel element .undefined callback w1 = .ok () w1 := by
    intro w1
    cases fuel <;> simp [enqueueState, Value.truthy]
  refine ⟨fun r hr => ?_, fun e he => ?_, fun g => ?_⟩
  · simp [enqueueState, Value.truthy, run_bind, enqueueCallback, tryCatch, hr, World.logged]
  · simp only [enqueueState, Value.truthy, if_true, run_bind, enqueueCallback, tryCatch, run_getWorld,
      run_logEvent, he, run_liftOutcome_thr, errorBoundary_run, hp]
    cases env.boundary e "setState:callback" with
    | none => simp [World.logged]
    | some v => simp [World.logged, hu]
  · cases fuel <;> simp [enqueueState, Value.truthy, run_bind]

/-- C10: for an element that is resolvable and not in flight but has no live
host node, enqueueUpdate does nothing at all: no componentUpdate, nothing
scheduled, no callback, and the world, instance state, props and work status
included, is as before. -/
theorem enqueueUpdate_detached (W : Work) (env : Env) (w : World) (callback : Value) (signature : Nat)
    (hready : ¬ w.element.work < W.WorkSync) (hdom : w.element.DOM = none) :
    enqueueUpdate W env .ref callback signature w = .ok () w := by
  simp [enqueueUpdate, run_bind, hready, hdom]

/-- C10, witness: the example element, idle, without a host node. -/
theorem enqueueUpdate_detached_witness :
    ¬ detachedWorld.element.work < exampleWork.WorkSync ∧ detachedWorld.element.DOM = none ∧
    enqueueUpdate exampleWork exampleEnv .ref (.func 7) 2 detachedWorld = .ok () detachedWorld :=
  ⟨by decide, rfl, enqueueUpdate_detached exampleWork exampleEnv detachedWorld (.func 7) 2 (by decide) rfl⟩

/-! ## Properties of the mount -/

theorem mountEnv_quiet : mountEnv.Quiet :=
  ⟨fun _ _ => rfl, fun _ _ => ⟨_, rfl⟩, fun _ _ => ⟨_, rfl⟩⟩

theorem mountEnv_elements : mountEnv.Elements :=
  ⟨fun _ => rfl, fun _ c h => by cases h; rfl⟩

theorem not_mem_optional {c : Prop} [Decidable c] {n m : String} (h : n ≠ m) : n ∉ optional c m := by
  unfold optional
  split <;> simp [h]

/-- C12: for an element whose owner defines the initial-state and child-context
hooks, componentMount calls, after the creation of the instance, the
initial-state hook, then the child-context hook, then render, each once and in
that order; the child is the normalised render result with its context set to
the resolved element.context, it is stored as element.children and returned. -/
theorem componentMount_order (env : Env) (w : World)
    (hstate : (mountOwner w LifecycleInitialState).isSome)
    (hcontext : (mountOwner w LifecycleChildContext).isSome) :
    (env.Quiet → env.Elements → ∃ child w2, componentMount env w = .ok child w2) ∧
    ∀ child w2, componentMount env w = .ok child w2 →
      (∃ evs, w2.trace = w.trace ++ mountCreation w ++ evs ∧
        names evs = [LifecycleInitialState, LifecycleChildContext, LifecycleRender]) ∧
      w2.element.children = child ∧
      (∀ v, w2.inst.render w2.inst.this [w2.inst.props, w2.inst.state, w2.element.context] = .ret v →
        child = withContext (env.commitElement v) w2.element.context) ∧
      ∀ fs, child = .object fs → getField "context" fs = some w2.element.context := by
  refine ⟨fun hq hel => componentMount_returns hq hel w, fun child w2 hrun => ?_⟩
  obtain ⟨r, ctx, sh, evsI, evsC, evsR, c0, rfl, hnI, -, hnC, -, hnR, hvR, hch, hu, hn⟩ :=
    componentMount_ok hrun
  refine ⟨⟨evsI ++ evsC ++ .render w.element.props (initialStateSpec (mountInstance w).state r) ctx :: evsR,
    by simp [World.afterMount], ?_⟩, rfl, ?_, ?_⟩
  · simp [hnI, hnC, hnR, optional, hstate, hcontext]
  · intro v hv
    rcases hvR with ⟨v1, hv1, rfl, -⟩ | ⟨e, he, -, -⟩
    · have : Outcome.ret v1 = .ret v := by
        rw [← hv1, ← hv]
        rfl
      cases this
      exact hch
    · have : Outcome.thr e = .ret v := by
        rw [← he, ← hv]
        rfl
      cases this
  · intro fs hfs
    rw [hch] at hfs
    cases c0 <;> simp [withContext] at hfs
    rw [← hfs, getField_setField]
    simp [World.afterMount]

theorem componentMount_order_witness :
    (mountOwner classWorld LifecycleInitialState).isSome ∧
    (mountOwner classWorld LifecycleChildContext).isSome ∧
    (∃ child w2, componentMount mountEnv classWorld = .ok child w2) ∧
    ∀ child w2, componentMount mountEnv classWorld = .ok child w2 →
      (∃ evs, w2.trace = classWorld.trace ++ mountCreation classWorld ++ evs ∧
        names evs = [LifecycleInitialState, LifecycleChildContext, LifecycleRender]) ∧
      w2.element.children = child ∧
      (∀ v, w2.inst.render w2.inst.this [w2.inst.props, w2.inst.state, w2.element.context] = .ret v →
        child = withContext (mountEnv.commitElement v) w2.element.context) ∧
      ∀ fs, child = .object fs → getField "context" fs = some w2.element.context :=
  have h := componentMount_order mountEnv classWorld (by decide) (by decide)
  ⟨by decide, by decide, h.1 mountEnv_quiet mountEnv_elements, h.2⟩

theorem mountOwner_of_render {w : World} {rd : Hook} {st : Value}
    (hrd : w.element.type.render = some rd)
    (hc : w.element.type.construct w.element.props w.element.context = .ret st) :
    mountInstance w = constructed w st ∧ mountOwner w = w.element.type.methods ∧
      mountCreation w = [.construct w.element.props w.element.context] := by
  simp [mountInstance, mountOwner, mountCreation, hrd, hc, constructed]

theorem mountOwner_of_function {w : World} (hrd : w.element.type.render = none) :
    mountInstance w = { Component with render := w.element.type.call } ∧
      mountOwner w = w.element.type.statics ∧ mountCreation w = [] := by
  simp [mountInstance, mountOwner, mountCreation, hrd]

theorem contextOrEmpty_object {c : Value} (h : c.truthy = true → c.isObject = true) :
    (contextOrEmpty c).isObject = true := by
  unfold contextOrEmpty
  split
  · rename_i ht
    exact h ht
  · rfl

/-- C13, counterexample: no context is supplied to the element.  When the
child-context hook of its class returns the number 5, element.context after the
mount is 5, which is no mapping; when it returns `{b: 2}`, element.context is
`{b: 2}` and not `{}`.  The instance holds `{}` in both cases. -/
theorem componentMount_class_like_counterexample :
    (numberContextWorld.element.context = .undefined ∧
      ((componentMount mountEnv numberContextWorld).world.map fun w =>
          (w.element.context, w.element.context.isObject, w.inst.context))
        = some (.number 5, false, .object [])) ∧
    (bareWorld.element.context = .undefined ∧
      ((componentMount mountEnv bareWorld).world.map fun w => (w.element.context, w.inst.context))
        = some (.object [("b", .number 2)], .object []) ∧
      Value.object [("b", .number 2)] ≠ .object []) :=
  ⟨⟨rfl, rfl⟩, rfl, rfl, by simp⟩

/-- C13, amended: componentMount treats element.type as class-like exactly when
its prototype has a render method.  Then the constructor is called once with
(props, context), the prototype is tagged as a component, and the instance it
gives, with the render of the prototype, is the owner.  For every other type no
constructor is called, the instance is a fresh Component whose render is the
type itself, and the type is the owner.  In both cases the instance is bound to
the element, its refs are an empty mapping, its props are element.props, its
state is not falsy, and its context is `element.context || {}` as resolved
before the hooks run: `{}` when none was supplied, a mapping when the context
supplied is one.  element.context is not falsy: it is that same value, unless
the owner has a child-context hook that returns a truthy value, and then it is
that value, whatever it is. -/
theorem componentMount_class_like (env : Env) (w : World) :
    (env.Quiet → env.Elements → ∃ child w2, componentMount env w = .ok child w2) ∧
    ∀ child w2, componentMount env w = .ok child w2 →
      (∀ rd, w.element.type.render = some rd →
        (∃ evs, w2.trace = w.trace ++ .construct w.element.props w.element.context :: evs ∧
          LifecycleConstructor ∉ names evs) ∧
        w2.element.type.tagged = true ∧
        ∀ st, w.element.type.construct w.element.props w.element.context = .ret st →
          w2.inst.render = rd ∧ w2.inst.methods = w.element.type.methods ∧
            w2.element.owner = w.element.type.methods) ∧
      (w.element.type.render = none →
        (∃ evs, w2.trace = w.trace ++ evs ∧ LifecycleConstructor ∉ names evs) ∧
        w2.element.type.tagged = w.element.type.tagged ∧
        w2.inst.render = w.element.type.call ∧ w2.element.owner = w.element.type.statics) ∧
      w2.inst.element = .ref ∧ w2.inst.refs = .object [] ∧
      w2.inst.props = w.element.props ∧ w2.element.props = w.element.props ∧
      w2.inst.state.truthy = true ∧
      w2.element.context.truthy = true ∧
      w2.inst.context = contextOrEmpty w.element.context ∧
      ((w.element.context.truthy = true → w.element.context.isObject = true) →
        w2.inst.context.isObject = true) ∧
      (w.element.context.truthy = false → w2.inst.context = .object []) ∧
      ((w2.element.owner LifecycleChildContext).isNone → w2.element.context = w2.inst.context) ∧
      ∀ hk, w2.element.owner LifecycleChildContext = some hk →
        (∀ v, hk w2.inst.this [] = .ret v → v.truthy = true → w2.element.context = v) ∧
        ((∀ v, hk w2.inst.this [] = .ret v → v.truthy = false) →
          w2.element.context = w2.inst.context) := by
  refine ⟨fun hq hel => componentMount_returns hq hel w, fun child w2 hrun => ?_⟩
  obtain ⟨r, ctx, sh, evsI, evsC, evsR, c0, rfl, hnI, -, hnC, hvC, hnR, -, -, -, -⟩ :=
    componentMount_ok hrun
  have hnames : LifecycleConstructor ∉ names (evsI ++ evsC ++
      .render w.element.props (initialStateSpec (mountInstance w).state r) ctx :: evsR) := by
    simp only [names_append, names_cons_render, hnI, hnC, hnR, List.mem_append, List.mem_cons,
      List.not_mem_nil, or_false, not_or]
    exact ⟨⟨not_mem_optional (by decide), not_mem_optional (by decide)⟩, by decide⟩
  refine ⟨?_, ?_, rfl, rfl, rfl, rfl, initialStateSpec_truthy _ _, ?_, rfl, contextOrEmpty_object, ?_, ?_,
    ?_⟩
  · intro rd hrd
    refine ⟨?_, by simp [World.afterMount, hrd], ?_⟩
    · refine ⟨(mountCreation w).tail ++ (evsI ++ evsC ++
          .render w.element.props (initialStateSpec (mountInstance w).state r) ctx :: evsR), ?_, ?_⟩
      · simp [World.afterMount, mountCreation, hrd]
      · rw [names_append]
        simp only [List.mem_append, not_or]
        refine ⟨?_, hnames⟩
        simp only [mountCreation, hrd, Option.isSome_some, if_true, List.tail_cons]
        split <;> simp
    · intro st hc
      obtain ⟨h1, h2, -⟩ := mountOwner_of_render hrd hc
      simp [World.afterMount, h1, h2, constructed, hrd]
  · intro hrd
    obtain ⟨h1, h2, h3⟩ := mountOwner_of_function hrd
    exact ⟨⟨evsI ++ evsC ++
        .render w.element.props (initialStateSpec (mountInstance w).state r) ctx :: evsR,
        by simp [World.afterMount, h3], hnames⟩, by simp [World.afterMount, hrd],
      by simp [World.afterMount, h1], by simp [World.afterMount, h2]⟩
  · rcases hvC with ⟨-, ht, -⟩ | ⟨-, rfl, -⟩
    · exact ht
    · exact contextOrEmpty_truthy _
  · intro hf
    simp [World.afterMount, contextOrEmpty, hf]
  · intro hnone
    rcases hvC with ⟨-, -, hk, ho, -⟩ | ⟨-, rfl, -⟩
    · simp [World.afterMount, ho] at hnone
    · rfl
  · intro hk ho
    have ho1 : mountOwner w LifecycleChildContext = some hk := ho
    have hthis : (w.afterMount (initialStateSpec (mountInstance w).state r) ctx child sh
        (initialStateRegistrations .ref r)
        (mountCreation w ++ evsI ++ evsC ++
          .render w.element.props (initialStateSpec (mountInstance w).state r) ctx :: evsR)).inst.this
        = mountThis w (initialStateSpec (mountInstance w).state r) := rfl
    rw [hthis]
    refine ⟨fun v hv ht => ?_, fun hf => ?_⟩
    · rcases hvC with ⟨-, -, hk1, ho2, hr⟩ | ⟨-, -, hf⟩
      · rw [ho1] at ho2
        cases ho2
        rw [hv] at hr
        exact (Outcome.ret.inj hr).symm
      · rw [hf hk v ho1 hv] at ht
        cases ht
    · rcases hvC with ⟨-, ht, hk1, ho2, hr⟩ | ⟨-, h, -⟩
      · rw [ho1] at ho2
        cases ho2
        rw [hf ctx hr] at ht
        cases ht
      · exact h

theorem mountOwner_of_throw {w : World} {rd : Hook} {e : Value}
    (hrd : w.element.type.render = some rd)
    (hc : w.element.type.construct w.element.props w.element.context = .thr e) :
    mountInstance w = Component ∧ mountOwner w = (fun _ => none) ∧
      mountCreation w = [.construct w.element.props w.element.context,
        .errorBoundary e LifecycleConstructor 1] := by
  simp [mountInstance, mountOwner, mountCreation, hrd, hc, Component]

/-- C14, counterexample: the constructor of the class throws and the dispatcher
returns; the mount completes, and rendering the fallback instance has raised a
TypeError that went to the dispatcher under the phase render, a second error
after the one of the constructor. -/
theorem componentMount_fallback_counterexample :
    (throwingWorld.element.type.render.isSome ∧
      throwingWorld.element.type.construct throwingWorld.element.props throwingWorld.element.context
        = .thr (.string "boom")) ∧
    ((componentMount mountEnv throwingWorld).world.map fun w => w.trace)
      = some [.construct (.object [("p", .number 1)]) (.object [("a", .number 1)]),
          .errorBoundary (.string "boom") LifecycleConstructor 1,
          .render (.object [("p", .number 1)]) (.object []) (.object [("a", .number 1)]),
          .errorBoundary (.string "TypeError") LifecycleRender 1] :=
  ⟨⟨rfl, rfl⟩, rfl⟩

/-- C14, amended: for a class-like type whose constructor throws e, when the
dispatcher returns, the error is routed once to the dispatcher with the phase
constructor and the mount goes on with `new Component()` as instance and owner
(refs {}, state {}, no hook).  That instance has no render: rendering it raises
a TypeError, which is routed to the dispatcher with the phase render, and what
the dispatcher answers becomes the child. -/
theorem componentMount_constructor_throws (env : Env) (w : World) (rd : Hook) (e : Value)
    (hrd : w.element.type.render = some rd)
    (hthrow : w.element.type.construct w.element.props w.element.context = .thr e) :
    (env.Quiet → env.Elements → ∃ child w2, componentMount env w = .ok child w2) ∧
    ∀ child w2, componentMount env w = .ok child w2 →
      w2.trace = w.trace ++
        [.construct w.element.props w.element.context,
          .errorBoundary e LifecycleConstructor 1,
          .render w.element.props (.object []) (contextOrEmpty w.element.context),
          .errorBoundary (.string "TypeError") LifecycleRender 1] ∧
      w2.inst.refs = .object [] ∧ w2.inst.state = .object [] ∧
      (∀ n, w2.element.owner n = none) ∧
      ∃ c0, env.boundary (.string "TypeError") LifecycleRender = some c0 ∧
        child = withContext c0 (contextOrEmpty w.element.context) := by
  refine ⟨fun hq hel => componentMount_returns hq hel w, fun child w2 hrun => ?_⟩
  obtain ⟨r, ctx, sh, evsI, evsC, evsR, c0, rfl, -, hvI, -, hvC, -, hvR, hch, -, -, hxI, hxC, -⟩ :=
    componentMount_ok hrun
  obtain ⟨h1, h2, h3⟩ := mountOwner_of_throw hrd hthrow
  have hr : r = .undefined := by
    rcases hvI with h | ⟨hk, ho, -⟩
    · exact h
    · simp [h2] at ho
  subst hr
  have hctx : ctx = contextOrEmpty w.element.context := by
    rcases hvC with ⟨-, -, hk, ho, -⟩ | ⟨-, h, -⟩
    · simp [h2] at ho
    · exact h
  subst hctx
  have hst : initialStateSpec (mountInstance w).state .undefined = .object [] := by
    rw [h1]
    rfl
  have hI : evsI = [] := hxI (by simp [h2])
  have hC : evsC = [] := hxC (by simp [h2])
  subst hI hC
  rw [hst] at hvR
  rw [h1] at hvR
  rcases hvR with ⟨v, hv, -, -⟩ | ⟨e1, he1, hb, rfl⟩
  · cases hv
  · have he : e1 = .string "TypeError" := by
      simp only [Component] at he1
      exact (Outcome.thr.inj he1).symm
    subst he
    refine ⟨?_, rfl, ?_, ?_, c0, hb, hch⟩
    · simp [World.afterMount, h3, hst]
    · simpa [World.afterMount] using hst
    · intro n
      simp [World.afterMount, h2]

theorem componentMount_constructor_throws_witness :
    throwingWorld.element.type.render = some (fun _ _ => .ret .null) ∧
    throwingWorld.element.type.construct throwingWorld.element.props throwingWorld.element.context
      = .thr (.string "boom") ∧
    (∃ child w2, componentMount mountEnv throwingWorld = .ok child w2) ∧
    ∀ child w2, componentMount mountEnv throwingWorld = .ok child w2 →
      w2.trace = throwingWorld.trace ++
        [.construct throwingWorld.element.props throwingWorld.element.context,
          .errorBoundary (.string "boom") LifecycleConstructor 1,
          .render throwingWorld.element.props (.object []) (contextOrEmpty throwingWorld.element.context),
          .errorBoundary (.string "TypeError") LifecycleRender 1] ∧
      w2.inst.refs = .object [] ∧ w2.inst.state = .object [] ∧
      (∀ n, w2.element.owner n = none) ∧
      ∃ c0, mountEnv.boundary (.string "TypeError") LifecycleRender = some c0 ∧
        child = withContext c0 (contextOrEmpty throwingWorld.element.context) :=
  have h := componentMount_constructor_throws mountEnv throwingWorld (fun _ _ => .ret .null)
    (.string "boom") rfl rfl
  ⟨rfl, rfl, h.1 mountEnv_quiet mountEnv_elements, h.2⟩

/-- C15, counterexample: the element is handed the context `{a: 1}` and the
child-context hook of its owner returns `{b: 2}`; after the mount the context of
the element, and of the child, is `{b: 2}`: the key `a` of the incoming context,
which the hook does not override, is gone. -/
theorem componentMount_context_counterexample :
    (classWorld.element.context = .object [("a", .number 1)] ∧
      (mountOwner classWorld LifecycleChildContext).map (fun hk => hk (mountThis classWorld .null) [])
        = some (.ret (.object [("b", .number 2)]))) ∧
    ((componentMount mountEnv classWorld).world.map fun w =>
        (w.element.context, getField "a" w.element.context.fields,
          getField "context" w.element.children.fields))
      = some (.object [("b", .number 2)], none, some (.object [("b", .number 2)])) :=
  ⟨⟨rfl, rfl⟩, rfl⟩

/-- C15, amended: for an element whose owner defines a child-context hook, after
componentMount element.context is the value the hook returned, as it is, when
that value is truthy: it replaces the incoming context, nothing is merged.  When
the hook returns nothing (a falsy value, or it throws and the dispatcher
returns), element.context is the incoming context, or `{}` when there was none.
The child is handed that same context. -/
theorem componentMount_child_context (env : Env) (w : World) (hk : Hook)
    (hcontext : mountOwner w LifecycleChildContext = some hk) :
    (env.Quiet → env.Elements → ∃ child w2, componentMount env w = .ok child w2) ∧
    ∀ child w2, componentMount env w = .ok child w2 →
      w2.element.owner LifecycleChildContext = some hk ∧
      (∀ v, hk w2.inst.this [] = .ret v → v.truthy = true → w2.element.context = v) ∧
      ((∀ v, hk w2.inst.this [] = .ret v → v.truthy = false) →
        w2.element.context = contextOrEmpty w.element.context) ∧
      ∀ fs, child = .object fs → getField "context" fs = some w2.element.context := by
  refine ⟨fun hq hel => componentMount_returns hq hel w, fun child w2 hrun => ?_⟩
  obtain ⟨r, ctx, sh, evsI, evsC, evsR, c0, rfl, -, -, -, hvC, -, -, hch, -, -, -, -⟩ :=
    componentMount_ok hrun
  have hthis : (w.afterMount (initialStateSpec (mountInstance w).state r) ctx child sh
      (initialStateRegistrations .ref r)
      (mountCreation w ++ evsI ++ evsC ++
        .render w.element.props (initialStateSpec (mountInstance w).state r) ctx :: evsR)).inst.this
      = mountThis w (initialStateSpec (mountInstance w).state r) := rfl
  rw [hthis]
  refine ⟨hcontext, ?_, ?_, ?_⟩
  · intro v hv ht
    rcases hvC with ⟨-, -, hk1, ho, hr⟩ | ⟨-, -, hf⟩
    · rw [hcontext] at ho
      cases ho
      rw [hv] at hr
      exact (Outcome.ret.inj hr).symm
    · rw [hf hk v hcontext hv] at ht
      cases ht
  · intro hf
    rcases hvC with ⟨-, ht, hk1, ho, hr⟩ | ⟨-, h, -⟩
    · rw [hcontext] at ho
      cases ho
      rw [hf ctx hr] at ht
      cases ht
    · exact h
  · intro fs hfs
    rw [hch] at hfs
    cases c0 <;> simp [withContext] at hfs
    rw [← hfs, getField_setField]
    simp [World.afterMount]

theorem componentMount_child_context_witness :
    mountOwner classWorld LifecycleChildContext = some (fun _ _ => .ret (.object [("b", .number 2)])) ∧
    (∃ child w2, componentMount mountEnv classWorld = .ok child w2) ∧
    ∀ child w2, componentMount mountEnv classWorld = .ok child w2 →
      w2.element.owner LifecycleChildContext = some (fun _ _ => .ret (.object [("b", .number 2)])) ∧
      (∀ v, (fun _ _ => Outcome.ret (.object [("b", .number 2)]) : Hook) w2.inst.this [] = .ret v →
        v.truthy = true → w2.element.context = v) ∧
      ((∀ v, (fun _ _ => Outcome.ret (.object [("b", .number 2)]) : Hook) w2.inst.this [] = .ret v →
          v.truthy = false) →
        w2.element.context = contextOrEmpty classWorld.element.context) ∧
      ∀ fs, child = .object fs → getField "context" fs = some w2.element.context :=
  have h := componentMount_child_context mountEnv classWorld
    (fun _ _ => .ret (.object [("b", .number 2)])) rfl
  ⟨rfl, h.1 mountEnv_quiet mountEnv_elements, h.2⟩

/-- C16: getInitialState returns what the reference definition gives: the result
`r` itself when it is truthy and neither a Promise nor a boolean, else
instance.state when that is truthy and a fresh empty mapping when it is not; it
registers `r` with enqueuePending once when `r` is a Promise and never
otherwise; and what it returns is never falsy. -/
theorem getInitialState_spec (element : ElementRef) (r : Value) (w : World) :
    getInitialState element r w =
      .ok (initialStateSpec w.inst.state r)
        { w with reactions := w.reactions ++ initialStateRegistrations element r } ∧
    (initialStateRegistrations element r).length = (if r.isPromise then 1 else 0) ∧
    (∀ p, r = .promise p →
      initialStateRegistrations element r = [{ promise := p, element := element, callback := .undefined }]) ∧
    (initialStateSpec w.inst.state r).truthy = true := by
  refine ⟨getInitialState_run element r w, ?_, ?_, initialStateSpec_truthy _ _⟩
  · cases r <;> rfl
  · rintro p rfl
    rfl

/-- C17, counterexample: the initial-state hook of the class returns the number
5, and after componentMount the state of the instance is the number 5, not a
mapping; an update pass that is not state-triggered keeps it. -/
theorem componentMount_state_counterexample :
    ((mountOwner numberWorld LifecycleInitialState).map
        (fun hk => hk (mountThis numberWorld (.object [("n", .number 0)])) [])
      = some (.ret (.number 5))) ∧
    ((componentMount mountEnv numberWorld).world.map fun w => (w.inst.state, w.inst.state.isObject))
      = some (.number 5, false) ∧
    ((componentMount mountEnv numberWorld).world.bind fun w =>
        (componentUpdate exampleWork mountEnv w.element.snapshot 1 w).world.map fun w2 => w2.inst.state)
      = some (.number 5) :=
  ⟨rfl, rfl, rfl⟩

/-- C17, amended: after componentMount returns, instance.state is never falsy.
A truthy value that the initial-state hook returns and that is neither a
Promise nor a boolean is the state as it is, a number or a string for one; in
every other case (no hook, a hook that returns nothing, a boolean or a Promise,
or that throws) the state is the one the constructor assigned when that is
truthy, kept as it is, and `{}` when it is not.  So the state is a mapping when
the constructor state is a mapping or falsy and the hook, if there is one,
returns a mapping, a falsy value, a boolean or a Promise.  A componentUpdate
with a signature above 1 commits a mapping when it is not aborted, and every
componentUpdate leaves a state that is a mapping a mapping. -/
theorem componentMount_state (env : Env) (w : World) :
    ((env.Quiet → env.Elements → ∃ child w2, componentMount env w = .ok child w2) ∧
      ∀ child w2, componentMount env w = .ok child w2 →
        w2.inst.state.truthy = true ∧
        (∀ hk r, mountOwner w LifecycleInitialState = some hk →
          hk (mountThis w (mountInstance w).state) [] = .ret r →
          r.truthy = true → r.isPromise = false → r.isBoolean = false → w2.inst.state = r) ∧
        ((∀ hk r, mountOwner w LifecycleInitialState = some hk →
            hk (mountThis w (mountInstance w).state) [] = .ret r →
            r.truthy = false ∨ r.isPromise = true ∨ r.isBoolean = true) →
          w2.inst.state =
            if (mountInstance w).state.truthy then (mountInstance w).state else .object []) ∧
        (((mountInstance w).state.truthy = true → (mountInstance w).state.isObject = true) →
          (∀ hk r, mountOwner w LifecycleInitialState = some hk →
            hk (mountThis w (mountInstance w).state) [] = .ret r →
            r.truthy = true → r.isPromise = true ∨ r.isBoolean = true ∨ r.isObject = true) →
          w2.inst.state.isObject = true)) ∧
    ∀ (W : Work) (snapshot : Snapshot) (signature : Nat) (w1 w2 : World),
      componentUpdate W env snapshot signature w1 = .ok () w2 →
        (w1.inst.state.isObject = true → w2.inst.state.isObject = true) ∧
        (w2.inst.state = w1.inst.state ∨ w2.inst.state.isObject = true) := by
  refine ⟨⟨fun hq hel => componentMount_returns hq hel w, fun child w2 hrun => ?_⟩, ?_⟩
  · obtain ⟨r, ctx, sh, evsI, evsC, evsR, c0, rfl, -, hvI, -, -, -, -, -, -, -, -, -, hyI⟩ :=
      componentMount_ok hrun
    have hst : (w.afterMount (initialStateSpec (mountInstance w).state r) ctx child sh
        (initialStateRegistrations .ref r)
        (mountCreation w ++ evsI ++ evsC ++
          .render w.element.props (initialStateSpec (mountInstance w).state r) ctx :: evsR)).inst.state
        = initialStateSpec (mountInstance w).state r := rfl
    rw [hst]
    have hfall : (¬ (r.truthy = true ∧ ¬ r.isPromise = true ∧ ¬ r.isBoolean = true)) →
        initialStateSpec (mountInstance w).state r =
          if (mountInstance w).state.truthy then (mountInstance w).state else .object [] := by
      intro hc
      simp only [initialStateSpec, if_neg hc]
    refine ⟨initialStateSpec_truthy _ _, ?_, ?_, ?_⟩
    · intro hk r1 ho hr1 ht hp hb
      have hr : r = r1 := by
        rcases hyI hk ho with h | ⟨e, h⟩
        · rw [hr1] at h
          exact (Outcome.ret.inj h).symm
        · rw [hr1] at h
          cases h
      subst hr
      simp [initialStateSpec, ht, hp, hb]
    · intro hno
      apply hfall
      rintro ⟨ht, hp, hb⟩
      rcases hvI with rfl | ⟨hk, ho, hk1⟩
      · simp [Value.truthy] at ht
      · rcases hno hk r ho hk1 with h | h | h
        · rw [h] at ht
          cases ht
        · exact hp h
        · exact hb h
    · intro hconstructor hhook
      have hobj : (if (mountInstance w).state.truthy = true then (mountInstance w).state
          else Value.object []).isObject = true := by
        split
        · rename_i ht
          exact hconstructor ht
        · rfl
      by_cases hc : r.truthy = true ∧ ¬ r.isPromise = true ∧ ¬ r.isBoolean = true
      · simp only [initialStateSpec, if_pos hc]
        rcases hvI with rfl | ⟨hk, ho, hk1⟩
        · simp [Value.truthy] at hc
        · rcases hhook hk r ho hk1 hc.1 with h | h | h
          · exact absurd h hc.2.1
          · exact absurd h hc.2.2
          · exact h
      · rw [hfall hc]
        exact hobj
  · intro W snapshot signature w1 w2 hrun
    by_cases hg : w1.element.work < W.WorkSync
    · simp only [componentUpdate, run_bind, run_logEvent, run_getWorld, hg, if_true, run_pure,
        Result.ok.injEq, true_and] at hrun
      subst hrun
      exact ⟨fun h => h, Or.inl rfl⟩
    obtain ⟨evs, c1, c2, h | h⟩ := componentUpdate_ok hg hrun
    · obtain ⟨rfl, -⟩ := h
      exact ⟨fun h => h, Or.inl rfl⟩
    · obtain ⟨rfl, -⟩ := h
      by_cases hs : signature > 1
      · have : (w1.afterUpdate W.WorkSync c1 c2 (nextState signature w1) snapshot.props
            (.componentUpdate signature :: evs)).inst.state.isObject = true := by
          simp [World.afterUpdate, nextState, hs, assign, Value.isObject]
        exact ⟨fun _ => this, Or.inr this⟩
      · have : (w1.afterUpdate W.WorkSync c1 c2 (nextState signature w1) snapshot.props
            (.componentUpdate signature :: evs)).inst.state = w1.inst.state := by
          simp [World.afterUpdate, nextState, hs]
        rw [this]
        exact ⟨fun h => h, Or.inl rfl⟩

/-- C17, witness of the amended claim: the class whose initial-state hook
returns the number 5, which is kept as the state, and the class whose hook
returns a mapping. -/
theorem componentMount_state_witness :
    (∃ child w2, componentMount mountEnv numberWorld = .ok child w2) ∧
    (∀ child w2, componentMount mountEnv numberWorld = .ok child w2 →
      w2.inst.state.truthy = true ∧ w2.inst.state = .number 5) ∧
    (∀ child w2, componentMount mountEnv classWorld = .ok child w2 →
      w2.inst.state.truthy = true ∧ w2.inst.state.isObject = true) :=
  have h := (componentMount_state mountEnv numberWorld).1
  have h2 := (componentMount_state mountEnv classWorld).1
  ⟨h.1 mountEnv_quiet mountEnv_elements,
    fun child w2 hrun =>
      ⟨(h.2 child w2 hrun).1,
        (h.2 child w2 hrun).2.1 (fun _ _ => .ret (.number 5)) (.number 5) rfl rfl rfl rfl rfl⟩,
    fun child w2 hrun =>
      ⟨(h2.2 child w2 hrun).1,
        (h2.2 child w2 hrun).2.2.2 (fun _ => rfl) (by
          intro hk r ho hr _
          have h1 : mountOwner classWorld LifecycleInitialState
              = some (fun _ _ => .ret (.object [("a", .number 1)])) := rfl
          rw [h1] at ho
          rw [← Option.some.inj ho] at hr
          rw [← Outcome.ret.inj hr]
          exact Or.inr (Or.inr rfl))⟩⟩

/-! ## Properties of the update pass, of refs and of the unmount -/

/-- A hook call that returns has recorded itself first, with its arguments, and
after that at most the dispatcher. -/
theorem callHook_handled_trace {env : Env} {name : String} {args : List Value} {w w1 : World} {v : Value}
    (h : (tryCatch (callHook name args) fun e => do
        let _ ← errorBoundary env e name 1
        pure .undefined) w = .ok v w1) :
    ∃ errs, w1 = w.logged (.lifecycle name args :: errs) ∧ names errs = [] := by
  simp only [tryCatch, callHook, run_bind, run_logEvent, run_getWorld] at h
  cases ho : w.element.owner name with
  | none =>
    simp [ho, errorBoundary_run] at h
    cases hb : env.boundary (.string "TypeError") name <;> simp [hb] at h
    obtain ⟨-, rfl⟩ := h
    exact ⟨[.errorBoundary (.string "TypeError") name 1], by simp [World.logged], by simp⟩
  | some hk =>
    simp only [ho] at h
    cases hr : hk w.inst.this args with
    | ret v0 =>
      simp [hr] at h
      obtain ⟨-, rfl⟩ := h
      exact ⟨[], rfl, rfl⟩
    | thr e =>
      simp [hr, errorBoundary_run] at h
      cases hb : env.boundary e name <;> simp [hb] at h
      obtain ⟨-, rfl⟩ := h
      exact ⟨[.errorBoundary e name 1], by simp [World.logged], by simp⟩

/-- A stage of componentUpdate that calls a hook the owner has. -/
theorem hookStage_trace {env : Env} {w w1 : World} {c : Prop} [Decidable c] {name : String}
    {g : Value → List Value} {v : Value} (h0 : c)
    (h : (if c then (do
          let nextContext := (← getWorld).inst.context
          lifecycleUpdate env name (g nextContext))
        else pure .undefined) w = .ok v w1) :
    ∃ errs, w1 = w.logged (.lifecycle name (g w.inst.context) :: errs) ∧ names errs = [] := by
  rw [if_pos h0, bind_eq_ok] at h
  obtain ⟨_, _, h1, h2⟩ := h
  cases h1
  exact callHook_handled_trace h2

/-- A pass of componentUpdate that returns was aborted by should-update, or it
has rendered on the committed state and props, reconciled, and then called
did-update, when the owner has it, with the props of the element and the state
of the instance as they were on entry. -/
theorem componentUpdate_trace {W : Work} {env : Env} {snapshot : Snapshot} {signature : Nat} {w w2 : World}
    (hg : ¬ w.element.work < W.WorkSync)
    (h : componentUpdate W env snapshot signature w = .ok () w2) :
    ((signature = 1 ∨ signature = 2) ∧
      ∃ hk, w.element.owner LifecycleShouldUpdate = some hk ∧
        shouldUpdateCall snapshot signature w w2.inst.context hk = .ret (.bool false)) ∨
    ∃ pre errs next du post c1 c2,
      w2 = w.afterUpdate W.WorkSync c1 c2 (nextState signature w) snapshot.props
        (.componentUpdate signature :: pre ++
          .render snapshot.props (nextState signature w) c1 :: errs ++
          .reconcileElement w.element.children next :: du ++ post) ∧
      names pre = callsBefore signature w ++
        optional ((w.element.owner LifecycleWillUpdate).isSome) LifecycleWillUpdate ∧
      names errs = [] ∧
      ((w.element.owner LifecycleDidUpdate).isSome →
        ∃ errs2, du = .lifecycle LifecycleDidUpdate [w.element.props, w.inst.state, c2] :: errs2 ∧
          names errs2 = []) ∧
      (¬ (w.element.owner LifecycleDidUpdate).isSome → du = []) ∧
      names post = optional (w.element.ref ≠ snapshot.ref) "commitRef" := by
  simp only [componentUpdate, bind_eq_ok, run_logEvent, run_getWorld, run_ite, run_pure] at h
  obtain ⟨_, _, ⟨-, rfl⟩, _, _, ⟨rfl, rfl⟩, h⟩ := h
  simp only [hg, if_false, bind_eq_ok, run_setWork] at h
  obtain ⟨_, _, h0, _, w1, h1, _, wa, h2, r, wb, h3, h⟩ := h
  cases h0
  obtain ⟨evs1, c1, c2, rfl, hn1⟩ := childContextStage_ok (by simp) h1
  obtain ⟨evs2, rfl, hn2, -, -⟩ := hookStage_ok (g := fun c => [snapshot.props, c]) h2
  obtain ⟨evs3, rfl, hn3, hv3, hx3⟩ := hookStage_ok
    (g := fun c => [snapshot.props,
      if signature > 1 then assign (.object []) w.inst.state w.element.state else w.inst.state, c]) h3
  split at h
  · refine Or.inl ?_
    simp only [run_setWork, Result.ok.injEq, true_and] at h
    subst h
    rcases hv3 with hv3 | ⟨hc, hk, ho, hk3⟩
    · cases hv3
    · exact ⟨hc.1, hk, by simpa [World.afterUpdate, World.logged] using ho,
        by simpa [shouldUpdateCall, nextState, Instance.this, World.afterUpdate, World.logged] using hk3⟩
  · refine Or.inr ?_
    have h' := h
    clear h
    simp only [bind_eq_ok, run_modifyWorld, run_getWorld, run_setWork] at h'
    obtain ⟨_, w4, h4, _, _, h5, _, _, h6, nx, w7, h7, _, w8, h8, _, w9, h9, _, _, h10, _, wc, h11, h12⟩ := h'
    cases h5; cases h6; cases h10
    obtain ⟨evs4, rfl, hn4, -, -⟩ := hookStage_ok
      (g := fun c => [snapshot.props,
        if signature > 1 then assign (.object []) w.inst.state w.element.state else w.inst.state, c]) h4
    obtain ⟨errs, rfl, hne, -⟩ := getChildElement_value h7
    have h8' := reconcileElement_ok h8
    subst h8'
    obtain ⟨evs9, hw9, hn9, -, -⟩ := hookStage_ok
      (g := fun c => [w.element.props, w.inst.state, c]) h9
    have hdu : ((w.element.owner LifecycleDidUpdate).isSome →
        ∃ errs2, evs9 = .lifecycle LifecycleDidUpdate [w.element.props, w.inst.state, c2] :: errs2 ∧
          names errs2 = []) ∧
        (¬ (w.element.owner LifecycleDidUpdate).isSome → evs9 = []) := by
      constructor
      · intro hd
        obtain ⟨errs2, hw9', hn2'⟩ := hookStage_trace (g := fun c => [w.element.props, w.inst.state, c]) hd h9
        refine ⟨errs2, ?_, hn2'⟩
        rw [hw9] at hw9'
        have := congrArg World.trace hw9'
        simpa [World.logged, World.afterUpdate] using this
      · intro hd
        rw [if_neg hd] at h9
        simp only [run_pure, Result.ok.injEq] at h9
        rw [hw9] at h9
        have := congrArg World.trace h9.2
        simpa [World.logged] using this
    subst hw9
    obtain ⟨evsc, rfl, hnc⟩ := refStage_ok h11
    refine ⟨evs1 ++ evs2 ++ evs3 ++ evs4, errs, nx, evs9, evsc, c1, c2, ?_, ?_, hne, hdu.1, hdu.2, ?_⟩
    · cases h12
      simp [World.afterUpdate, World.logged, nextState]
    · simp [callsBefore, hn1, hn2, hn3, hn4]
    · simpa [World.afterUpdate, World.logged] using hnc

/-- C11: in a pass that is not aborted and whose owner defines did-update, the
hook is called exactly once, after render has run on the committed state and
props and after the reconcile, with the arguments (prevProps, prevState,
context): the props of the element and the state of the instance as they were
on entry to the pass, not the committed ones, and the context of the instance.
A pass is not aborted when the call of should-update it makes, if it makes one,
does not return false. -/
theorem componentUpdate_did_update (W : Work) (env : Env) (snapshot : Snapshot) (signature : Nat)
    (w : World) (hk : Hook)
    (hguard : ¬ w.element.work < W.WorkSync)
    (hdid : w.element.owner LifecycleDidUpdate = some hk) :
    (env.Quiet → ∃ w2, componentUpdate W env snapshot signature w = .ok () w2) ∧
    ∀ w2, componentUpdate W env snapshot signature w = .ok () w2 →
      (signature = 1 ∨ signature = 2 → ∀ hk, w.element.owner LifecycleShouldUpdate = some hk →
        shouldUpdateCall snapshot signature w w2.inst.context hk ≠ .ret (.bool false)) →
      w2.inst.state = nextState signature w ∧ w2.inst.props = snapshot.props ∧
      ∃ pre errs next post,
        w2.trace = w.trace ++ pre ++
          .render snapshot.props (nextState signature w) w2.element.context :: errs ++
          [.reconcileElement w.element.children next,
            .lifecycle LifecycleDidUpdate [w.element.props, w.inst.state, w2.inst.context]] ++ post ∧
        LifecycleDidUpdate ∉ names pre ∧ names errs = [] ∧ LifecycleDidUpdate ∉ names post := by
  refine ⟨fun hq => ?_, fun w2 hrun hno => ?_⟩
  · obtain ⟨_, w2, h⟩ := returns_componentUpdate hq W snapshot signature w
    exact ⟨w2, h⟩
  · rcases componentUpdate_trace hguard hrun with ⟨hs, hk1, ho, hf⟩ | h
    · exact absurd hf (hno hs hk1 ho)
    · obtain ⟨pre, errs, next, du, post, c1, c2, rfl, hpre, herrs, hdu, -, hpost⟩ := h
      obtain ⟨errs2, rfl, herrs2⟩ := hdu (by simp [hdid])
      refine ⟨rfl, rfl, .componentUpdate signature :: pre, errs, next, errs2 ++ post, ?_, ?_, herrs, ?_⟩
      · simp [World.afterUpdate]
      · rw [names_cons_componentUpdate, hpre]
        simp only [callsBefore, List.mem_cons, List.mem_append, not_or]
        exact ⟨by decide, ⟨⟨not_mem_optional (by decide), not_mem_optional (by decide)⟩,
          not_mem_optional (by decide)⟩, not_mem_optional (by decide)⟩
      · rw [names_append, herrs2, hpost]
        simpa using not_mem_optional (by decide)

/-- C11, witness: the example element whose should-update depends on the next
state, with `{a: 2}` queued over the state `{a: 0}`, under signature 2. -/
theorem componentUpdate_did_update_witness :
    ¬ passingWorld.element.work < exampleWork.WorkSync ∧
    passingWorld.element.owner LifecycleDidUpdate = some (fun _ _ => .ret .undefined) ∧
    passingWorld.element.owner LifecycleShouldUpdate = some selectiveHook ∧
    (∃ t a, selectiveHook t a = .ret (.bool false)) ∧
    (∃ w2, componentUpdate exampleWork exampleEnv passingWorld.element.snapshot 2 passingWorld
      = .ok () w2) ∧
    ∀ w2, componentUpdate exampleWork exampleEnv passingWorld.element.snapshot 2 passingWorld = .ok () w2 →
      w2.inst.state = nextState 2 passingWorld ∧ w2.inst.props = passingWorld.element.snapshot.props ∧
      ∃ pre errs next post,
        w2.trace = passingWorld.trace ++ pre ++
          .render passingWorld.element.snapshot.props (nextState 2 passingWorld) w2.element.context ::
            errs ++
          [.reconcileElement passingWorld.element.children next,
            .lifecycle LifecycleDidUpdate
              [passingWorld.element.props, passingWorld.inst.state, w2.inst.context]] ++
          post ∧
        LifecycleDidUpdate ∉ names pre ∧ names errs = [] ∧ LifecycleDidUpdate ∉ names post :=
  have h := componentUpdate_did_update exampleWork exampleEnv passingWorld.element.snapshot 2 passingWorld
    (fun _ _ => .ret .undefined) (by decide) rfl
  ⟨by decide, rfl, rfl,
    ⟨⟨.null, .null, .null, .null⟩, [.null, .object [("a", .number 1)], .null], rfl⟩,
    h.1 exampleEnv_quiet,
    fun w2 hrun => h.2 w2 hrun (by
      intro _ hk ho
      have h1 : passingWorld.element.owner LifecycleShouldUpdate = some selectiveHook := rfl
      rw [h1] at ho
      rw [← Option.some.inj ho]
      simp [shouldUpdateCall, selectiveHook, nextState, passingWorld, selectiveWorld, idleWorld,
        Value.fields, assign, assignFields, setField, getField])⟩

theorem getField_deleteField (k k1 : String) (fs : Fields) :
    getField k (deleteField k1 fs) = if k = k1 then none else getField k fs := by
  induction fs with
  | nil => simp [deleteField, getField]
  | cons kv rest ih =>
    obtain ⟨k2, v2⟩ := kv
    by_cases h2 : k2 = k1
    · subst h2
      by_cases hk : k = k2
      · subst hk
        simpa [deleteField] using ih
      · have hk2 : ¬ k2 = k := fun h => hk h.symm
        simp [deleteField, getField, ih, hk, hk2]
    · by_cases hk : k2 = k
      · subst hk
        simp [deleteField, getField, h2]
      · simp [deleteField, getField, h2, hk, ih]

/-- C18: componentRef never reads the value it is given.  On an owner that
tracks refs it stores `element.instance` under the key, so the result is the
same whatever the value is: on the unmount call, where the value is null and
`element.instance` is still the instance, the entry stays the instance and is
not null. -/
theorem componentRef_ignores_value (this : This) (value : Value) (key : String) (ref : Ref) (inst : Value) :
    componentRef this value key ref inst = componentRef this .null key ref inst ∧
    (∀ fs, this.refs = .object fs →
      ∃ m, componentRef this value key ref inst = .object m ∧ getField key m = some inst) ∧
    (componentRef refsThis .null "x" (.key "x") (.object [("component", .string "A")])).fields
      = [("x", .object [("component", .string "A")])] := by
  refine ⟨rfl, ?_, rfl⟩
  intro fs hfs
  simp only [componentRef, hfs, Value.truthy, if_true]
  exact ⟨_, rfl, by rw [getField_setField]; simp⟩

/-- C19: on an owner that tracks refs, when the key differs from the key the
element had recorded, after componentRef the refs have no entry under the old
key and have the entry of the new key, and every other entry is as before; on
an owner whose refs are null or absent componentRef changes nothing. -/
theorem componentRef_key_change (this : This) (value : Value) (key old : String) (inst : Value)
    (fs : Fields) (hrefs : this.refs = .object fs) (hne : key ≠ old) :
    (∃ m, componentRef this value key (.key old) inst = .object m ∧
      getField old m = none ∧ getField key m = some inst ∧
      ∀ k, k ≠ old → k ≠ key → getField k m = getField k fs) ∧
    ∀ that : This, that.refs.truthy = false →
      componentRef that value key (.key old) inst = that.refs := by
  constructor
  · have hk : Ref.key key ≠ Ref.key old := fun h => hne (Ref.key.inj h)
    refine ⟨setField key inst (deleteField old fs), ?_, ?_, ?_, ?_⟩
    · simp [componentRef, hrefs, Value.truthy, hk, Ref.property]
    · rw [getField_setField, if_neg hne, getField_deleteField, if_pos rfl]
    · rw [getField_setField, if_pos rfl]
    · intro k h1 h2
      rw [getField_setField, if_neg (fun h => h2 h.symm), getField_deleteField, if_neg h1]
  · intro that hf
    simp [componentRef, hf]

theorem componentRef_key_change_witness :
    refsThis.refs = .object [("x", .object [("component", .string "A")])] ∧ "y" ≠ "x" ∧
    (∃ m, componentRef refsThis .null "y" (.key "x") (.number 7) = .object m ∧
      getField "x" m = none ∧ getField "y" m = some (.number 7) ∧
      ∀ k, k ≠ "x" → k ≠ "y" →
        getField k m = getField k [("x", .object [("component", .string "A")])]) ∧
    ∀ that : This, that.refs.truthy = false →
      componentRef that .null "y" (.key "x") (.number 7) = that.refs :=
  have h := componentRef_key_change refsThis .null "y" "x" (.number 7)
    [("x", .object [("component", .string "A")])] rfl (by decide)
  ⟨rfl, by decide, h.1, h.2⟩

theorem commitUnmount_run {env : Env} {children parent v : Value} {signature : Nat}
    (h : env.commitUnmount children parent signature = .ret v) (w : World) :
    commitUnmount env children parent signature w =
      .ok () (w.logged [.commitUnmount children parent signature]) := by
  simp [commitUnmount, run_bind, h, World.logged]

theorem commitUnmount_ok {env : Env} {w w1 : World} {children parent : Value} {signature : Nat}
    (h : commitUnmount env children parent signature w = .ok () w1) :
    w1 = w.logged [.commitUnmount children parent signature] := by
  simp only [commitUnmount, run_bind, run_logEvent] at h
  cases hr : env.commitUnmount children parent signature <;> simp [hr] at h
  exact h.symm

/-- C20: componentUnmount removes the host once, and not before a pending
will-unmount result has settled.  When resolve > 0 and the will-unmount hook of
the owner returns a Promise, the call returns true, its only call is the hook,
the promise is kept in element.state and one fulfilment handler is attached to
it; that handler calls commitUnmount(children, parent, signature) once and then
clears element.state.  In every other case (resolve <= 0, no hook, or a result
that is no Promise) a call that returns has called commitUnmount(children,
parent, signature) once, as its last call, and returns undefined; it returns
when every error is handled and the commit layer does not throw. -/
theorem componentUnmount_deferral (env : Env) (children parent : Value) (signature : Nat)
    (resolve : Int) (w : World) :
    (∀ hk p, resolve > 0 → w.element.owner LifecycleWillUnmount = some hk →
      hk w.inst.this [] = .ret (.promise p) →
      componentUnmount env children parent signature resolve w =
        .ok (.bool true)
          { w with
            element := { w.element with state := .promise p }
            removals := w.removals ++
              [{ promise := p, children := children, parent := parent, signature := signature }]
            trace := w.trace ++ [.lifecycle LifecycleWillUnmount []] } ∧
      ∀ w1 v, env.commitUnmount children parent signature = .ret v →
        Removal.onFulfilled env
            { promise := p, children := children, parent := parent, signature := signature } w1 =
          .ok ()
            { w1 with
              element := { w1.element with state := .undefined }
              trace := w1.trace ++ [.commitUnmount children parent signature] }) ∧
    ((resolve ≤ 0 ∨ w.element.owner LifecycleWillUnmount = none ∨
        ∃ hk, w.element.owner LifecycleWillUnmount = some hk ∧
          ∀ p, hk w.inst.this [] ≠ .ret (.promise p)) →
      (env.Quiet → (∃ v, env.commitUnmount children parent signature = .ret v) →
        ∃ r w2, componentUnmount env children parent signature resolve w = .ok r w2) ∧
      ∀ r w2, componentUnmount env children parent signature resolve w = .ok r w2 →
        r = .undefined ∧ w2.removals = w.removals ∧
        ∃ evs, w2.trace = w.trace ++ evs ++ [.commitUnmount children parent signature] ∧
          "commitUnmount" ∉ names evs) := by
  constructor
  · intro hk p hres ho hr
    constructor
    · simp [componentUnmount, run_bind, hres, ho, lifecycleMount, tryCatch, callHook, hr]
    · intro w1 v hv
      simp [Removal.onFulfilled, run_bind, commitUnmount_run hv, World.logged]
  · intro hother
    constructor
    · intro hq ⟨v, hv⟩
      by_cases hc : resolve > 0 ∧ (w.element.owner LifecycleWillUnmount).isSome = true
      · obtain ⟨r, w1, h1⟩ := callHook_handled_total hq LifecycleWillUnmount [] w
        cases r with
        | promise p =>
          exfalso
          obtain ⟨evs, -, -, hv1, -⟩ := callHook_handled h1
          rcases hother with h | h | ⟨hk, ho, hne⟩
          · omega
          · simp [h] at hc
          · rcases hv1 with hv1 | ⟨hk1, ho1, hr1⟩
            · cases hv1
            · rw [ho] at ho1
              cases ho1
              exact hne p hr1
        | _ =>
          simp only [componentUnmount, run_bind, run_getWorld, hc, and_self, if_true, lifecycleMount, h1,
            run_modifyWorld, run_pure, Bool.false_eq_true, if_false, commitUnmount_run hv]
          exact ⟨_, _, rfl⟩
      · simp only [componentUnmount, run_bind, run_getWorld, hc, if_false, run_pure, Bool.false_eq_true,
          commitUnmount_run hv]
        exact ⟨_, _, rfl⟩
    · intro r w2 hrun
      by_cases hc : resolve > 0 ∧ (w.element.owner LifecycleWillUnmount).isSome = true
      · simp only [componentUnmount, bind_eq_ok, run_getWorld, Result.ok.injEq] at hrun
        obtain ⟨_, _, ⟨rfl, rfl⟩, d, w3, hd, h5⟩ := hrun
        rw [if_pos hc] at hd
        simp only [bind_eq_ok, run_modifyWorld, Result.ok.injEq] at hd
        obtain ⟨v, w1, h1, _, w4, ⟨-, rfl⟩, h4⟩ := hd
        obtain ⟨evs, rfl, hn, hv1, -⟩ := callHook_handled h1
        cases v with
        | promise p =>
          exfalso
          rcases hother with h | h | ⟨hk, ho, hne⟩
          · omega
          · simp [h] at hc
          · rcases hv1 with hv1 | ⟨hk1, ho1, hr1⟩
            · cases hv1
            · rw [ho] at ho1
              cases ho1
              exact hne p hr1
        | _ =>
          simp only [run_pure, Result.ok.injEq] at h4
          obtain ⟨rfl, rfl⟩ := h4
          simp only [Bool.false_eq_true, if_false, bind_eq_ok, run_pure, Result.ok.injEq] at h5
          obtain ⟨_, w5, h6, rfl, rfl⟩ := h5
          have := commitUnmount_ok h6
          subst this
          exact ⟨rfl, rfl, evs, by simp [World.logged], by rw [hn]; decide⟩
      · simp only [componentUnmount, bind_eq_ok, run_getWorld, Result.ok.injEq] at hrun
        obtain ⟨_, _, ⟨rfl, rfl⟩, d, w3, hd, h5⟩ := hrun
        rw [if_neg hc] at hd
        simp only [run_pure, Result.ok.injEq] at hd
        obtain ⟨rfl, rfl⟩ := hd
        simp only [Bool.false_eq_true, if_false, bind_eq_ok, run_pure, Result.ok.injEq] at h5
        obtain ⟨_, w5, h6, rfl, rfl⟩ := h5
        have := commitUnmount_ok h6
        subst this
        exact ⟨rfl, rfl, [], by simp [World.logged], by simp⟩

theorem componentUnmount_deferral_witness :
    (componentUnmount exampleEnv .null .null 1 1 pendingWorld =
        .ok (.bool true)
          { pendingWorld with
            element := { pendingWorld.element with state := .promise 3 }
            removals := pendingWorld.removals ++
              [{ promise := 3, children := .null, parent := .null, signature := 1 }]
            trace := pendingWorld.trace ++ [.lifecycle LifecycleWillUnmount []] } ∧
      ∀ w1 v, exampleEnv.commitUnmount .null .null 1 = .ret v →
        Removal.onFulfilled exampleEnv
            { promise := 3, children := .null, parent := .null, signature := 1 } w1 =
          .ok ()
            { w1 with
              element := { w1.element with state := .undefined }
              trace := w1.trace ++ [.commitUnmount .null .null 1] }) ∧
    ((∃ r w2, componentUnmount exampleEnv .null .null 1 0 pendingWorld = .ok r w2) ∧
      ∀ r w2, componentUnmount exampleEnv .null .null 1 0 pendingWorld = .ok r w2 →
        r = .undefined ∧ w2.removals = pendingWorld.removals ∧
        ∃ evs, w2.trace = pendingWorld.trace ++ evs ++ [.commitUnmount .null .null 1] ∧
          "commitUnmount" ∉ names evs) :=
  have h1 := (componentUnmount_deferral exampleEnv .null .null 1 1 pendingWorld).1
    (fun _ _ => .ret (.promise 3)) 3 (by decide) rfl rfl
  have h2 := (componentUnmount_deferral exampleEnv .null .null 1 0 pendingWorld).2
    (Or.inl (by decide))
  ⟨h1, h2.1 exampleEnv_quiet ⟨_, rfl⟩, h2.2⟩

/-! ## Properties of settled promises, failed passes and updaters -/

/-- C21, counterexample: the will-unmount hook returns a promise and
componentUnmount attaches one handler to it; when the promise is rejected the
handler does not run and commitUnmount is not called, where a fulfilment calls it. -/
theorem componentUnmount_rejection_counterexample :
    ((componentUnmount exampleEnv .null .null 1 1 pendingWorld).world.map fun w => w.removals)
      = some [{ promise := 3, children := .null, parent := .null, signature := 1 }] ∧
    ((componentUnmount exampleEnv .null .null 1 1 pendingWorld).world.bind fun w =>
        (Removal.settle exampleEnv { promise := 3, children := .null, parent := .null, signature := 1 }
          (.rejected (.string "no")) w).world.map fun w2 => names w2.trace)
      = some [LifecycleWillUnmount] ∧
    ((componentUnmount exampleEnv .null .null 1 1 pendingWorld).world.bind fun w =>
        (Removal.settle exampleEnv { promise := 3, children := .null, parent := .null, signature := 1 }
          (.fulfilled .undefined) w).world.map fun w2 => names w2.trace)
      = some [LifecycleWillUnmount, "commitUnmount"] :=
  ⟨rfl, rfl, rfl⟩

/-- C21, amended: for a will-unmount hook that returns a Promise, componentUnmount
attaches a fulfilment handler and no rejection handler.  When the promise is
fulfilled the handler calls commitUnmount(children, parent, signature) once and
clears element.state; when it is rejected nothing of Component.js runs:
commitUnmount is not called, the host stays and element.state keeps the promise. -/
theorem componentUnmount_settle (env : Env) (children parent : Value) (signature : Nat)
    (resolve : Int) (w : World) (hk : Hook) (p : Nat)
    (hresolve : resolve > 0)
    (hhook : w.element.owner LifecycleWillUnmount = some hk)
    (hpromise : hk w.inst.this [] = .ret (.promise p)) :
    ∃ w2, componentUnmount env children parent signature resolve w = .ok (.bool true) w2 ∧
      w2.removals = w.removals ++
        [{ promise := p, children := children, parent := parent, signature := signature }] ∧
      w2.element.state = .promise p ∧
      w2.trace = w.trace ++ [.lifecycle LifecycleWillUnmount []] ∧
      (∀ v r, env.commitUnmount children parent signature = .ret r →
        Removal.settle env
            { promise := p, children := children, parent := parent, signature := signature }
            (.fulfilled v) w2 =
          .ok ()
            { w2 with
              element := { w2.element with state := .undefined }
              trace := w2.trace ++ [.commitUnmount children parent signature] }) ∧
      ∀ e, Removal.settle env
          { promise := p, children := children, parent := parent, signature := signature }
          (.rejected e) w2 = .ok () w2 := by
  refine ⟨{ w with
      element := { w.element with state := .promise p }
      removals := w.removals ++
        [{ promise := p, children := children, parent := parent, signature := signature }]
      trace := w.trace ++ [.lifecycle LifecycleWillUnmount []] }, ?_, rfl, rfl, rfl, ?_, fun _ => rfl⟩
  · simp [componentUnmount, run_bind, hresolve, hhook, lifecycleMount, tryCatch, callHook, hpromise]
  · intro v r hr
    simp [Removal.settle, Removal.onFulfilled, run_bind, commitUnmount_run hr, World.logged]

theorem componentUnmount_settle_witness :
    (1 : Int) > 0 ∧
    pendingWorld.element.owner LifecycleWillUnmount = some (fun _ _ => .ret (.promise 3)) ∧
    ∃ w2, componentUnmount exampleEnv .null .null 1 1 pendingWorld = .ok (.bool true) w2 ∧
      w2.removals = pendingWorld.removals ++
        [{ promise := 3, children := .null, parent := .null, signature := 1 }] ∧
      w2.element.state = .promise 3 ∧
      w2.trace = pendingWorld.trace ++ [.lifecycle LifecycleWillUnmount []] ∧
      (∀ v r, exampleEnv.commitUnmount .null .null 1 = .ret r →
        Removal.settle exampleEnv
            { promise := 3, children := .null, parent := .null, signature := 1 }
            (.fulfilled v) w2 =
          .ok ()
            { w2 with
              element := { w2.element with state := .undefined }
              trace := w2.trace ++ [.commitUnmount .null .null 1] }) ∧
      ∀ e, Removal.settle exampleEnv
          { promise := 3, children := .null, parent := .null, signature := 1 }
          (.rejected e) w2 = .ok () w2 :=
  ⟨by decide, rfl,
    componentUnmount_settle exampleEnv .null .null 1 1 pendingWorld (fun _ _ => .ret (.promise 3)) 3
      (by decide) rfl rfl⟩

/-- On an element whose work status is below Sync, a retry of enqueueUpdate
does nothing but schedule a retry. -/
theorem run_update_deferred {W : Work} {env : Env} (fuel : Nat) {t : Task} {w : World}
    (hw : w.element.work < W.WorkSync) (ht : t.isUpdate = true) :
    ∃ t1, t1.isUpdate = true ∧ Task.run W env fuel t w = .ok () { w with queue := w.queue ++ [t1] } := by
  cases t with
  | hostUpdate callback signature =>
    cases he : w.inst.element with
    | null =>
      exact ⟨.hostUpdate callback signature, rfl,
        by simp [Task.run, run_bind, getHostChildren, he, enqueueUpdate]⟩
    | ref =>
      exact ⟨.update .ref callback signature, rfl,
        by simp [Task.run, run_bind, getHostChildren, he, enqueueUpdate, hw]⟩
  | update element callback signature =>
    cases element with
    | null => exact ⟨.hostUpdate callback signature, rfl, by simp [Task.run, enqueueUpdate]⟩
    | ref =>
      exact ⟨.update .ref callback signature, rfl, by simp [Task.run, run_bind, enqueueUpdate, hw]⟩
  | state element value callback => cases ht

/-- On an element whose work status is below Sync, any number of retries of
enqueueUpdate makes no call and changes neither the element nor the instance:
each retry schedules one more. -/
theorem runTasks_deferred {W : Work} {env : Env} (fuel : Nat) :
    ∀ (ts : List Task) (w : World), (∀ t ∈ ts, t.isUpdate = true) → w.element.work < W.WorkSync →
      ∃ w2, runTasks W env fuel ts w = .ok () w2 ∧ w2.trace = w.trace ∧ w2.element = w.element ∧
        w2.inst = w.inst ∧ w2.queue.length = w.queue.length + ts.length := by
  intro ts
  induction ts with
  | nil =>
    intro w _ _
    exact ⟨w, rfl, rfl, rfl, rfl, rfl⟩
  | cons t ts ih =>
    intro w hts hw
    obtain ⟨t1, -, h1⟩ := run_update_deferred fuel hw (hts t (List.mem_cons_self _ _))
    obtain ⟨w2, h2, htr, hel, hin, hq⟩ := ih { w with queue := w.queue ++ [t1] }
      (fun t ht => hts t (List.mem_cons_of_mem _ ht)) hw
    refine ⟨w2, ?_, htr, hel, hin, ?_⟩
    · simp only [runTasks, run_bind]
      rw [h1]
      exact h2
    · rw [hq]
      simp
      omega

/-- C22: componentUpdate restores element.work to Sync only when it returns.
When an exception leaves a pass (a hook or render error that the dispatcher
re-raises, or a throw of the reconciler or of the ref resolver), element.work
is left at Task, which is not Sync; from then on every enqueueUpdate for the
element only schedules a retry, and however many retries are run, none makes a
call: no update runs again and the element stays as the throw left it. -/
theorem componentUpdate_throw_leaves_task (W : Work) (env : Env) (snapshot : Snapshot) (signature : Nat)
    (w : World) (hlt : W.WorkTask < W.WorkSync) (hguard : ¬ w.element.work < W.WorkSync) :
    (∀ w2, componentUpdate W env snapshot signature w = .ok () w2 → w2.element.work = W.WorkSync) ∧
    ∀ e w1, componentUpdate W env snapshot signature w = .throw e w1 →
      w1.element.work = W.WorkTask ∧ w1.element.work ≠ W.WorkSync ∧
      (∀ callback s, enqueueUpdate W env .ref callback s w1 =
        .ok () { w1 with queue := w1.queue ++ [.update .ref callback s] }) ∧
      ∀ fuel ts, (∀ t ∈ ts, t.isUpdate = true) →
        ∃ w2, runTasks W env fuel ts w1 = .ok () w2 ∧ w2.trace = w1.trace ∧
          w2.element = w1.element ∧ w2.inst = w1.inst ∧
          w2.queue.length = w1.queue.length + ts.length := by
  have hwork := componentUpdate_work W env snapshot signature w hguard
  constructor
  · intro w2 hrun
    rw [hrun] at hwork
    exact hwork
  · intro e w1 hrun
    rw [hrun] at hwork
    have hw1 : w1.element.work = W.WorkTask := hwork
    have hlt1 : w1.element.work < W.WorkSync := by omega
    refine ⟨hw1, by omega, ?_, fun fuel ts hts => runTasks_deferred fuel ts w1 hts hlt1⟩
    intro callback s
    simp [enqueueUpdate, run_bind, hlt1]

theorem componentUpdate_throw_leaves_task_witness :
    exampleWork.WorkTask < exampleWork.WorkSync ∧
    ¬ idleWorld.element.work < exampleWork.WorkSync ∧
    (∃ w1, componentUpdate exampleWork failingEnv idleWorld.element.snapshot 0 idleWorld
      = .throw (.string "fail") w1) ∧
    (∀ w2, componentUpdate exampleWork failingEnv idleWorld.element.snapshot 0 idleWorld = .ok () w2 →
      w2.element.work = exampleWork.WorkSync) ∧
    ∀ e w1, componentUpdate exampleWork failingEnv idleWorld.element.snapshot 0 idleWorld
        = .throw e w1 →
      w1.element.work = exampleWork.WorkTask ∧ w1.element.work ≠ exampleWork.WorkSync ∧
      (∀ callback s, enqueueUpdate exampleWork failingEnv .ref callback s w1 =
        .ok () { w1 with queue := w1.queue ++ [.update .ref callback s] }) ∧
      ∀ fuel ts, (∀ t ∈ ts, t.isUpdate = true) →
        ∃ w2, runTasks exampleWork failingEnv fuel ts w1 = .ok () w2 ∧ w2.trace = w1.trace ∧
          w2.element = w1.element ∧ w2.inst = w1.inst ∧
          w2.queue.length = w1.queue.length + ts.length :=
  have h := componentUpdate_throw_leaves_task exampleWork failingEnv idleWorld.element.snapshot 0
    idleWorld (by decide) (by decide)
  ⟨by decide, by decide, ⟨_, rfl⟩, h.1, h.2⟩

/-- C23: enqueueState with a falsy state does nothing at all: the world is as
before, so element.state is unchanged, nothing is scheduled, no update runs and
the completion callback is not called; the same holds through setState.  With
an updater function that returns a falsy value, or that throws into a
dispatcher that returns, the only calls are the one of the updater and the
dispatcher: the element, the instance and the queue are as before. -/
theorem enqueueState_falsy (W : Work) (env : Env) (fuel : Nat) (element : ElementRef)
    (state callback : Value) (w : World) (hfalsy : state.truthy = false) :
    enqueueState W env fuel element state callback w = .ok () w ∧
    setState W env fuel state callback w = .ok () w ∧
    (∀ f v, env.call f w.inst.this [w.inst.state, w.inst.props] = .ret v → v.truthy = false →
      enqueueState W env (fuel + 1) element (.func f) callback w =
        .ok () (w.logged [.callback f w.inst.state w.inst.props])) ∧
    ∀ f e v, env.call f w.inst.this [w.inst.state, w.inst.props] = .thr e →
      env.boundary e (LifecycleState ++ ":" ++ LifecycleCallback) = some v →
      enqueueState W env (fuel + 1) element (.func f) callback w =
        .ok () (w.logged [.callback f w.inst.state w.inst.props,
          .errorBoundary e (LifecycleState ++ ":" ++ LifecycleCallback) 1]) := by
  have hnoop : ∀ (n : Nat) (el : ElementRef) (s : Value) (w1 : World), s.truthy = false →
      enqueueState W env n el s callback w1 = .ok () w1 := by
    intro n el s w1 hs
    cases s <;> simp [Value.truthy] at hs <;> cases n <;> simp [enqueueState, Value.truthy, hs]
  refine ⟨hnoop fuel element state w hfalsy, ?_, ?_, ?_⟩
  · simp only [setState, run_bind, run_getWorld]
    exact hnoop fuel _ state w hfalsy
  · intro f v hv hf
    have hcall : enqueueCallback env (.func f) w =
        .ok v (w.logged [.callback f w.inst.state w.inst.props]) := by
      simp [enqueueCallback, tryCatch, run_bind, hv, World.logged]
    simp only [enqueueState, Value.truthy, if_true, run_bind]
    rw [hcall]
    exact hnoop fuel element v _ hf
  · intro f e v he hb
    have hcall : enqueueCallback env (.func f) w =
        .ok .undefined (w.logged [.callback f w.inst.state w.inst.props,
          .errorBoundary e (LifecycleState ++ ":" ++ LifecycleCallback) 1]) := by
      simp [enqueueCallback, tryCatch, run_bind, he, errorBoundary_run, hb, World.logged]
    simp only [enqueueState, Value.truthy, if_true, run_bind]
    rw [hcall]
    exact hnoop fuel element .undefined _ rfl

theorem enqueueState_falsy_witness :
    (Value.number 0).truthy = false ∧
    enqueueState exampleWork exampleEnv 1 .ref (.number 0) (.func 7) idleWorld = .ok () idleWorld ∧
    setState exampleWork exampleEnv 1 (.number 0) (.func 7) idleWorld = .ok () idleWorld ∧
    (∀ f v, exampleEnv.call f idleWorld.inst.this [idleWorld.inst.state, idleWorld.inst.props] = .ret v →
      v.truthy = false →
      enqueueState exampleWork exampleEnv (1 + 1) .ref (.func f) (.func 7) idleWorld =
        .ok () (idleWorld.logged [.callback f idleWorld.inst.state idleWorld.inst.props])) ∧
    ∀ f e v, exampleEnv.call f idleWorld.inst.this [idleWorld.inst.state, idleWorld.inst.props] = .thr e →
      exampleEnv.boundary e (LifecycleState ++ ":" ++ LifecycleCallback) = some v →
      enqueueState exampleWork exampleEnv (1 + 1) .ref (.func f) (.func 7) idleWorld =
        .ok () (idleWorld.logged [.callback f idleWorld.inst.state idleWorld.inst.props,
          .errorBoundary e (LifecycleState ++ ":" ++ LifecycleCallback) 1]) :=
  ⟨rfl, enqueueState_falsy exampleWork exampleEnv 1 .ref (.number 0) (.func 7) idleWorld rfl⟩

/-- One setState with an updater on an element in the middle of a pass: the
updater is called on instance.state, its result is merged over the queued
state, and the update is deferred. -/
theorem setState_updater_mid_update {W : Work} {env : Env} (fuel : Nat) {f : Nat} (callback : Value)
    {w : World} {s : Fields} (hlt : W.WorkTask < W.WorkSync) (hmid : w.element.work = W.WorkTask)
    (href : w.inst.element = .ref)
    (hcall : env.call f w.inst.this [w.inst.state, w.inst.props] = .ret (.object s)) :
    setState W env (fuel + 1) (.func f) callback w =
      .ok () { w with
        element := { w.element with state := assign (.object []) w.element.state (.object s) }
        queue := w.queue ++ [.update .ref callback 2]
        trace := w.trace ++ [.callback f w.inst.state w.inst.props] } := by
  have hne : ¬ W.WorkTask = W.WorkSync := by omega
  have hcb : enqueueCallback env (.func f) w =
      .ok (.object s) (w.logged [.callback f w.inst.state w.inst.props]) := by
    simp [enqueueCallback, tryCatch, run_bind, hcall, World.logged]
  simp only [setState, run_bind, run_getWorld, href, enqueueState, Value.truthy, if_true]
  rw [hcb]
  cases fuel <;>
    simp [enqueueState, Value.truthy, run_bind, enqueueUpdate, World.logged, hmid, hlt, hne]

/-- C24: an updater function is handed the committed instance.state, not the
queued element.state.  On an element in the middle of a pass whose instance
state has n = k, two consecutive setState calls with the updater
`s => ({n: s.n + 1})` both call the updater on instance.state, which no call
changes, and leave the queued element.state with n = k + 1, not k + 2. -/
theorem setState_updater_committed_state (W : Work) (env : Env) (fuel : Nat) (f : Nat)
    (callback : Value) (w : World) (k : Int)
    (hlt : W.WorkTask < W.WorkSync) (hmid : w.element.work = W.WorkTask)
    (href : w.inst.element = .ref)
    (hstate : getField "n" w.inst.state.fields = some (.number k))
    (hupdater : ∀ t s p m, getField "n" s.fields = some (.number m) →
      env.call f t [s, p] = .ret (.object [("n", .number (m + 1))])) :
    ∃ w1 w2,
      setState W env (fuel + 1) (.func f) callback w = .ok () w1 ∧
      setState W env (fuel + 1) (.func f) callback w1 = .ok () w2 ∧
      getField "n" w1.element.state.fields = some (.number (k + 1)) ∧
      getField "n" w2.element.state.fields = some (.number (k + 1)) ∧
      Value.number (k + 1) ≠ .number (k + 2) ∧
      w2.inst.state = w.inst.state ∧
      w2.trace = w.trace ++ [.callback f w.inst.state w.inst.props,
        .callback f w.inst.state w.inst.props] := by
  have h1 := setState_updater_mid_update fuel callback hlt hmid href
    (hupdater w.inst.this w.inst.state w.inst.props k hstate)
  refine ⟨_, _, h1, setState_updater_mid_update fuel callback hlt hmid href
    (hupdater w.inst.this w.inst.state w.inst.props k hstate), ?_, ?_, ?_, rfl, ?_⟩
  · show getField "n" (assign (.object []) w.element.state (.object [("n", .number (k + 1))])).fields
      = some (.number (k + 1))
    simp only [assign, fields_object]
    rw [getField_assignFields _ _ _ (by simp [keys])]
    simp [mergedField, getField]
  · show getField "n" (assign (.object [])
        (assign (.object []) w.element.state (.object [("n", .number (k + 1))]))
        (.object [("n", .number (k + 1))])).fields = some (.number (k + 1))
    simp only [assign, fields_object]
    rw [getField_assignFields _ _ _ (by simp [keys])]
    simp [mergedField, getField]
  · intro h
    have := Value.number.inj h
    omega
  · simp

theorem setState_updater_committed_state_witness :
    exampleWork.WorkTask < exampleWork.WorkSync ∧
    counterWorld.element.work = exampleWork.WorkTask ∧
    getField "n" counterWorld.inst.state.fields = some (.number 5) ∧
    ∃ w1 w2,
      setState exampleWork counterEnv (0 + 1) (.func 1) .undefined counterWorld = .ok () w1 ∧
      setState exampleWork counterEnv (0 + 1) (.func 1) .undefined w1 = .ok () w2 ∧
      getField "n" w1.element.state.fields = some (.number (5 + 1)) ∧
      getField "n" w2.element.state.fields = some (.number (5 + 1)) ∧
      Value.number (5 + 1) ≠ .number (5 + 2) ∧
      w2.inst.state = counterWorld.inst.state ∧
      w2.trace = counterWorld.trace ++
        [.callback 1 counterWorld.inst.state counterWorld.inst.props,
          .callback 1 counterWorld.inst.state counterWorld.inst.props] :=
  ⟨by decide, rfl, rfl,
    setState_updater_committed_state exampleWork counterEnv 0 1 .undefined counterWorld 5
      (by decide) rfl rfl rfl
      (by
        intro t s p m h
        simp [counterEnv, increment, h])⟩

end Dyo
